import Mathlib

/-!
Accordion container (`widget/accordioncontainer.go`).

A shallow embedding of the accordion widget and of its renderer.

Modelling conventions.

* Go pointers are addresses into explicit heaps.  An `*AccordionItem` is a
  `Nat` index into `State.items`; a `fyne.CanvasObject` held in
  `AccordionItem.Detail` is a `Nat` index into `State.objects`.  An address
  outside its heap plays the part of `nil`: dereferencing it panics.
* A panic is the result `none`; a call that returns is `some` of the state
  it leaves behind.
* A Go `int` is an `Int`; every sum the program computes is wrapped around
  into the 64-bit range, as the machine addition does (`addInt`).
* The header buttons are created by the renderer itself (`&Button{}`), one
  fresh pointer per cache slot, so the cache is a list of `Button` values.
* What the host framework supplies (theme padding, the minimum size of a
  button) is the parameter `Host`.
-/

namespace widget

/-! ## Host framework types -/

/-- The type `fyne.Size`. -/
structure Size where
  Width : Int
  Height : Int
deriving DecidableEq, Repr

/-- The type `fyne.Position`. -/
structure Position where
  X : Int
  Y : Int
deriving DecidableEq, Repr

/-- The two theme icons the renderer assigns: `theme.MoveUpIcon()` and
`theme.MoveDownIcon()`. -/
inductive Icon where
  | MoveUpIcon
  | MoveDownIcon
deriving DecidableEq, Repr

/-- Modelled from the spec: `fyne.Max`, the maximum of two integers (the
width of `MinSize` is "the maximum of" the widths it meets). -/
def Max (x y : Int) : Int := if x < y then y else x

/-- The value that a 64-bit Go `int` holds for the mathematical integer `x`:
`x` wrapped around into the range `-2^63 .. 2^63 - 1`. -/
def wrapInt (x : Int) : Int :=
  (x + 9223372036854775808) % 18446744073709551616 - 9223372036854775808

/-- The Go expression `x + y` on `int`s, which wraps around silently. -/
def addInt (x y : Int) : Int := wrapInt (x + y)

/-- Whether the integer `x` lies in the range of a 64-bit Go `int`. -/
def inIntRange (x : Int) : Prop :=
  -9223372036854775808 ≤ x ∧ x ≤ 9223372036854775807

instance (x : Int) : Decidable (inIntRange x) := by
  unfold inIntRange
  infer_instance

/-- The services of the host framework that the accordion consumes:
`theme.Padding()` and the minimum size a `Button` reports, which the button
derives from its text and icon. -/
structure Host where
  Padding : Int
  buttonMinSize : String → Option Icon → Size

/-- The state of a detail pane as seen through the `fyne.CanvasObject`
interface: its minimum size, its visibility flag, and the position and size
last given to it by `Move` and `Resize`. -/
structure CanvasObject where
  minSize : Size
  Hidden : Bool
  Pos : Position
  Sz : Size
deriving DecidableEq, Repr

/-- The struct `AccordionItem`; `Detail` is a reference into the heap of
canvas objects. -/
structure AccordionItem where
  Title : String
  Detail : Nat
  Open : Bool
deriving DecidableEq, Repr

/-- The fields of `Button` that the accordion reads and writes.  `OnTapped`
holds the index captured by the closure `toggleForIndex(index)`, `none` for
a nil handler. -/
structure Button where
  Hidden : Bool
  Text : String
  Icon : Option Icon
  OnTapped : Option Nat
  Pos : Position
  Sz : Size
deriving DecidableEq, Repr

/-- The zero value `Button{}`. -/
def Button.zero : Button :=
  { Hidden := false, Text := "", Icon := none, OnTapped := none,
    Pos := { X := 0, Y := 0 }, Sz := { Width := 0, Height := 0 } }

/-- The call `h.MinSize()` on a header button. -/
def Button.MinSize (host : Host) (h : Button) : Size :=
  host.buttonMinSize h.Text h.Icon

/-- Modelled from the spec: `Button.Hide()`, by which a surplus header "is
hidden"; it sets the visibility flag. -/
def Button.Hide (h : Button) : Button := { h with Hidden := true }

/-- Modelled from the spec: `Button.Move(pos)`, which places the header at
`pos`. -/
def Button.Move (h : Button) (pos : Position) : Button := { h with Pos := pos }

/-- Modelled from the spec: `Button.Resize(size)`, which gives the header the
size `size`. -/
def Button.Resize (h : Button) (size : Size) : Button := { h with Sz := size }

/-- Modelled from the spec: the call `d.Move(pos)` of the canvas-object
interface, which places the detail pane at `pos`. -/
def CanvasObject.Move (d : CanvasObject) (pos : Position) : CanvasObject :=
  { d with Pos := pos }

/-- Modelled from the spec: the call `d.Resize(size)` of the canvas-object
interface, which gives the detail pane the size `size`. -/
def CanvasObject.Resize (d : CanvasObject) (size : Size) : CanvasObject :=
  { d with Sz := size }

/-- The struct `AccordionContainer`: `Items` holds item pointers, `size` is
the size kept by the embedded `BaseWidget`. -/
structure AccordionContainer where
  Items : List Nat
  MultiOpen : Bool
  size : Size
deriving DecidableEq, Repr

/-- The struct `accordionContainerRenderer`; its `container` pointer is the
container of the same `State`. -/
structure accordionContainerRenderer where
  headers : List Button
deriving DecidableEq, Repr

/-- A program state: the two heaps, the container and its renderer. -/
structure State where
  items : List AccordionItem
  objects : List CanvasObject
  a : AccordionContainer
  r : accordionContainerRenderer
deriving DecidableEq, Repr

/-! ## Heap access -/

/-- The assignment `ai.Open = v` through the pointer `ai`; panics on nil. -/
def setOpen (items : List AccordionItem) (ai : Nat) (v : Bool) :
    Option (List AccordionItem) :=
  match items[ai]? with
  | some it => some (items.set ai { it with Open := v })
  | none => none

/-- Modelled from the spec: the calls `d.Show()` (`hidden = false`) and
`d.Hide()` (`hidden = true`) of the canvas-object interface, which make the
detail pane visible or hide it; a nil interface value panics. -/
def setHidden (objects : List CanvasObject) (d : Nat) (hidden : Bool) :
    Option (List CanvasObject) :=
  match objects[d]? with
  | some o => some (objects.set d { o with Hidden := hidden })
  | none => none

/-- The read `Items[i].Open` in state `s`: `none` when `i` is out of range
or the pointer is nil. -/
def openFlag (s : State) (i : Nat) : Option Bool :=
  match s.a.Items[i]? with
  | some p => (s.items[p]?).map AccordionItem.Open
  | none => none

/-- Whether the item behind pointer `p` is open (`false` for nil). -/
def isOpen (items : List AccordionItem) (p : Nat) : Bool :=
  match items[p]? with
  | some it => it.Open
  | none => false

/-- The number of entries of `Items` whose `Open` flag is true. -/
def openCount (s : State) : Nat :=
  (s.a.Items.filter (isOpen s.items)).length

/-! ## The renderer -/

/-- The first loop of `updateObjects`, from index `i` on over the remaining
items; `hs` is the length of the header cache on entry to `updateObjects`.
The header `h` is the cached one of slot `i` or, past the cache, a fresh
`&Button{}` appended to it.  The closing `h.Refresh()` repaints the button
and changes none of its fields. -/
def updateLoop (items : List AccordionItem) (hs : Nat) :
    Nat → List Nat → List CanvasObject → List Button →
    Option (List CanvasObject × List Button)
  | _, [], objects, headers => some (objects, headers)
  | i, p :: rest, objects, headers =>
    let slot : Nat × List Button :=
      if i < hs then (i, headers) else (headers.length, headers ++ [Button.zero])
    match slot.2[slot.1]?, items[p]? with
    | some h, some ai =>
      let h1 : Button :=
        { h with
          Hidden := false
          Text := ai.Title
          OnTapped := some i
          Icon := some (if ai.Open then Icon.MoveUpIcon else Icon.MoveDownIcon) }
      match setHidden objects ai.Detail (!ai.Open) with
      | some objects1 =>
        updateLoop items hs (i + 1) rest objects1 (slot.2.set slot.1 h1)
      | none => none
    | _, _ => none

/-- The second loop of `updateObjects` ("Hide extras"): `n` more iterations
starting at index `i`, each calling `headers[i].Hide()`. -/
def hideLoop : Nat → Nat → List Button → Option (List Button)
  | 0, _, headers => some headers
  | n + 1, i, headers =>
    match headers[i]? with
    | some h => hideLoop n (i + 1) (headers.set i h.Hide)
    | none => none

/-- The method `accordionContainerRenderer.updateObjects`. -/
def updateObjects (s : State) : Option State :=
  let cnt := s.a.Items.length
  let hs := s.r.headers.length
  match updateLoop s.items hs 0 s.a.Items s.objects s.r.headers with
  | some (objects, headers) =>
    match hideLoop (hs - cnt) cnt headers with
    | some headers1 => some { s with objects := objects, r := { headers := headers1 } }
    | none => none
  | none => none

/-- The loop of `accordionContainerRenderer.Layout`, from index `i` on with
vertical cursor `y` (`x` stays 0); every `+=` is the wrapping `int` addition.
Returns the final cursor with the heaps. -/
def layoutLoop (host : Host) (items : List AccordionItem) (width : Int) :
    Nat → List Nat → Int → List CanvasObject → List Button →
    Option (Int × List CanvasObject × List Button)
  | _, [], y, objects, headers => some (y, objects, headers)
  | i, p :: rest, y, objects, headers =>
    let y1 := if i ≠ 0 then addInt y host.Padding else y
    match headers[i]?, items[p]? with
    | some h, some ai =>
      let h1 := h.Move { X := 0, Y := y1 }
      let min := (h1.MinSize host).Height
      let headers1 := headers.set i (h1.Resize { Width := width, Height := min })
      let y2 := addInt y1 min
      if ai.Open then
        let y3 := addInt y2 host.Padding
        match objects[ai.Detail]? with
        | some d =>
          let d1 := d.Move { X := 0, Y := y3 }
          let dmin := d1.minSize.Height
          let objects1 := objects.set ai.Detail (d1.Resize { Width := width, Height := dmin })
          layoutLoop host items width (i + 1) rest (addInt y3 dmin) objects1 headers1
        | none => none
      else
        layoutLoop host items width (i + 1) rest y2 objects headers1
    | _, _ => none

/-- The method `accordionContainerRenderer.Layout`. -/
def Layout (host : Host) (s : State) (size : Size) : Option State :=
  match layoutLoop host s.items size.Width 0 s.a.Items 0 s.objects s.r.headers with
  | some (_, objects, headers) => some { s with objects := objects, r := { headers := headers } }
  | none => none

/-- The loop of `accordionContainerRenderer.MinSize`, from index `i` on with
the running `width` and `height`; every `+=` is the wrapping `int` addition. -/
def minSizeLoop (host : Host) (items : List AccordionItem) (objects : List CanvasObject)
    (headers : List Button) : Nat → List Nat → Int → Int → Option Size
  | _, [], width, height => some { Width := width, Height := height }
  | i, p :: rest, width, height =>
    let height1 := if i ≠ 0 then addInt height host.Padding else height
    match headers[i]?, items[p]? with
    | some h, some ai =>
      let min := h.MinSize host
      let width1 := Max width min.Width
      let height2 := addInt height1 min.Height
      if ai.Open then
        let height3 := addInt height2 host.Padding
        match objects[ai.Detail]? with
        | some d =>
          minSizeLoop host items objects headers (i + 1) rest
            (Max width1 d.minSize.Width) (addInt height3 d.minSize.Height)
        | none => none
      else
        minSizeLoop host items objects headers (i + 1) rest width1 height2
    | _, _ => none

/-- The method `accordionContainerRenderer.MinSize`. -/
def MinSize (host : Host) (s : State) : Option Size :=
  minSizeLoop host s.items s.objects s.r.headers 0 s.a.Items 0 0

/-- An entry of the slice returned by `Objects()`: a header button of the
cache, named by its slot, or a detail pane, named by its address. -/
inductive ObjRef where
  | header (slot : Nat)
  | detail (addr : Nat)
deriving DecidableEq, Repr

/-- The second loop of `Objects`: `objects = append(objects, i.Detail)` for
each item. -/
def detailRefs (items : List AccordionItem) : List Nat → Option (List ObjRef)
  | [] => some []
  | p :: rest =>
    match items[p]?, detailRefs items rest with
    | some ai, some tl => some (ObjRef.detail ai.Detail :: tl)
    | _, _ => none

/-- The method `accordionContainerRenderer.Objects`. -/
def Objects (s : State) : Option (List ObjRef) :=
  match detailRefs s.items s.a.Items with
  | some ds => some ((List.range s.r.headers.length).map ObjRef.header ++ ds)
  | none => none

/-- The method `accordionContainerRenderer.Refresh`: `updateObjects`, then
`Layout(r.container.Size())`; the closing `canvas.Refresh` only requests a
repaint. -/
def rendererRefresh (host : Host) (s : State) : Option State :=
  match updateObjects s with
  | some s1 => Layout host s1 s1.a.size
  | none => none

/-- Modelled from the spec: `BaseWidget.Refresh`, reached as `a.Refresh()`;
a refresh "asks the renderer to rebuild its cached header buttons,
re-layout, and request a redraw". -/
def Refresh (host : Host) (s : State) : Option State :=
  rendererRefresh host s

/-! ## The container -/

/-- The function `NewAccordionContainer(items...)` over the given heaps: the
items are stored in argument order, `MultiOpen` is false, and no header has
been built yet. -/
def NewAccordionContainer (items : List AccordionItem) (objects : List CanvasObject)
    (ptrs : List Nat) : State :=
  { items := items, objects := objects,
    a := { Items := ptrs, MultiOpen := false, size := { Width := 0, Height := 0 } },
    r := { headers := [] } }

/-- The method `AccordionContainer.CreateRenderer`: a renderer with an empty
header cache, then `updateObjects`. -/
def CreateRenderer (s : State) : Option State :=
  updateObjects { s with r := { headers := [] } }

/-- The method `AccordionContainer.Append`. -/
def Append (host : Host) (s : State) (item : Nat) : Option State :=
  Refresh host { s with a := { s.a with Items := s.a.Items ++ [item] } }

/-- The method `AccordionContainer.RemoveIndex`.  The slice expressions
`a.Items[:index]` and `a.Items[index+1:]` panic unless
`0 ≤ index < len(a.Items)`. -/
def RemoveIndex (host : Host) (s : State) (index : Int) : Option State :=
  if index < 0 ∨ index ≥ (s.a.Items.length : Int) then none
  else
    Refresh host
      { s with a := { s.a with
          Items := s.a.Items.take index.toNat ++ s.a.Items.drop (index.toNat + 1) } }

/-- The loop of `AccordionContainer.Remove`, from index `i` on: at the first
pointer equal to `item` it calls `RemoveIndex(i)` and breaks. -/
def removeLoop (host : Host) (s : State) (item : Nat) : Nat → List Nat → Option State
  | _, [] => some s
  | i, ai :: rest =>
    if ai = item then RemoveIndex host s (i : Int) else removeLoop host s item (i + 1) rest

/-- The method `AccordionContainer.Remove`. -/
def Remove (host : Host) (s : State) (item : Nat) : Option State :=
  removeLoop host s item 0 s.a.Items

/-- The loop of `AccordionContainer.Open`, from index `i` on over the
remaining item pointers. -/
def openLoop (multiOpen : Bool) (index : Int) :
    Nat → List Nat → List AccordionItem → Option (List AccordionItem)
  | _, [], items => some items
  | i, ai :: rest, items =>
    if (i : Int) = index then
      match setOpen items ai true with
      | some items1 => openLoop multiOpen index (i + 1) rest items1
      | none => none
    else if !multiOpen then
      match setOpen items ai false with
      | some items1 => openLoop multiOpen index (i + 1) rest items1
      | none => none
    else openLoop multiOpen index (i + 1) rest items

/-- The method `AccordionContainer.Open`. -/
def Open (host : Host) (s : State) (index : Int) : Option State :=
  if index < 0 ∨ index ≥ (s.a.Items.length : Int) then some s
  else
    match openLoop s.a.MultiOpen index 0 s.a.Items s.items with
    | some items1 => Refresh host { s with items := items1 }
    | none => none

/-- The loops of `OpenAll` (`v = true`) and `CloseAll` (`v = false`):
`i.Open = v` for each item. -/
def setAllLoop (v : Bool) : List Nat → List AccordionItem → Option (List AccordionItem)
  | [], items => some items
  | ai :: rest, items =>
    match setOpen items ai v with
    | some items1 => setAllLoop v rest items1
    | none => none

/-- The method `AccordionContainer.OpenAll`. -/
def OpenAll (host : Host) (s : State) : Option State :=
  if !s.a.MultiOpen then some s
  else
    match setAllLoop true s.a.Items s.items with
    | some items1 => Refresh host { s with items := items1 }
    | none => none

/-- The method `AccordionContainer.Close`. -/
def Close (host : Host) (s : State) (index : Int) : Option State :=
  if index < 0 ∨ index ≥ (s.a.Items.length : Int) then some s
  else
    match s.a.Items[index.toNat]? with
    | some ai =>
      match setOpen s.items ai false with
      | some items1 => Refresh host { s with items := items1 }
      | none => none
    | none => none

/-- The method `AccordionContainer.CloseAll`. -/
def CloseAll (host : Host) (s : State) : Option State :=
  match setAllLoop false s.a.Items s.items with
  | some items1 => Refresh host { s with items := items1 }
  | none => none

/-- The closure returned by `toggleForIndex(index)`, invoked in state `s`. -/
def toggleForIndex (host : Host) (s : State) (index : Nat) : Option State :=
  match s.a.Items[index]? with
  | some ai =>
    match s.items[ai]? with
    | some it => if it.Open then Close host s (index : Int) else Open host s (index : Int)
    | none => none
  | none => none

/-- The public mutating operations of the container. -/
inductive Op where
  | Append (item : Nat)
  | Remove (item : Nat)
  | RemoveIndex (index : Int)
  | Open (index : Int)
  | OpenAll
  | Close (index : Int)
  | CloseAll
deriving DecidableEq, Repr

/-- One public operation applied to a state. -/
def step (host : Host) (s : State) : Op → Option State
  | Op.Append item => Append host s item
  | Op.Remove item => Remove host s item
  | Op.RemoveIndex index => RemoveIndex host s index
  | Op.Open index => Open host s index
  | Op.OpenAll => OpenAll host s
  | Op.Close index => Close host s index
  | Op.CloseAll => CloseAll host s

/-- A sequence of public operations applied in order; `none` as soon as one
of them panics. -/
def run (host : Host) : State → List Op → Option State
  | s, [] => some s
  | s, op :: ops =>
    match step host s op with
    | some s1 => run host s1 ops
    | none => none

/-! ## Well-formed states -/

/-- An item with its `Open` flag cleared: what an assignment to `Open`
cannot change. -/
def eraseOpen (ai : AccordionItem) : AccordionItem := { ai with Open := false }

/-- Two item heaps that differ in `Open` flags only. -/
def sameShape (items items1 : List AccordionItem) : Prop :=
  items1.map eraseOpen = items.map eraseOpen

/-- The pointer `p` is not nil and its `Detail` is not nil, for a heap of
`nobj` canvas objects. -/
def validItem (items : List AccordionItem) (nobj : Nat) (p : Nat) : Bool :=
  match items[p]? with
  | some ai => decide (ai.Detail < nobj)
  | none => false

/-- Every entry of `Items` is a non-nil item with a non-nil detail pane. -/
def wellFormed (s : State) : Bool :=
  s.a.Items.all (validItem s.items s.objects.length)

/-- Two canvas-object heaps whose objects report the same minimum sizes. -/
def sameMin (objects objects1 : List CanvasObject) : Prop :=
  objects1.map CanvasObject.minSize = objects.map CanvasObject.minSize

/-- What a header button shows and does: all of its fields but the position
and size that `Layout` assigns. -/
def Button.face (b : Button) : Bool × String × Option widget.Icon × Option Nat :=
  (b.Hidden, b.Text, b.Icon, b.OnTapped)

/-- Two header caches that differ in positions and sizes only. -/
def sameFace (headers headers1 : List Button) : Prop :=
  headers1.map Button.face = headers.map Button.face

/-- The icon `updateObjects` gives the header of an item. -/
def iconFor (isOpen : Bool) : Icon :=
  if isOpen then Icon.MoveUpIcon else Icon.MoveDownIcon

/-- The header of every item shows that item: it is visible, carries the
item's title, the icon of the item's open state and the toggle of its own
index. -/
def synced (s : State) : Prop :=
  ∀ k p, s.a.Items[k]? = some p →
    ∃ (b : Button) (ai : AccordionItem), s.r.headers[k]? = some b ∧ s.items[p]? = some ai ∧
      b.Hidden = false ∧ b.Text = ai.Title ∧ b.OnTapped = some k ∧
      b.Icon = some (iconFor ai.Open)

/-- Example host: padding 4, every header button 100 wide and 20 high. -/
def exHost : Host := { Padding := 4, buttonMinSize := fun _ _ => { Width := 100, Height := 20 } }

/-- Example detail pane: minimum size 200 by 60. -/
def exDetail : CanvasObject :=
  { minSize := { Width := 200, Height := 60 }, Hidden := false,
    Pos := { X := 0, Y := 0 }, Sz := { Width := 0, Height := 0 } }

/-- Example container: two distinct closed items, single-open mode. -/
def exTwo : State :=
  NewAccordionContainer
    [{ Title := "first", Detail := 0, Open := false },
     { Title := "second", Detail := 1, Open := false }]
    [exDetail, exDetail] [0, 1]

/-- Example container: one closed item that `Items` lists twice, single-open
mode. -/
def exTwice : State :=
  NewAccordionContainer [{ Title := "only", Detail := 0, Open := false }] [exDetail] [0, 0]

/-- Example state: `exTwo` after `Open(1)`; the second item is open and the
renderer is refreshed. -/
def exTwoSecondOpen : State := (Open exHost exTwo 1).getD exTwo

/-- Example state: `exTwice` after `Open(1)`; the twice-listed item is open. -/
def exTwiceOpen : State := (Open exHost exTwice 1).getD exTwice

/-- Whether an operation keeps single-open mode intact in state `s`.  Two
operations do not: an `Append` of an open item while some entry is open, and
an `Open` at the last of several entries that list the same item.  Every
other operation is unrestricted. -/
def guarded (s : State) : Op → Bool
  | Op.Append item => !isOpen s.items item || decide (openCount s = 0)
  | Op.Open index =>
    match (if 0 ≤ index then s.a.Items[index.toNat]? else none) with
    | some p =>
      decide (p ∈ s.a.Items.drop (index.toNat + 1)) || decide (s.a.Items.count p ≤ 1)
    | none => true
  | _ => true

/-- Whether every operation of the sequence is `guarded` in the state it is
applied to (up to the first panic, if any). -/
def runGuarded (host : Host) : State → List Op → Bool
  | _, [] => true
  | s, op :: ops =>
    guarded s op &&
      match step host s op with
      | some s1 => runGuarded host s1 ops
      | none => true

/-- The single-open invariant: single-open mode and at most one entry open. -/
def singleOpenInv (s : State) : Prop :=
  s.a.MultiOpen = false ∧ openCount s ≤ 1

/-- Example heaps with three closed items, and a container that lists none
of them yet. -/
def exEmpty : State :=
  NewAccordionContainer
    [{ Title := "first", Detail := 0, Open := false },
     { Title := "second", Detail := 1, Open := false },
     { Title := "third", Detail := 2, Open := false }]
    [exDetail, exDetail, exDetail] []

/-- Example state: a rendered container whose `Items` lists the first item of
`exEmpty`. -/
def exOne : State := (Append exHost exEmpty 0).getD exEmpty

/-- Example state: `exOne` after `Append` of the second item. -/
def exOneAppended : State := (Append exHost exOne 1).getD exOne

/-- The minimum size of the header button in slot `i` (zero if the cache has
no such slot). -/
def headerMin (host : Host) (s : State) (i : Nat) : Size :=
  match s.r.headers[i]? with
  | some h => h.MinSize host
  | none => { Width := 0, Height := 0 }

/-- The minimum size of the detail pane of the item behind pointer `p` (zero
for nil). -/
def detailMin (s : State) (p : Nat) : Size :=
  match s.items[p]? with
  | some ai =>
    match s.objects[ai.Detail]? with
    | some d => d.minSize
    | none => { Width := 0, Height := 0 }
  | none => { Width := 0, Height := 0 }

/-- The height one item contributes, as the spec words it: the header's
minimum height, plus padding and the detail's minimum height if the item is
open.  The entry `e` is the pair of the item's index and its pointer. -/
def entryHeight (host : Host) (s : State) (e : Nat × Nat) : Int :=
  (headerMin host s e.1).Height +
    (if isOpen s.items e.2 then host.Padding + (detailMin s e.2).Height else 0)

/-- The height of `MinSize` as the spec words it: the sum of the items'
contributions plus `max(0, n - 1) · pad` of padding between them. -/
def specHeight (host : Host) (s : State) : Int :=
  (s.a.Items.enum.map (entryHeight host s)).sum +
    max 0 ((s.a.Items.length : Int) - 1) * host.Padding

/-- The maximum of 0 and every number of the list. -/
def maxOf (l : List Int) : Int := l.foldr max 0

/-- The width of `MinSize` as the spec words it: the maximum of 0, every
item's header minimum width and every open item's detail minimum width. -/
def specWidth (host : Host) (s : State) : Int :=
  maxOf (s.a.Items.enum.map (fun e => (headerMin host s e.1).Width) ++
    (s.a.Items.filter (isOpen s.items)).map (fun p => (detailMin s p).Width))

/-- Example detail pane: minimum size 200 by 10. -/
def exShort : CanvasObject :=
  { minSize := { Width := 200, Height := 10 }, Hidden := false,
    Pos := { X := 0, Y := 0 }, Sz := { Width := 0, Height := 0 } }

/-- Example state: two distinct items in single-open mode, the first with a
detail pane 60 high and open, the second with a detail pane 10 high and
closed; rendered. -/
def exMixed : State :=
  (Open exHost
    (NewAccordionContainer
      [{ Title := "first", Detail := 0, Open := false },
       { Title := "second", Detail := 1, Open := false }]
      [exDetail, exShort] [0, 1]) 0).getD exTwo

/-- Example state: `exTwo` after a refresh; both items closed. -/
def exTwoRendered : State := (Refresh exHost exTwo).getD exTwo

/-- Example state: a rendered container with no item. -/
def exEmptyRendered : State := (CreateRenderer exEmpty).getD exEmpty

/-- Example state: one item, open. -/
def exOneOpen : State := (Open exHost exOne 0).getD exOne

/-- Example state: three items in multi-open mode after `OpenAll`. -/
def exThreeOpen : State :=
  (run exHost { exEmpty with a := { exEmpty.a with MultiOpen := true } }
    [Op.Append 0, Op.Append 1, Op.Append 2, Op.OpenAll]).getD exEmpty

/-- Example state: `exTwo` in multi-open mode. -/
def exTwoMulti : State := { exTwo with a := { exTwo.a with MultiOpen := true } }

/-- The header-cache invariant: the cache has a header for every item, the
headers of the items are visible and the surplus headers are hidden. -/
def cacheInv (s : State) : Prop :=
  s.a.Items.length ≤ s.r.headers.length ∧
  ∀ (k : Nat) (b : Button), s.r.headers[k]? = some b →
    b.Hidden = decide (s.a.Items.length ≤ k)

/-- Example state: the rendered empty container after three appends and two
removals. -/
def exAfterRemovals : State :=
  (run exHost exEmptyRendered
    [Op.Append 0, Op.Append 1, Op.Append 2, Op.Remove 0, Op.Remove 1]).getD exEmpty

/-- Modelled from the spec: a tap on the header button in slot `k`, which
invokes the tap callback bound to that button (nothing happens if the
callback is nil); there is no such button to tap past the end of the cache. -/
def tap (host : Host) (s : State) (k : Nat) : Option State :=
  match s.r.headers[k]? with
  | some b =>
    match b.OnTapped with
    | some index => toggleForIndex host s index
    | none => some s
  | none => none

/-- Example state: the rendered empty container after appending the same
item twice. -/
def exTwiceAppended : State :=
  (run exHost exEmptyRendered [Op.Append 0, Op.Append 0]).getD exEmpty

/-- Example state: two items in multi-open mode after `Open(0)`. -/
def exMultiFirstOpen : State := (Open exHost exTwoMulti 0).getD exTwoMulti

/-- Example state: `exMultiFirstOpen` after `RemoveIndex(0)`; the item that
was second is now at index 0, closed. -/
def exMultiRemoved : State := (RemoveIndex exHost exMultiFirstOpen 0).getD exTwoMulti

/-- The vertical cursor `y` at the end of `Layout(size)`. -/
def layoutCursor (host : Host) (s : State) (size : Size) : Option Int :=
  (layoutLoop host s.items size.Width 0 s.a.Items 0 s.objects s.r.headers).map (fun res => res.1)

/-- A header placed by `Layout`: at `x = 0`, as wide as the layout and as
high as its own minimum height. -/
def placedHeader (host : Host) (width : Int) (b : Button) : Prop :=
  b.Pos.X = 0 ∧ b.Sz = { Width := width, Height := (b.MinSize host).Height }

/-- A detail pane placed by `Layout`: at `x = 0`, as wide as the layout and
as high as its own minimum height. -/
def placedDetail (width : Int) (d : CanvasObject) : Prop :=
  d.Pos.X = 0 ∧ d.Sz = { Width := width, Height := d.minSize.Height }

/-- Example detail pane: minimum size 200 by `2^63 - 1`, the largest `int`. -/
def exHugeDetail : CanvasObject :=
  { minSize := { Width := 200, Height := 9223372036854775807 }, Hidden := false,
    Pos := { X := 0, Y := 0 }, Sz := { Width := 0, Height := 0 } }

/-- Example state: one item, open, over the detail pane `exHugeDetail`;
rendered. -/
def exHuge : State :=
  (Open exHost
    (NewAccordionContainer [{ Title := "only", Detail := 0, Open := false }]
      [exHugeDetail] [0]) 0).getD exTwo

/-- Example state: two distinct items in single-open mode, the first with a
detail pane 60 high and closed, the second with a detail pane 10 high and
open; rendered. -/
def exMixedShort : State :=
  (Open exHost
    (NewAccordionContainer
      [{ Title := "first", Detail := 0, Open := false },
       { Title := "second", Detail := 1, Open := false }]
      [exDetail, exShort] [0, 1]) 1).getD exTwo

/-- Example state: `exMixedShort` after `Open(0)`. -/
def exMixedShortFirst : State := (Open exHost exMixedShort 0).getD exTwo

/-- Example detail pane: minimum size 200 by -10. -/
def exNegDetail : CanvasObject :=
  { minSize := { Width := 200, Height := -10 }, Hidden := false,
    Pos := { X := 0, Y := 0 }, Sz := { Width := 0, Height := 0 } }

/-- Example state: one item, open, over the detail pane `exNegDetail`;
rendered. -/
def exNeg : State :=
  (Open exHost
    (NewAccordionContainer [{ Title := "only", Detail := 0, Open := false }]
      [exNegDetail] [0]) 0).getD exTwo

/-- Example state: `exTwoSecondOpen` after `Close(1)`. -/
def exTwoSecondClosed : State := (Close exHost exTwoSecondOpen 1).getD exTwo

/-- The vertical cursor of `Layout` on entry to the iteration for index `k`:
the padding and the heights of the items before `k`, summed with wrapping
`int` additions. -/
def cursorAt (host : Host) (s : State) (k : Nat) : Int :=
  wrapInt (((s.a.Items.take k).enum.map
    (fun e => (if e.1 ≠ 0 then host.Padding else 0) + entryHeight host s e)).sum)

/-- The `y` at which `Layout` places the header of index `k`: the cursor,
advanced by the padding unless `k` is 0. -/
def headerTop (host : Host) (s : State) (k : Nat) : Int :=
  wrapInt (cursorAt host s k + (if k ≠ 0 then host.Padding else 0))

/-- The `y` at which `Layout` places the detail pane of the open item of
index `k`: below its header and one padding. -/
def detailTop (host : Host) (s : State) (k : Nat) : Int :=
  wrapInt (headerTop host s k + (headerMin host s k).Height + host.Padding)

/-- The minimum size of the header that `updateObjects` builds for the item
behind pointer `p` if its open state is `o`: a button with the item's title
and the icon of that state (zero for nil). -/
def headerOf (host : Host) (items : List AccordionItem) (p : Nat) (o : Bool) : Size :=
  match items[p]? with
  | some ai => host.buttonMinSize ai.Title (some (iconFor o))
  | none => { Width := 0, Height := 0 }

/-- The height that an entry of `Items` for the item behind pointer `p` adds
to the height of `MinSize` when the item is open rather than closed: the
padding, the detail's minimum height, and the change of its header's minimum
height from the closed icon to the open one. -/
def openGain (host : Host) (s : State) (p : Nat) : Int :=
  host.Padding + (detailMin s p).Height +
    ((headerOf host s.items p true).Height - (headerOf host s.items p false).Height)

/-- The height that the open entries of `Items` add to the height of
`MinSize`: the `openGain` of every open entry. -/
def openHeight (host : Host) (s : State) : Int :=
  (s.a.Items.map (fun q => if isOpen s.items q then openGain host s q else 0)).sum

/-- The height of `MinSize` if every item were closed: the minimum height of
every header with the closed icon, plus `max(0, n - 1)` times the padding. -/
def closedHeight (host : Host) (s : State) : Int :=
  (s.a.Items.map (fun q => (headerOf host s.items q false).Height)).sum +
    max 0 ((s.a.Items.length : Int) - 1) * host.Padding

/-- Example state: `exNeg` after `Close(0)`; one item, closed, over the detail
pane `exNegDetail`. -/
def exNegClosed : State := (Close exHost exNeg 0).getD exTwo

/-- Example state: `exHuge` after `Close(0)`; one item, closed, over the
detail pane `exHugeDetail`. -/
def exHugeClosed : State := (Close exHost exHuge 0).getD exTwo

/-- Example container: two distinct items, both open, single-open mode, as
`NewAccordionContainer` takes them. -/
def exBothOpen : State :=
  NewAccordionContainer
    [{ Title := "first", Detail := 0, Open := true },
     { Title := "second", Detail := 1, Open := true }]
    [exDetail, exDetail] [0, 1]

/-! ## Lemmas -/

/-! ### Heap updates -/

theorem setOpen_eq_some {items items1 : List AccordionItem} {p : Nat} {v : Bool}
    (h : setOpen items p v = some items1) :
    ∃ it, items[p]? = some it ∧ items1 = items.set p { it with Open := v } := by
  unfold setOpen at h
  cases hp : items[p]? with
  | none => simp [hp] at h
  | some it => exact ⟨it, rfl, by simpa [hp] using h.symm⟩

theorem setOpen_isSome {items : List AccordionItem} {p : Nat} (v : Bool)
    (hp : p < items.length) : ∃ items1, setOpen items p v = some items1 := by
  unfold setOpen
  rw [List.getElem?_eq_getElem hp]
  exact ⟨_, rfl⟩

theorem sameShape_refl (items : List AccordionItem) : sameShape items items := rfl

theorem sameShape_trans {a b c : List AccordionItem} (h1 : sameShape a b)
    (h2 : sameShape b c) : sameShape a c := by
  unfold sameShape at *
  rw [h2, h1]

theorem sameShape_length {a b : List AccordionItem} (h : sameShape a b) :
    b.length = a.length := by
  have := congrArg List.length h
  simpa using this

theorem sameShape_getElem? {a b : List AccordionItem} (h : sameShape a b) (q : Nat) :
    (b[q]?).map eraseOpen = (a[q]?).map eraseOpen := by
  have := congrArg (fun l => l[q]?) h
  simpa [List.getElem?_map] using this

theorem setOpen_sameShape {items items1 : List AccordionItem} {p : Nat} {v : Bool}
    (h : setOpen items p v = some items1) : sameShape items items1 := by
  obtain ⟨it, hit, rfl⟩ := setOpen_eq_some h
  unfold sameShape
  rw [List.map_set]
  apply List.ext_getElem?
  intro q
  rw [List.getElem?_set]
  split
  · next hq =>
    subst hq
    obtain ⟨hp, hget⟩ := List.getElem?_eq_some.1 hit
    subst hget
    simp [List.getElem?_map, eraseOpen, hp]
  · rfl

theorem setOpen_getElem?_ne {items items1 : List AccordionItem} {p q : Nat} {v : Bool}
    (h : setOpen items p v = some items1) (hq : q ≠ p) : items1[q]? = items[q]? := by
  obtain ⟨it, _, rfl⟩ := setOpen_eq_some h
  exact List.getElem?_set_ne (Ne.symm hq)

theorem setOpen_isOpen_self {items items1 : List AccordionItem} {p : Nat} {v : Bool}
    (h : setOpen items p v = some items1) : isOpen items1 p = v := by
  obtain ⟨it, hit, rfl⟩ := setOpen_eq_some h
  have hp : p < items.length := (List.getElem?_eq_some.1 hit).1
  simp [isOpen, List.getElem?_set_self hp]

theorem setOpen_isOpen_ne {items items1 : List AccordionItem} {p q : Nat} {v : Bool}
    (h : setOpen items p v = some items1) (hq : q ≠ p) :
    isOpen items1 q = isOpen items q := by
  simp [isOpen, setOpen_getElem?_ne h hq]

theorem isOpen_eq_of_getElem? {a b : List AccordionItem} {q : Nat} (h : b[q]? = a[q]?) :
    isOpen b q = isOpen a q := by
  simp [isOpen, h]

/-! ### The loop of `Open` -/

theorem openLoop_sameShape (multiOpen : Bool) (index : Int) :
    ∀ (rest : List Nat) (i : Nat) (items items1 : List AccordionItem),
      openLoop multiOpen index i rest items = some items1 → sameShape items items1
  | [], i, items, items1, h => by
    simp [openLoop] at h; subst h; exact sameShape_refl _
  | p :: rest, i, items, items1, h => by
    unfold openLoop at h
    split at h
    · cases hs : setOpen items p true with
      | none => simp [hs] at h
      | some it1 =>
        simp only [hs] at h
        exact sameShape_trans (setOpen_sameShape hs) (openLoop_sameShape multiOpen index rest _ _ _ h)
    · split at h
      · cases hs : setOpen items p false with
        | none => simp [hs] at h
        | some it1 =>
          simp only [hs] at h
          exact sameShape_trans (setOpen_sameShape hs) (openLoop_sameShape multiOpen index rest _ _ _ h)
      · exact openLoop_sameShape multiOpen index rest _ _ _ h

theorem openLoop_isSome (multiOpen : Bool) (index : Int) :
    ∀ (rest : List Nat) (i : Nat) (items : List AccordionItem),
      (∀ p ∈ rest, p < items.length) →
      ∃ items1, openLoop multiOpen index i rest items = some items1
  | [], i, items, _ => ⟨items, rfl⟩
  | p :: rest, i, items, hv => by
    have hp : p < items.length := hv p (List.mem_cons_self _ _)
    have hrest : ∀ (items1 : List AccordionItem), items1.length = items.length →
        ∀ q ∈ rest, q < items1.length := fun items1 hl q hq => by
      rw [hl]; exact hv q (List.mem_cons_of_mem _ hq)
    unfold openLoop
    split
    · obtain ⟨it1, hs⟩ := setOpen_isSome true hp
      simp only [hs]
      exact openLoop_isSome multiOpen index rest _ _ (hrest _ (sameShape_length (setOpen_sameShape hs)))
    · split
      · obtain ⟨it1, hs⟩ := setOpen_isSome false hp
        simp only [hs]
        exact openLoop_isSome multiOpen index rest _ _ (hrest _ (sameShape_length (setOpen_sameShape hs)))
      · exact openLoop_isSome multiOpen index rest _ _ (hrest _ rfl)

/-- Frame: a pointer whose every occurrence the loop skips is untouched. -/
theorem openLoop_frame (multiOpen : Bool) (index : Int) (q : Nat) :
    ∀ (rest : List Nat) (i : Nat) (items items1 : List AccordionItem),
      (∀ k, rest[k]? = some q → ((i + k : Nat) : Int) ≠ index ∧ multiOpen = true) →
      openLoop multiOpen index i rest items = some items1 → items1[q]? = items[q]?
  | [], i, items, items1, _, h => by
    simp [openLoop] at h; subst h; rfl
  | p :: rest, i, items, items1, hocc, h => by
    have hrest : ∀ k, rest[k]? = some q → ((i + 1 + k : Nat) : Int) ≠ index ∧ multiOpen = true := by
      intro k hk
      have := hocc (k + 1) (by simpa using hk)
      have e : i + (k + 1) = i + 1 + k := by omega
      rwa [e] at this
    have hpq : p = q → ((i : Nat) : Int) ≠ index ∧ multiOpen = true := by
      intro e
      have := hocc 0 (by simp [e])
      simpa using this
    unfold openLoop at h
    split at h
    · next hi =>
      have hne : q ≠ p := fun e => (hpq e.symm).1 hi
      cases hs : setOpen items p true with
      | none => simp [hs] at h
      | some it1 =>
        simp only [hs] at h
        rw [openLoop_frame multiOpen index q rest _ _ _ hrest h, setOpen_getElem?_ne hs hne]
    · split at h
      · next hi hm =>
        have hne : q ≠ p := fun e => by
          have := (hpq e.symm).2
          simp [this] at hm
        cases hs : setOpen items p false with
        | none => simp [hs] at h
        | some it1 =>
          simp only [hs] at h
          rw [openLoop_frame multiOpen index q rest _ _ _ hrest h, setOpen_getElem?_ne hs hne]
      · exact openLoop_frame multiOpen index q rest _ _ _ hrest h

/-- In multi-open mode the loop closes nothing. -/
theorem openLoop_mono (index : Int) (q : Nat) :
    ∀ (rest : List Nat) (i : Nat) (items items1 : List AccordionItem),
      openLoop true index i rest items = some items1 →
      isOpen items q = true → isOpen items1 q = true
  | [], i, items, items1, h, ho => by
    simp [openLoop] at h; subst h; exact ho
  | p :: rest, i, items, items1, h, ho => by
    unfold openLoop at h
    split at h
    · cases hs : setOpen items p true with
      | none => simp [hs] at h
      | some it1 =>
        simp only [hs] at h
        refine openLoop_mono index q rest _ _ _ h ?_
        by_cases e : q = p
        · subst e; exact setOpen_isOpen_self hs
        · rw [setOpen_isOpen_ne hs e]; exact ho
    · simp only [Bool.not_true, Bool.false_eq_true, if_false] at h
      exact openLoop_mono index q rest _ _ _ h ho

/-- The item at position `index` ends open when it does not occur again
further on. -/
theorem openLoop_true (multiOpen : Bool) (index : Int) (q : Nat) :
    ∀ (rest : List Nat) (i k : Nat) (items items1 : List AccordionItem),
      rest[k]? = some q → ((i + k : Nat) : Int) = index → q ∉ rest.drop (k + 1) →
      openLoop multiOpen index i rest items = some items1 → isOpen items1 q = true
  | [], i, k, items, items1, hk, _, _, _ => by simp at hk
  | p :: rest, i, 0, items, items1, hk, hi, hlater, h => by
    simp at hk; subst hk
    simp at hi hlater
    unfold openLoop at h
    rw [if_pos hi] at h
    cases hs : setOpen items p true with
    | none => simp [hs] at h
    | some it1 =>
      simp only [hs] at h
      have hfr := openLoop_frame multiOpen index p rest (i + 1) it1 items1
        (fun k hk => absurd (List.mem_iff_getElem?.2 ⟨k, hk⟩) hlater) h
      rw [isOpen_eq_of_getElem? hfr]
      exact setOpen_isOpen_self hs
  | p :: rest, i, k + 1, items, items1, hk, hi, hlater, h => by
    have hk1 : rest[k]? = some q := by simpa using hk
    have hi1 : ((i + 1 + k : Nat) : Int) = index := by
      rw [← hi]; congr 1; omega
    have hl1 : q ∉ rest.drop (k + 1) := by simpa using hlater
    unfold openLoop at h
    split at h
    · cases hs : setOpen items p true with
      | none => simp [hs] at h
      | some it1 =>
        simp only [hs] at h
        exact openLoop_true multiOpen index q rest (i + 1) k _ _ hk1 hi1 hl1 h
    · split at h
      · cases hs : setOpen items p false with
        | none => simp [hs] at h
        | some it1 =>
          simp only [hs] at h
          exact openLoop_true multiOpen index q rest (i + 1) k _ _ hk1 hi1 hl1 h
      · exact openLoop_true multiOpen index q rest (i + 1) k _ _ hk1 hi1 hl1 h

/-- In multi-open mode the item at position `index` ends open. -/
theorem openLoop_true_multi (index : Int) (q : Nat) :
    ∀ (rest : List Nat) (i k : Nat) (items items1 : List AccordionItem),
      rest[k]? = some q → ((i + k : Nat) : Int) = index →
      openLoop true index i rest items = some items1 → isOpen items1 q = true
  | [], i, k, items, items1, hk, _, _ => by simp at hk
  | p :: rest, i, 0, items, items1, hk, hi, h => by
    simp at hk; subst hk
    simp at hi
    unfold openLoop at h
    rw [if_pos hi] at h
    cases hs : setOpen items p true with
    | none => simp [hs] at h
    | some it1 =>
      simp only [hs] at h
      exact openLoop_mono index p rest _ _ _ h (setOpen_isOpen_self hs)
  | p :: rest, i, k + 1, items, items1, hk, hi, h => by
    have hk1 : rest[k]? = some q := by simpa using hk
    have hi1 : ((i + 1 + k : Nat) : Int) = index := by
      rw [← hi]; congr 1; omega
    have hne : ¬ ((i : Nat) : Int) = index := by
      rw [← hi]; intro e
      have := Int.ofNat_inj.1 e
      omega
    unfold openLoop at h
    rw [if_neg hne] at h
    simp only [Bool.not_true, Bool.false_eq_true, if_false] at h
    exact openLoop_true_multi index q rest (i + 1) k _ _ hk1 hi1 h

/-- In single-open mode every item of the list that does not sit at position
`index` ends closed. -/
theorem openLoop_false (index : Int) (q : Nat) :
    ∀ (rest : List Nat) (i : Nat) (items items1 : List AccordionItem),
      q ∈ rest → (∀ k, rest[k]? = some q → ((i + k : Nat) : Int) ≠ index) →
      openLoop false index i rest items = some items1 → isOpen items1 q = false
  | [], i, items, items1, hq, _, _ => by simp at hq
  | p :: rest, i, items, items1, hq, hocc, h => by
    have hrest : ∀ k, rest[k]? = some q → ((i + 1 + k : Nat) : Int) ≠ index := by
      intro k hk
      have := hocc (k + 1) (by simpa using hk)
      have e : i + (k + 1) = i + 1 + k := by omega
      rwa [e] at this
    by_cases hmem : q ∈ rest
    · unfold openLoop at h
      split at h
      · cases hs : setOpen items p true with
        | none => simp [hs] at h
        | some it1 =>
          simp only [hs] at h
          exact openLoop_false index q rest _ _ _ hmem hrest h
      · simp only [Bool.not_false, if_true] at h
        cases hs : setOpen items p false with
        | none => simp [hs] at h
        | some it1 =>
          simp only [hs] at h
          exact openLoop_false index q rest _ _ _ hmem hrest h
    · have hpq : p = q := by
        rcases List.mem_cons.1 hq with e | e
        · exact e.symm
        · exact absurd e hmem
      subst hpq
      have hi : ¬ ((i : Nat) : Int) = index := by
        have := hocc 0 (by simp)
        simpa using this
      unfold openLoop at h
      rw [if_neg hi] at h
      simp only [Bool.not_false, if_true] at h
      cases hs : setOpen items p false with
      | none => simp [hs] at h
      | some it1 =>
        simp only [hs] at h
        have hfr := openLoop_frame false index p rest (i + 1) it1 items1
          (fun k hk => absurd (List.mem_iff_getElem?.2 ⟨k, hk⟩) hmem) h
        rw [isOpen_eq_of_getElem? hfr]
        exact setOpen_isOpen_self hs

/-! ### The loops of `OpenAll` and `CloseAll` -/

theorem setAllLoop_sameShape (v : Bool) :
    ∀ (rest : List Nat) (items items1 : List AccordionItem),
      setAllLoop v rest items = some items1 → sameShape items items1
  | [], items, items1, h => by
    simp [setAllLoop] at h; subst h; exact sameShape_refl _
  | p :: rest, items, items1, h => by
    unfold setAllLoop at h
    cases hs : setOpen items p v with
    | none => simp [hs] at h
    | some it1 =>
      simp only [hs] at h
      exact sameShape_trans (setOpen_sameShape hs) (setAllLoop_sameShape v rest _ _ h)

theorem setAllLoop_isSome (v : Bool) :
    ∀ (rest : List Nat) (items : List AccordionItem),
      (∀ p ∈ rest, p < items.length) → ∃ items1, setAllLoop v rest items = some items1
  | [], items, _ => ⟨items, rfl⟩
  | p :: rest, items, hv => by
    obtain ⟨it1, hs⟩ := setOpen_isSome v (hv p (List.mem_cons_self _ _))
    unfold setAllLoop
    simp only [hs]
    refine setAllLoop_isSome v rest it1 (fun q hq => ?_)
    rw [sameShape_length (setOpen_sameShape hs)]
    exact hv q (List.mem_cons_of_mem _ hq)

theorem setAllLoop_frame (v : Bool) (q : Nat) :
    ∀ (rest : List Nat) (items items1 : List AccordionItem),
      q ∉ rest → setAllLoop v rest items = some items1 → items1[q]? = items[q]?
  | [], items, items1, _, h => by
    simp [setAllLoop] at h; subst h; rfl
  | p :: rest, items, items1, hq, h => by
    unfold setAllLoop at h
    cases hs : setOpen items p v with
    | none => simp [hs] at h
    | some it1 =>
      simp only [hs] at h
      rw [setAllLoop_frame v q rest _ _ (fun e => hq (List.mem_cons_of_mem _ e)) h,
        setOpen_getElem?_ne hs (fun e => hq (e ▸ List.mem_cons_self _ _))]

theorem setAllLoop_isOpen (v : Bool) (q : Nat) :
    ∀ (rest : List Nat) (items items1 : List AccordionItem),
      q ∈ rest → setAllLoop v rest items = some items1 → isOpen items1 q = v
  | [], items, items1, hq, _ => by simp at hq
  | p :: rest, items, items1, hq, h => by
    unfold setAllLoop at h
    cases hs : setOpen items p v with
    | none => simp [hs] at h
    | some it1 =>
      simp only [hs] at h
      by_cases hmem : q ∈ rest
      · exact setAllLoop_isOpen v q rest _ _ hmem h
      · have hpq : p = q := by
          rcases List.mem_cons.1 hq with e | e
          · exact e.symm
          · exact absurd e hmem
        subst hpq
        rw [isOpen_eq_of_getElem? (setAllLoop_frame v p rest _ _ hmem h)]
        exact setOpen_isOpen_self hs

theorem sameMin_refl (objects : List CanvasObject) : sameMin objects objects := rfl

theorem sameMin_trans {a b c : List CanvasObject} (h1 : sameMin a b) (h2 : sameMin b c) :
    sameMin a c := by
  unfold sameMin at *
  rw [h2, h1]

theorem sameMin_length {a b : List CanvasObject} (h : sameMin a b) : b.length = a.length := by
  have := congrArg List.length h
  simpa using this

theorem sameMin_getElem? {a b : List CanvasObject} (h : sameMin a b) (q : Nat) :
    (b[q]?).map CanvasObject.minSize = (a[q]?).map CanvasObject.minSize := by
  have := congrArg (fun l => l[q]?) h
  simpa [List.getElem?_map] using this

theorem sameMin_set {objects : List CanvasObject} {d : Nat} {o o1 : CanvasObject}
    (ho : objects[d]? = some o) (hm : o1.minSize = o.minSize) :
    sameMin objects (objects.set d o1) := by
  unfold sameMin
  rw [List.map_set]
  apply List.ext_getElem?
  intro q
  rw [List.getElem?_set]
  split
  · next hq =>
    subst hq
    obtain ⟨hd, hget⟩ := List.getElem?_eq_some.1 ho
    subst hget
    simp [List.getElem?_map, hd, hm]
  · rfl

theorem setHidden_eq_some {objects objects1 : List CanvasObject} {d : Nat} {v : Bool}
    (h : setHidden objects d v = some objects1) :
    ∃ o, objects[d]? = some o ∧ objects1 = objects.set d { o with Hidden := v } := by
  unfold setHidden at h
  cases hd : objects[d]? with
  | none => simp [hd] at h
  | some o => exact ⟨o, rfl, by simpa [hd] using h.symm⟩

theorem setHidden_isSome {objects : List CanvasObject} {d : Nat} (v : Bool)
    (hd : d < objects.length) : ∃ objects1, setHidden objects d v = some objects1 := by
  unfold setHidden
  rw [List.getElem?_eq_getElem hd]
  exact ⟨_, rfl⟩

theorem setHidden_sameMin {objects objects1 : List CanvasObject} {d : Nat} {v : Bool}
    (h : setHidden objects d v = some objects1) : sameMin objects objects1 := by
  obtain ⟨o, ho, rfl⟩ := setHidden_eq_some h
  exact sameMin_set ho rfl

theorem setHidden_lt {objects objects1 : List CanvasObject} {d : Nat} {v : Bool}
    (h : setHidden objects d v = some objects1) : d < objects.length := by
  obtain ⟨o, ho, _⟩ := setHidden_eq_some h
  exact (List.getElem?_eq_some.1 ho).1

/-! ### `updateObjects` -/

/-- One iteration of the first loop of `updateObjects`, when the cache has
the length the loop keeps it at. -/
theorem updateLoop_cons {items : List AccordionItem} {hs i p : Nat} {rest : List Nat}
    {objects : List CanvasObject} {headers : List Button}
    {res : List CanvasObject × List Button}
    (hlen : headers.length = max hs i)
    (h : updateLoop items hs i (p :: rest) objects headers = some res) :
    ∃ b ai objects1,
      (if i < hs then headers[i]? else some Button.zero) = some b ∧
      items[p]? = some ai ∧
      setHidden objects ai.Detail (!ai.Open) = some objects1 ∧
      updateLoop items hs (i + 1) rest objects1
        ((if i < hs then headers else headers ++ [Button.zero]).set i
          { b with Hidden := false, Text := ai.Title, OnTapped := some i,
                   Icon := some (iconFor ai.Open) }) = some res := by
  unfold updateLoop at h
  by_cases hi : i < hs
  · simp only [hi, if_true] at h ⊢
    cases hb : headers[i]? with
    | none => simp [hb] at h
    | some b =>
      cases ha : items[p]? with
      | none => simp [hb, ha] at h
      | some ai =>
        simp only [hb, ha] at h
        cases hd : setHidden objects ai.Detail (!ai.Open) with
        | none => simp [hd] at h
        | some objects1 =>
          simp only [hd] at h
          exact ⟨b, ai, objects1, rfl, rfl, hd, h⟩
  · have hl : headers.length = i := by rw [hlen]; omega
    simp only [hi, if_false] at h ⊢
    rw [hl] at h
    have hz : (headers ++ [Button.zero])[i]? = some Button.zero := by
      rw [List.getElem?_append_right (by omega)]
      simp [hl]
    cases ha : items[p]? with
    | none => simp [hz, ha] at h
    | some ai =>
      simp only [hz, ha] at h
      cases hd : setHidden objects ai.Detail (!ai.Open) with
      | none => simp [hd] at h
      | some objects1 =>
        simp only [hd] at h
        exact ⟨Button.zero, ai, objects1, rfl, rfl, hd, h⟩

/-- What the first loop of `updateObjects` leaves behind: the detail panes
keep their minimum sizes, the cache has grown to cover the items, the slots
before `i` and past the last item are untouched, and the slot of every item
met shows that item. -/
theorem updateLoop_spec (items : List AccordionItem) (hs : Nat) :
    ∀ (rest : List Nat) (i : Nat) (objects : List CanvasObject) (headers : List Button)
      (objects1 : List CanvasObject) (headers1 : List Button),
      headers.length = max hs i →
      updateLoop items hs i rest objects headers = some (objects1, headers1) →
      sameMin objects objects1 ∧
      headers1.length = max hs (i + rest.length) ∧
      (∀ k, k < i → headers1[k]? = headers[k]?) ∧
      (∀ k, i + rest.length ≤ k → headers1[k]? = headers[k]?) ∧
      (∀ k p, rest[k]? = some p → ∃ b ai, headers1[i + k]? = some b ∧ items[p]? = some ai ∧
        ai.Detail < objects.length ∧ b.Hidden = false ∧ b.Text = ai.Title ∧
        b.OnTapped = some (i + k) ∧ b.Icon = some (iconFor ai.Open))
  | [], i, objects, headers, objects1, headers1, hlen, h => by
    simp only [updateLoop, Option.some.injEq, Prod.mk.injEq] at h
    obtain ⟨rfl, rfl⟩ := h
    refine ⟨sameMin_refl _, by simpa using hlen, fun _ _ => rfl, fun _ _ => rfl, ?_⟩
    intro k p hk
    simp at hk
  | p :: rest, i, objects, headers, objects1, headers1, hlen, h => by
    obtain ⟨b, ai, objects2, hb, ha, hd, hrec⟩ := updateLoop_cons hlen h
    have hlen2 : ((if i < hs then headers else headers ++ [Button.zero]).set i
          { b with Hidden := false, Text := ai.Title, OnTapped := some i,
                   Icon := some (iconFor ai.Open) }).length = max hs (i + 1) := by
      rw [List.length_set]
      by_cases hi : i < hs
      · simp only [hi, if_true, hlen]; omega
      · simp only [hi, if_false, List.length_append, List.length_singleton, hlen]; omega
    have hslot : (if i < hs then headers else headers ++ [Button.zero])[i]? = some b := by
      by_cases hi : i < hs
      · simpa [hi] using hb
      · have hl : headers.length = i := by rw [hlen]; omega
        simp only [hi, if_false] at hb ⊢
        rw [List.getElem?_append_right (by omega)]
        simpa [hl] using hb
    have hother : ∀ k, k ≠ i →
        ((if i < hs then headers else headers ++ [Button.zero]).set i
          { b with Hidden := false, Text := ai.Title, OnTapped := some i,
                   Icon := some (iconFor ai.Open) })[k]? = headers[k]? := by
      intro k hk
      rw [List.getElem?_set_ne (Ne.symm hk)]
      by_cases hi : i < hs
      · simp [hi]
      · have hl : headers.length = i := by rw [hlen]; omega
        simp only [hi, if_false]
        by_cases hki : k < i
        · rw [List.getElem?_append_left (by omega)]
        · rw [List.getElem?_eq_none (by simp; omega), List.getElem?_eq_none (by omega)]
    obtain ⟨hm, hl1, hbefore, hafter, hsync⟩ :=
      updateLoop_spec items hs rest (i + 1) objects2 _ objects1 headers1 hlen2 hrec
    have hol : objects2.length = objects.length := sameMin_length (setHidden_sameMin hd)
    refine ⟨sameMin_trans (setHidden_sameMin hd) hm, ?_, ?_, ?_, ?_⟩
    · rw [hl1]; simp only [List.length_cons]; congr 1; omega
    · intro k hk
      rw [hbefore k (by omega), hother k (by omega)]
    · intro k hk
      simp only [List.length_cons] at hk
      rw [hafter k (by omega), hother k (by omega)]
    · intro k q hk
      cases k with
      | zero =>
        simp only [List.getElem?_cons_zero, Option.some.injEq] at hk
        subst hk
        have hget := hbefore i (by omega)
        rw [List.getElem?_set_self (List.getElem?_eq_some.1 hslot).1] at hget
        exact ⟨_, ai, hget, ha, setHidden_lt hd, rfl, rfl, rfl, rfl⟩
      | succ k =>
        simp only [List.getElem?_cons_succ] at hk
        obtain ⟨b1, a1, h1, h2, h3, h4, h5, h6, h7⟩ := hsync k q hk
        have e : i + 1 + k = i + (k + 1) := by omega
        rw [e] at h1 h6
        exact ⟨b1, a1, h1, h2, hol ▸ h3, h4, h5, h6, h7⟩

/-- The first loop of `updateObjects` does not panic on valid items. -/
theorem updateLoop_isSome (items : List AccordionItem) (hs : Nat) :
    ∀ (rest : List Nat) (i : Nat) (objects : List CanvasObject) (headers : List Button),
      headers.length = max hs i →
      (∀ p ∈ rest, validItem items objects.length p = true) →
      ∃ res, updateLoop items hs i rest objects headers = some res
  | [], i, objects, headers, _, _ => ⟨_, rfl⟩
  | p :: rest, i, objects, headers, hlen, hv => by
    have hp := hv p (List.mem_cons_self _ _)
    unfold validItem at hp
    cases ha : items[p]? with
    | none => simp [ha] at hp
    | some ai =>
      simp only [ha, decide_eq_true_eq] at hp
      obtain ⟨objects1, hd⟩ := setHidden_isSome (!ai.Open) hp
      have hol : objects1.length = objects.length := sameMin_length (setHidden_sameMin hd)
      have hv1 : ∀ q ∈ rest, validItem items objects1.length q = true := fun q hq => by
        rw [hol]; exact hv q (List.mem_cons_of_mem _ hq)
      unfold updateLoop
      by_cases hi : i < hs
      · have hil : i < headers.length := by rw [hlen]; omega
        simp only [hi, if_true, List.getElem?_eq_getElem hil, ha, hd]
        refine updateLoop_isSome items hs rest (i + 1) objects1 _ ?_ hv1
        rw [List.length_set, hlen]; omega
      · have hl : headers.length = i := by rw [hlen]; omega
        have hz : (headers ++ [Button.zero])[headers.length]? = some Button.zero := by
          rw [List.getElem?_append_right (le_refl _)]
          simp
        simp only [hi, if_false, hz, ha, hd]
        refine updateLoop_isSome items hs rest (i + 1) objects1 _ ?_ hv1
        rw [List.length_set, List.length_append, List.length_singleton, hl]; omega

/-- The second loop of `updateObjects` hides the slots `i .. i + n` and
touches nothing else. -/
theorem hideLoop_spec :
    ∀ (n i : Nat) (headers headers1 : List Button),
      hideLoop n i headers = some headers1 →
      headers1.length = headers.length ∧
      (∀ k, k < i → headers1[k]? = headers[k]?) ∧
      (∀ k, i + n ≤ k → headers1[k]? = headers[k]?) ∧
      (∀ k, i ≤ k → k < i + n →
        ∃ b, headers[k]? = some b ∧ headers1[k]? = some b.Hide)
  | 0, i, headers, headers1, h => by
    simp only [hideLoop, Option.some.injEq] at h
    subst h
    exact ⟨rfl, fun _ _ => rfl, fun _ _ => rfl, fun k h1 h2 => by omega⟩
  | n + 1, i, headers, headers1, h => by
    unfold hideLoop at h
    cases hb : headers[i]? with
    | none => simp [hb] at h
    | some b =>
      simp only [hb] at h
      obtain ⟨hl, hbefore, hafter, hmid⟩ := hideLoop_spec n (i + 1) _ headers1 h
      have hil : i < headers.length := (List.getElem?_eq_some.1 hb).1
      refine ⟨by rw [hl, List.length_set], ?_, ?_, ?_⟩
      · intro k hk
        rw [hbefore k (by omega), List.getElem?_set_ne (by omega)]
      · intro k hk
        rw [hafter k (by omega), List.getElem?_set_ne (by omega)]
      · intro k h1 h2
        by_cases hki : k = i
        · subst hki
          refine ⟨b, hb, ?_⟩
          rw [hbefore k (by omega), List.getElem?_set_self hil]
        · obtain ⟨b1, hb1, hb2⟩ := hmid k (by omega) (by omega)
          rw [List.getElem?_set_ne (Ne.symm hki)] at hb1
          exact ⟨b1, hb1, hb2⟩

theorem hideLoop_isSome :
    ∀ (n i : Nat) (headers : List Button), i + n ≤ headers.length →
      ∃ headers1, hideLoop n i headers = some headers1
  | 0, i, headers, _ => ⟨_, rfl⟩
  | n + 1, i, headers, h => by
    have hil : i < headers.length := by omega
    unfold hideLoop
    simp only [List.getElem?_eq_getElem hil]
    exact hideLoop_isSome n (i + 1) _ (by rw [List.length_set]; omega)

/-! ### `Layout` -/

theorem sameFace_refl (headers : List Button) : sameFace headers headers := rfl

theorem sameFace_trans {a b c : List Button} (h1 : sameFace a b) (h2 : sameFace b c) :
    sameFace a c := by
  unfold sameFace at *
  rw [h2, h1]

theorem sameFace_length {a b : List Button} (h : sameFace a b) : b.length = a.length := by
  have := congrArg List.length h
  simpa using this

theorem sameFace_getElem? {a b : List Button} (h : sameFace a b) (k : Nat) :
    (b[k]?).map Button.face = (a[k]?).map Button.face := by
  have := congrArg (fun l => l[k]?) h
  simpa [List.getElem?_map] using this

theorem sameFace_set {headers : List Button} {i : Nat} {b b1 : Button}
    (hb : headers[i]? = some b) (hf : b1.face = b.face) :
    sameFace headers (headers.set i b1) := by
  unfold sameFace
  rw [List.map_set]
  apply List.ext_getElem?
  intro q
  rw [List.getElem?_set]
  split
  · next hq =>
    subst hq
    obtain ⟨hd, hget⟩ := List.getElem?_eq_some.1 hb
    subst hget
    simp [List.getElem?_map, hd, hf]
  · rfl

/-- The loop of `Layout` moves and resizes; it changes no minimum size and
nothing a header shows. -/
theorem layoutLoop_spec (host : Host) (items : List AccordionItem) (width : Int) :
    ∀ (rest : List Nat) (i : Nat) (y : Int) (objects : List CanvasObject)
      (headers : List Button) (y1 : Int) (objects1 : List CanvasObject)
      (headers1 : List Button),
      layoutLoop host items width i rest y objects headers = some (y1, objects1, headers1) →
      sameMin objects objects1 ∧ sameFace headers headers1
  | [], i, y, objects, headers, y1, objects1, headers1, h => by
    simp only [layoutLoop, Option.some.injEq, Prod.mk.injEq] at h
    obtain ⟨_, rfl, rfl⟩ := h
    exact ⟨sameMin_refl _, sameFace_refl _⟩
  | p :: rest, i, y, objects, headers, y1, objects1, headers1, h => by
    unfold layoutLoop at h
    cases hb : headers[i]? with
    | none => simp [hb] at h
    | some b =>
      cases ha : items[p]? with
      | none => simp [hb, ha] at h
      | some ai =>
        simp only [hb, ha] at h
        split at h
        · cases hd : objects[ai.Detail]? with
          | none => simp [hd] at h
          | some d =>
            simp only [hd] at h
            obtain ⟨hm, hf⟩ := layoutLoop_spec host items width rest _ _ _ _ _ _ _ h
            refine ⟨sameMin_trans (sameMin_set hd ?_) hm, sameFace_trans (sameFace_set hb ?_) hf⟩ <;> rfl
        · obtain ⟨hm, hf⟩ := layoutLoop_spec host items width rest _ _ _ _ _ _ _ h
          refine ⟨hm, sameFace_trans (sameFace_set hb ?_) hf⟩
          rfl

/-- The loop of `Layout` does not panic when every item is valid and has a
header in the cache. -/
theorem layoutLoop_isSome (host : Host) (items : List AccordionItem) (width : Int) :
    ∀ (rest : List Nat) (i : Nat) (y : Int) (objects : List CanvasObject)
      (headers : List Button),
      i + rest.length ≤ headers.length →
      (∀ p ∈ rest, validItem items objects.length p = true) →
      ∃ res, layoutLoop host items width i rest y objects headers = some res
  | [], i, y, objects, headers, _, _ => ⟨_, rfl⟩
  | p :: rest, i, y, objects, headers, hlen, hv => by
    have hp := hv p (List.mem_cons_self _ _)
    simp only [List.length_cons] at hlen
    have hil : i < headers.length := by omega
    unfold validItem at hp
    cases ha : items[p]? with
    | none => simp [ha] at hp
    | some ai =>
      simp only [ha, decide_eq_true_eq] at hp
      unfold layoutLoop
      simp only [List.getElem?_eq_getElem hil, ha, List.getElem?_eq_getElem hp]
      split
      · refine layoutLoop_isSome host items width rest (i + 1) _ _ _ ?_ ?_
        · rw [List.length_set]; omega
        · intro q hq
          rw [List.length_set]
          exact hv q (List.mem_cons_of_mem _ hq)
      · refine layoutLoop_isSome host items width rest (i + 1) _ _ _ ?_ ?_
        · rw [List.length_set]; omega
        · intro q hq
          exact hv q (List.mem_cons_of_mem _ hq)

/-! ### `Refresh` -/

theorem wellFormed_iff (s : State) :
    wellFormed s = true ↔ ∀ p ∈ s.a.Items, validItem s.items s.objects.length p = true := by
  unfold wellFormed
  exact List.all_eq_true

/-- What `updateObjects` leaves behind. -/
theorem updateObjects_spec {s s1 : State} (h : updateObjects s = some s1) :
    s1.items = s.items ∧ s1.a = s.a ∧ sameMin s.objects s1.objects ∧
    s1.r.headers.length = max s.r.headers.length s.a.Items.length ∧
    synced s1 ∧ wellFormed s1 = true ∧
    (∀ k, s.a.Items.length ≤ k → k < s.r.headers.length →
      ∃ b, s.r.headers[k]? = some b ∧ s1.r.headers[k]? = some b.Hide) := by
  unfold updateObjects at h
  cases hu : updateLoop s.items s.r.headers.length 0 s.a.Items s.objects s.r.headers with
  | none => simp [hu] at h
  | some res =>
    obtain ⟨objects1, headers1⟩ := res
    simp only [hu] at h
    cases hh : hideLoop (s.r.headers.length - s.a.Items.length) s.a.Items.length headers1 with
    | none => simp [hh] at h
    | some headers2 =>
      simp only [hh, Option.some.injEq] at h
      subst h
      obtain ⟨hm, hl, _, hafter, hsync⟩ :=
        updateLoop_spec s.items s.r.headers.length s.a.Items 0 s.objects s.r.headers
          objects1 headers1 (by simp) hu
      obtain ⟨hl2, hbefore2, _, hmid2⟩ := hideLoop_spec _ _ _ _ hh
      simp only [Nat.zero_add] at hl hafter hsync
      refine ⟨rfl, rfl, hm, by simp only [hl2, hl], ?_, ?_, ?_⟩
      · intro k p hk
        obtain ⟨b, ai, h1, h2, _, h4, h5, h6, h7⟩ := hsync k p hk
        have hkl : k < s.a.Items.length := (List.getElem?_eq_some.1 hk).1
        exact ⟨b, ai, by simpa [hbefore2 k hkl] using h1, h2, h4, h5, h6, h7⟩
      · rw [wellFormed_iff]
        intro p hp
        obtain ⟨k, hk⟩ := List.mem_iff_getElem?.1 hp
        obtain ⟨b, ai, _, h2, h3, _⟩ := hsync k p hk
        simp only [validItem, h2, decide_eq_true_eq, sameMin_length hm]
        exact h3
      · intro k h1 h2
        obtain ⟨b, hb1, hb2⟩ := hmid2 k h1 (by omega)
        rw [hafter k h1] at hb1
        exact ⟨b, hb1, hb2⟩

theorem updateObjects_isSome {s : State} (hwf : wellFormed s = true) :
    ∃ s1, updateObjects s = some s1 := by
  obtain ⟨res, hu⟩ := updateLoop_isSome s.items s.r.headers.length s.a.Items 0 s.objects
    s.r.headers (by simp) ((wellFormed_iff s).1 hwf)
  obtain ⟨objects1, headers1⟩ := res
  obtain ⟨_, hl, _⟩ := updateLoop_spec _ _ _ _ _ _ _ _ (by simp) hu
  obtain ⟨headers2, hh⟩ := hideLoop_isSome (s.r.headers.length - s.a.Items.length)
    s.a.Items.length headers1 (by rw [hl]; omega)
  unfold updateObjects
  simp only [hu, hh]
  exact ⟨_, rfl⟩

/-- What `Layout` leaves behind. -/
theorem Layout_spec {host : Host} {s s1 : State} {size : Size}
    (h : Layout host s size = some s1) :
    s1.items = s.items ∧ s1.a = s.a ∧ sameMin s.objects s1.objects ∧
    sameFace s.r.headers s1.r.headers := by
  unfold Layout at h
  cases hl : layoutLoop host s.items size.Width 0 s.a.Items 0 s.objects s.r.headers with
  | none => simp [hl] at h
  | some res =>
    obtain ⟨y, objects1, headers1⟩ := res
    simp only [hl, Option.some.injEq] at h
    subst h
    obtain ⟨hm, hf⟩ := layoutLoop_spec _ _ _ _ _ _ _ _ _ _ _ hl
    exact ⟨rfl, rfl, hm, hf⟩

theorem Layout_isSome (host : Host) {s : State} (size : Size) (hwf : wellFormed s = true)
    (hcache : s.a.Items.length ≤ s.r.headers.length) :
    ∃ s1, Layout host s size = some s1 := by
  obtain ⟨res, hl⟩ := layoutLoop_isSome host s.items size.Width s.a.Items 0 0 s.objects
    s.r.headers (by omega) ((wellFormed_iff s).1 hwf)
  unfold Layout
  simp only [hl]
  exact ⟨_, rfl⟩

theorem synced_of_sameFace {s s1 : State} (hi : s1.items = s.items) (ha : s1.a = s.a)
    (hf : sameFace s.r.headers s1.r.headers) (hs : synced s) : synced s1 := by
  intro k p hk
  rw [ha] at hk
  obtain ⟨b, ai, h1, h2, h3, h4, h5, h6⟩ := hs k p hk
  have hface := sameFace_getElem? hf k
  rw [h1] at hface
  cases hb1 : s1.r.headers[k]? with
  | none => simp [hb1] at hface
  | some b1 =>
    simp only [hb1, Option.map_some', Option.some.injEq, Button.face, Prod.mk.injEq] at hface
    obtain ⟨f1, f2, f3, f4⟩ := hface
    exact ⟨b1, ai, rfl, by rw [hi]; exact h2, by rw [f1, h3], by rw [f2, h4], by rw [f4, h5],
      by rw [f3, h6]⟩

theorem wellFormed_congr {s s1 : State} (hi : s1.items = s.items) (ha : s1.a = s.a)
    (hl : s1.objects.length = s.objects.length) : wellFormed s1 = wellFormed s := by
  unfold wellFormed
  rw [hi, ha, hl]

/-- What a refresh leaves behind: the items and the container are as before,
the detail panes keep their minimum sizes, the header cache has grown to
cover the items (never shrunk), every item's header shows it, and every item
is valid. -/
theorem Refresh_spec {host : Host} {s s1 : State} (h : Refresh host s = some s1) :
    s1.items = s.items ∧ s1.a = s.a ∧ sameMin s.objects s1.objects ∧
    s1.r.headers.length = max s.r.headers.length s.a.Items.length ∧
    synced s1 ∧ wellFormed s1 = true := by
  unfold Refresh rendererRefresh at h
  cases hu : updateObjects s with
  | none => simp [hu] at h
  | some s2 =>
    simp only [hu] at h
    obtain ⟨u1, u2, u3, u4, u5, u6, _⟩ := updateObjects_spec hu
    obtain ⟨l1, l2, l3, l4⟩ := Layout_spec h
    refine ⟨l1.trans u1, l2.trans u2, sameMin_trans u3 l3, ?_, synced_of_sameFace l1 l2 l4 u5, ?_⟩
    · rw [sameFace_length l4, u4]
    · rw [wellFormed_congr l1 l2 (sameMin_length l3)]; exact u6

/-- A refresh does not panic on a well-formed state. -/
theorem Refresh_isSome (host : Host) {s : State} (hwf : wellFormed s = true) :
    ∃ s1, Refresh host s = some s1 := by
  obtain ⟨s2, hu⟩ := updateObjects_isSome hwf
  obtain ⟨u1, u2, _, u4, _, u6, _⟩ := updateObjects_spec hu
  obtain ⟨s1, hl⟩ := Layout_isSome host s2.a.size u6 (by rw [u4, u2]; omega)
  exact ⟨s1, by simp only [Refresh, rendererRefresh, hu, hl]⟩

/-- A refresh that returns was given a well-formed state. -/
theorem wellFormed_of_Refresh {host : Host} {s s1 : State} (h : Refresh host s = some s1) :
    wellFormed s = true := by
  obtain ⟨h1, h2, h3, _, _, h6⟩ := Refresh_spec h
  rw [← wellFormed_congr h1 h2 (sameMin_length h3)]; exact h6

/-! ### The operations on open flags -/

theorem validItem_sameShape {items items1 : List AccordionItem} (h : sameShape items items1)
    (n p : Nat) : validItem items1 n p = validItem items n p := by
  have hq := sameShape_getElem? h p
  unfold validItem
  cases h1 : items1[p]? with
  | none =>
    cases h2 : items[p]? with
    | none => rfl
    | some a => simp [h1, h2] at hq
  | some a1 =>
    cases h2 : items[p]? with
    | none => simp [h1, h2] at hq
    | some a =>
      simp only [h1, h2, Option.map_some', Option.some.injEq, eraseOpen] at hq
      have : a1.Detail = a.Detail := by
        simpa using congrArg AccordionItem.Detail hq
      simp [this]

theorem wellFormed_sameShape {s : State} {items1 : List AccordionItem}
    (h : sameShape s.items items1) :
    wellFormed { s with items := items1 } = wellFormed s := by
  unfold wellFormed
  simp only
  congr 1
  funext p
  exact validItem_sameShape h _ p

theorem validItem_lt {items : List AccordionItem} {n p : Nat}
    (h : validItem items n p = true) : p < items.length := by
  unfold validItem at h
  cases hp : items[p]? with
  | none => simp [hp] at h
  | some a => exact (List.getElem?_eq_some.1 hp).1

theorem wellFormed_lt {s : State} (hwf : wellFormed s = true) :
    ∀ p ∈ s.a.Items, p < s.items.length :=
  fun p hp => validItem_lt ((wellFormed_iff s).1 hwf p hp)

/-- In a well-formed state the flag read at a listed index is the flag of the
item behind the pointer. -/
theorem openFlag_eq_isOpen {s : State} (hwf : wellFormed s = true) {i p : Nat}
    (hi : s.a.Items[i]? = some p) : openFlag s i = some (isOpen s.items p) := by
  have hp := wellFormed_lt hwf p (List.mem_iff_getElem?.2 ⟨i, hi⟩)
  simp [openFlag, hi, isOpen, List.getElem?_eq_getElem hp]

theorem toNat_lt_length {index : Int} {n : Nat} (h0 : 0 ≤ index) (h1 : index < (n : Int)) :
    index.toNat < n := by omega

theorem toNat_cast {index : Int} (h0 : 0 ≤ index) : ((0 + index.toNat : Nat) : Int) = index := by
  omega

/-- An `Open` at a valid index that returns ran its loop and then a refresh. -/
theorem Open_spec {host : Host} {s s1 : State} {index : Int} (h0 : 0 ≤ index)
    (h1 : index < (s.a.Items.length : Int)) (h : Open host s index = some s1) :
    ∃ items1, openLoop s.a.MultiOpen index 0 s.a.Items s.items = some items1 ∧
      Refresh host { s with items := items1 } = some s1 := by
  unfold Open at h
  rw [if_neg (by omega)] at h
  cases ho : openLoop s.a.MultiOpen index 0 s.a.Items s.items with
  | none => simp [ho] at h
  | some items1 => exact ⟨items1, rfl, by simpa [ho] using h⟩

/-- An `Open` at a valid index of a well-formed state returns. -/
theorem Open_isSome (host : Host) {s : State} (index : Int) (hwf : wellFormed s = true) :
    (Open host s index).isSome = true := by
  unfold Open
  split
  · rfl
  · obtain ⟨items1, ho⟩ := openLoop_isSome s.a.MultiOpen index s.a.Items 0 s.items
      (wellFormed_lt hwf)
    have hwf1 : wellFormed { s with items := items1 } = true := by
      rw [wellFormed_sameShape (openLoop_sameShape _ _ _ _ _ _ ho)]; exact hwf
    obtain ⟨s1, hr⟩ := Refresh_isSome host hwf1
    simp [ho, hr]

/-- A `Close` at a valid index that returns cleared one flag and then ran a
refresh. -/
theorem Close_spec {host : Host} {s s1 : State} {index : Int} (h0 : 0 ≤ index)
    (h1 : index < (s.a.Items.length : Int)) (h : Close host s index = some s1) :
    ∃ p items1, s.a.Items[index.toNat]? = some p ∧ setOpen s.items p false = some items1 ∧
      Refresh host { s with items := items1 } = some s1 := by
  unfold Close at h
  rw [if_neg (by omega)] at h
  cases hp : s.a.Items[index.toNat]? with
  | none => simp [hp] at h
  | some p =>
    simp only [hp] at h
    cases ho : setOpen s.items p false with
    | none => simp [ho] at h
    | some items1 => exact ⟨p, items1, rfl, ho, by simpa [ho] using h⟩

/-- A `Close` of a well-formed state returns. -/
theorem Close_isSome (host : Host) {s : State} (index : Int) (hwf : wellFormed s = true) :
    (Close host s index).isSome = true := by
  unfold Close
  split
  · rfl
  · next hr =>
    have hlt : index.toNat < s.a.Items.length := by omega
    simp only [List.getElem?_eq_getElem hlt]
    have hp := wellFormed_lt hwf _ (List.getElem_mem hlt)
    obtain ⟨items1, ho⟩ := setOpen_isSome false hp
    have hwf1 : wellFormed { s with items := items1 } = true := by
      rw [wellFormed_sameShape (setOpen_sameShape ho)]; exact hwf
    obtain ⟨s1, hr⟩ := Refresh_isSome host hwf1
    simp [ho, hr]

/-- After a refresh of the state with new flags, the flag read at a listed
index is the new flag of the item behind the pointer. -/
theorem openFlag_after_Refresh {host : Host} {s s1 : State} {items1 : List AccordionItem}
    (hr : Refresh host { s with items := items1 } = some s1) {j q : Nat}
    (hj : s.a.Items[j]? = some q) : openFlag s1 j = some (isOpen items1 q) := by
  obtain ⟨r1, r2, _, _, _, r6⟩ := Refresh_spec hr
  have hj1 : s1.a.Items[j]? = some q := by rw [r2]; exact hj
  rw [openFlag_eq_isOpen r6 hj1, r1]

/-! ## Opening and closing one item -/

/-- C2, the code at the failing input: in single-open mode, when `Items`
lists the same item at indices 0 and 1, `Open(0)` returns with
`Items[0].Open` false: the iteration for index 1 closes the item that the
iteration for index 0 opened. -/
theorem Open_repeated_item_ends_closed :
    exTwice.a.MultiOpen = false ∧
    (Open exHost exTwice 0).bind (fun s => openFlag s 0) = some false := by
  decide

/-- Where `Open` does expand the item: for every container state and every
valid index whose item does not occur again at a later index of `Items`, or in
multi-open mode, `Open(index)` returns whenever every item is valid, and after
it returns `Items[index].Open` is true. -/
theorem Open_sets_flag (host : Host) (s : State) (index : Int) (p : Nat)
    (h0 : 0 ≤ index) (hp : s.a.Items[index.toNat]? = some p)
    (hlast : s.a.MultiOpen = true ∨ p ∉ s.a.Items.drop (index.toNat + 1)) :
    (wellFormed s = true → (Open host s index).isSome = true) ∧
    ∀ s1, Open host s index = some s1 → openFlag s1 index.toNat = some true := by
  refine ⟨Open_isSome host index, fun s1 h => ?_⟩
  have hlt : index.toNat < s.a.Items.length := (List.getElem?_eq_some.1 hp).1
  obtain ⟨items1, ho, hr⟩ := Open_spec h0 (by omega) h
  rw [openFlag_after_Refresh hr hp]
  congr 1
  rcases hlast with hm | hl
  · rw [hm] at ho
    exact openLoop_true_multi index p _ 0 index.toNat _ _ hp (toNat_cast h0) ho
  · exact openLoop_true _ index p _ 0 index.toNat _ _ hp (toNat_cast h0) hl ho

/-- Witness for `Open_sets_flag`: opening index 1 of two distinct items. -/
theorem Open_sets_flag_witness :
    (Open exHost exTwo 1).bind (fun s => openFlag s 1) = some true := by
  obtain ⟨h1, h2⟩ :=
    Open_sets_flag exHost exTwo 1 1 (by decide) (by decide) (Or.inr (by decide))
  obtain ⟨s1, hs⟩ := Option.isSome_iff_exists.1 (h1 (by decide))
  rw [hs]
  exact h2 s1 hs

/-- C3: for every container state, in either mode, and every valid index,
`Close(index)` returns whenever every item is valid, and after it returns
`Items[index].Open` is false. -/
theorem Close_clears_flag (host : Host) (s : State) (index : Int)
    (h0 : 0 ≤ index) (h1 : index < (s.a.Items.length : Int)) :
    (wellFormed s = true → (Close host s index).isSome = true) ∧
    ∀ s1, Close host s index = some s1 → openFlag s1 index.toNat = some false := by
  refine ⟨Close_isSome host index, fun s1 h => ?_⟩
  obtain ⟨p, items1, hp, ho, hr⟩ := Close_spec h0 h1 h
  rw [openFlag_after_Refresh hr hp, setOpen_isOpen_self ho]

/-- Witness for `Close_clears_flag`: closing index 1 of the container whose
second item is open. -/
theorem Close_clears_flag_witness :
    (Close exHost exTwoSecondOpen 1).bind (fun s => openFlag s 1) = some false := by
  obtain ⟨h1, h2⟩ := Close_clears_flag exHost exTwoSecondOpen 1 (by decide) (by decide)
  obtain ⟨s1, hs⟩ := Option.isSome_iff_exists.1 (h1 (by decide))
  rw [hs]
  exact h2 s1 hs

/-- C4, refuted as stated: in single-open mode, when `Items` lists the same
item at indices 0 and 1, after `Open(1)` the item at index 0 is open. -/
theorem Open_leaves_repeated_item_open :
    exTwice.a.MultiOpen = false ∧
    (Open exHost exTwice 1).bind (fun s => openFlag s 0) = some true := by
  decide

/-- C4, amended: in single-open mode, for every valid index, `Open(index)`
returns whenever every item is valid, and after it returns every entry of
`Items` that is a different item from the one at `index` has `Open` false,
whatever the flags were before. -/
theorem Open_closes_others (host : Host) (s : State) (index : Int) (p : Nat)
    (hm : s.a.MultiOpen = false) (h0 : 0 ≤ index) (hp : s.a.Items[index.toNat]? = some p) :
    (wellFormed s = true → (Open host s index).isSome = true) ∧
    ∀ s1, Open host s index = some s1 →
      s1.a.Items = s.a.Items ∧
      ∀ j q, s.a.Items[j]? = some q → q ≠ p → openFlag s1 j = some false := by
  refine ⟨Open_isSome host index, fun s1 h => ?_⟩
  have hlt : index.toNat < s.a.Items.length := (List.getElem?_eq_some.1 hp).1
  obtain ⟨items1, ho, hr⟩ := Open_spec h0 (by omega) h
  refine ⟨by rw [(Refresh_spec hr).2.1], fun j q hj hq => ?_⟩
  rw [openFlag_after_Refresh hr hj]
  congr 1
  rw [hm] at ho
  refine openLoop_false index q _ 0 _ _ (List.mem_iff_getElem?.2 ⟨j, hj⟩) (fun k hk e => ?_) ho
  have hk1 : k = index.toNat := by omega
  rw [hk1, hp] at hk
  exact hq (Option.some.inj hk).symm

/-- Witness for `Open_closes_others`: with the second of two distinct items
open, opening index 0 closes the item at index 1. -/
theorem Open_closes_others_witness :
    (Open exHost exTwoSecondOpen 0).bind (fun s => openFlag s 1) = some false := by
  obtain ⟨h1, h2⟩ :=
    Open_closes_others exHost exTwoSecondOpen 0 0 (by decide) (by decide) (by decide)
  obtain ⟨s1, hs⟩ := Option.isSome_iff_exists.1 (h1 (by decide))
  rw [hs]
  exact (h2 s1 hs).2 1 1 (by decide) (by decide)

/-- C5, refuted as stated: when `Items` lists the same open item at indices
0 and 1, `Close(0)` changes the flag read at index 1 from true to false. -/
theorem Close_changes_repeated_item :
    openFlag exTwiceOpen 1 = some true ∧
    (Close exHost exTwiceOpen 0).bind (fun s => openFlag s 1) = some false := by
  decide

/-- C5, amended: for every container state and valid index, `Close(index)` in
either mode, and `Open(index)` in multi-open mode, return whenever every item
is valid, leave the container (`Items` with its order and length, and
`MultiOpen`) unchanged, and leave unchanged the `Open` flag of every entry of
`Items` that is a different item from the one at `index`. -/
theorem Close_and_multi_Open_frame (host : Host) (s : State) (index : Int) (p : Nat)
    (h0 : 0 ≤ index) (hp : s.a.Items[index.toNat]? = some p) :
    ((wellFormed s = true → (Close host s index).isSome = true) ∧
      ∀ s1, Close host s index = some s1 →
        s1.a = s.a ∧ ∀ j q, s.a.Items[j]? = some q → q ≠ p → openFlag s1 j = openFlag s j) ∧
    (s.a.MultiOpen = true →
      (wellFormed s = true → (Open host s index).isSome = true) ∧
      ∀ s1, Open host s index = some s1 →
        s1.a = s.a ∧ ∀ j q, s.a.Items[j]? = some q → q ≠ p → openFlag s1 j = openFlag s j) := by
  have hlt : index.toNat < s.a.Items.length := (List.getElem?_eq_some.1 hp).1
  refine ⟨⟨Close_isSome host index, fun s1 h => ?_⟩,
    fun hm => ⟨Open_isSome host index, fun s1 h => ?_⟩⟩
  · obtain ⟨p1, items1, hp1, ho, hr⟩ := Close_spec h0 (by omega) h
    rw [hp] at hp1
    obtain rfl := Option.some.inj hp1
    have hwf : wellFormed s = true := by
      rw [← wellFormed_sameShape (setOpen_sameShape ho)]
      exact wellFormed_of_Refresh hr
    refine ⟨(Refresh_spec hr).2.1, fun j q hj hq => ?_⟩
    rw [openFlag_after_Refresh hr hj, openFlag_eq_isOpen hwf hj, setOpen_isOpen_ne ho hq]
  · obtain ⟨items1, ho, hr⟩ := Open_spec h0 (by omega) h
    have hwf : wellFormed s = true := by
      rw [← wellFormed_sameShape (openLoop_sameShape _ _ _ _ _ _ ho)]
      exact wellFormed_of_Refresh hr
    refine ⟨(Refresh_spec hr).2.1, fun j q hj hq => ?_⟩
    rw [openFlag_after_Refresh hr hj, openFlag_eq_isOpen hwf hj]
    congr 1
    refine isOpen_eq_of_getElem? (openLoop_frame _ index q _ 0 _ _ (fun k hk => ⟨fun e => ?_, hm⟩) ho)
    have hk1 : k = index.toNat := by omega
    rw [hk1, hp] at hk
    exact hq (Option.some.inj hk).symm

/-- Witness for `Close_and_multi_Open_frame`: with the second of two distinct
items open, closing index 0 leaves the flag at index 1 as it was. -/
theorem Close_and_multi_Open_frame_witness :
    (Close exHost exTwoSecondOpen 0).bind (fun s => openFlag s 1) =
      openFlag exTwoSecondOpen 1 := by
  obtain ⟨⟨h1, h2⟩, _⟩ :=
    Close_and_multi_Open_frame exHost exTwoSecondOpen 0 0 (by decide) (by decide)
  obtain ⟨s1, hs⟩ := Option.isSome_iff_exists.1 (h1 (by decide))
  rw [hs]
  exact (h2 s1 hs).2 1 1 (by decide) (by decide)

/-! ## Out-of-range indices -/

/-- The method `RemoveIndex` panics on every out-of-range index. -/
theorem RemoveIndex_out_of_range (host : Host) (s : State) (index : Int)
    (h : index < 0 ∨ (s.a.Items.length : Int) ≤ index) : RemoveIndex host s index = none := by
  unfold RemoveIndex
  rw [if_pos (by omega)]

/-- C6, the code at the failing inputs: on a container of two items
`RemoveIndex(2)` and `RemoveIndex(-1)` panic (no state is returned), while
the sibling operations `Open(2)` and `Close(2)` return the state unchanged. -/
theorem RemoveIndex_out_of_range_panics :
    RemoveIndex exHost exTwo 2 = none ∧ RemoveIndex exHost exTwo (-1) = none ∧
    Open exHost exTwo 2 = some exTwo ∧ Close exHost exTwo 2 = some exTwo := by
  decide

/-- C7: for every container state, `Open(index)` and `Close(index)` with an
out-of-range index return and leave the whole state as it was: `Items`,
every item's `Open` flag, `MultiOpen` and the renderer's header cache. -/
theorem Open_Close_out_of_range (host : Host) (s : State) (index : Int)
    (h : index < 0 ∨ (s.a.Items.length : Int) ≤ index) :
    Open host s index = some s ∧ Close host s index = some s := by
  unfold Open Close
  rw [if_pos (by omega), if_pos (by omega)]
  exact ⟨rfl, rfl⟩

/-- Witness for `Open_Close_out_of_range`: index 2 on two items. -/
theorem Open_Close_out_of_range_witness :
    Open exHost exTwoSecondOpen 2 = some exTwoSecondOpen ∧
    Close exHost exTwoSecondOpen 2 = some exTwoSecondOpen :=
  Open_Close_out_of_range exHost exTwoSecondOpen 2 (Or.inr (by decide))

/-! ### The operations on `Items` -/

theorem removeAt_sublist (l : List Nat) (k : Nat) :
    List.Sublist (l.take k ++ l.drop (k + 1)) l := by
  have h : List.Sublist (l.drop (k + 1)) (l.drop k) := by
    rw [← List.drop_drop 1 k l]
    exact List.drop_sublist 1 _
  have := List.Sublist.append (List.Sublist.refl (l.take k)) h
  rwa [List.take_append_drop] at this

/-- A `RemoveIndex` that returns had a valid index, and ran a refresh on the
container without the entry at that index. -/
theorem RemoveIndex_spec {host : Host} {s s1 : State} {index : Int}
    (h : RemoveIndex host s index = some s1) :
    0 ≤ index ∧ index < (s.a.Items.length : Int) ∧
    Refresh host { s with a := { s.a with
      Items := s.a.Items.take index.toNat ++ s.a.Items.drop (index.toNat + 1) } } = some s1 := by
  unfold RemoveIndex at h
  split at h
  · simp at h
  · next hr => exact ⟨by omega, by omega, h⟩

theorem removeLoop_spec (host : Host) (s : State) (item : Nat) (s1 : State) :
    ∀ (rest : List Nat) (i : Nat), removeLoop host s item i rest = some s1 →
      (item ∉ rest ∧ s1 = s) ∨
      ∃ k : Nat, rest[k]? = some item ∧ (∀ j, j < k → rest[j]? ≠ some item) ∧
        RemoveIndex host s ((i + k : Nat) : Int) = some s1
  | [], i, h => by
    simp only [removeLoop, Option.some.injEq] at h
    exact Or.inl ⟨by simp, h.symm⟩
  | p :: rest, i, h => by
    unfold removeLoop at h
    split at h
    · next hp =>
      subst hp
      exact Or.inr ⟨0, by simp, fun j hj => by omega, by simpa using h⟩
    · next hp =>
      rcases removeLoop_spec host s item s1 rest (i + 1) h with ⟨hn, he⟩ | ⟨k, hk, hfirst, hr⟩
      · exact Or.inl ⟨by simp [hn, Ne.symm hp], he⟩
      · refine Or.inr ⟨k + 1, by simpa using hk, fun j hj => ?_, ?_⟩
        · cases j with
          | zero => simpa using hp
          | succ j => simpa using hfirst j (by omega)
        · have e : i + (k + 1) = i + 1 + k := by omega
          rw [e]; exact hr

/-- A `Remove` that returns either found no entry equal to `item` and left
the state alone, or ran `RemoveIndex` at the first such entry. -/
theorem Remove_spec {host : Host} {s s1 : State} {item : Nat}
    (h : Remove host s item = some s1) :
    (item ∉ s.a.Items ∧ s1 = s) ∨
    ∃ k : Nat, s.a.Items[k]? = some item ∧ (∀ j, j < k → s.a.Items[j]? ≠ some item) ∧
      RemoveIndex host s (k : Int) = some s1 := by
  have := removeLoop_spec host s item s1 s.a.Items 0 h
  simpa using this

/-- An `OpenAll` that returns was a no-op in single-open mode; in multi-open
mode it ran its loop and a refresh. -/
theorem OpenAll_spec {host : Host} {s s1 : State} (h : OpenAll host s = some s1) :
    (s.a.MultiOpen = false ∧ s1 = s) ∨
    (s.a.MultiOpen = true ∧ ∃ items1, setAllLoop true s.a.Items s.items = some items1 ∧
      Refresh host { s with items := items1 } = some s1) := by
  unfold OpenAll at h
  cases hm : s.a.MultiOpen with
  | false => simp [hm] at h; exact Or.inl ⟨rfl, h.symm⟩
  | true =>
    simp only [hm, Bool.not_true, Bool.false_eq_true, if_false] at h
    cases ho : setAllLoop true s.a.Items s.items with
    | none => simp [ho] at h
    | some items1 => exact Or.inr ⟨rfl, items1, rfl, by simpa [ho] using h⟩

/-- A `CloseAll` that returns ran its loop and a refresh. -/
theorem CloseAll_spec {host : Host} {s s1 : State} (h : CloseAll host s = some s1) :
    ∃ items1, setAllLoop false s.a.Items s.items = some items1 ∧
      Refresh host { s with items := items1 } = some s1 := by
  unfold CloseAll at h
  cases ho : setAllLoop false s.a.Items s.items with
  | none => simp [ho] at h
  | some items1 => exact ⟨items1, rfl, by simpa [ho] using h⟩

/-- An `Open` that returns was a no-op on an out-of-range index; otherwise it
ran its loop and a refresh. -/
theorem Open_cases {host : Host} {s s1 : State} {index : Int}
    (h : Open host s index = some s1) :
    s1 = s ∨ (0 ≤ index ∧ index < (s.a.Items.length : Int) ∧
      ∃ items1, openLoop s.a.MultiOpen index 0 s.a.Items s.items = some items1 ∧
        Refresh host { s with items := items1 } = some s1) := by
  by_cases hr : index < 0 ∨ index ≥ (s.a.Items.length : Int)
  · left
    unfold Open at h
    rw [if_pos hr] at h
    exact (Option.some.inj h).symm
  · right
    have h0 : 0 ≤ index := by omega
    have h1 : index < (s.a.Items.length : Int) := by omega
    exact ⟨h0, h1, Open_spec h0 h1 h⟩

/-- A `Close` that returns was a no-op on an out-of-range index; otherwise it
cleared one flag and ran a refresh. -/
theorem Close_cases {host : Host} {s s1 : State} {index : Int}
    (h : Close host s index = some s1) :
    s1 = s ∨ (0 ≤ index ∧ index < (s.a.Items.length : Int) ∧
      ∃ p items1, s.a.Items[index.toNat]? = some p ∧ setOpen s.items p false = some items1 ∧
        Refresh host { s with items := items1 } = some s1) := by
  by_cases hr : index < 0 ∨ index ≥ (s.a.Items.length : Int)
  · left
    unfold Close at h
    rw [if_pos hr] at h
    exact (Option.some.inj h).symm
  · right
    have h0 : 0 ≤ index := by omega
    have h1 : index < (s.a.Items.length : Int) := by omega
    exact ⟨h0, h1, Close_spec h0 h1 h⟩

/-- Every public operation that returns either left the state alone or ended
with a refresh of a state that has the renderer and the detail panes of the
state it started from. -/
theorem step_cases {host : Host} {s s1 : State} {op : Op} (h : step host s op = some s1) :
    s1 = s ∨ ∃ s0, s0.r = s.r ∧ s0.objects = s.objects ∧ Refresh host s0 = some s1 := by
  cases op with
  | Append item =>
    have h1 : Refresh host { s with a := { s.a with Items := s.a.Items ++ [item] } } = some s1 := h
    exact Or.inr ⟨_, by rfl, by rfl, h1⟩
  | Remove item =>
    rcases Remove_spec h with ⟨_, he⟩ | ⟨k, _, _, hr⟩
    · exact Or.inl he
    · exact Or.inr ⟨_, by rfl, by rfl, (RemoveIndex_spec hr).2.2⟩
  | RemoveIndex index => exact Or.inr ⟨_, by rfl, by rfl, (RemoveIndex_spec h).2.2⟩
  | Open index =>
    rcases Open_cases h with he | ⟨_, _, items1, _, hr⟩
    · exact Or.inl he
    · exact Or.inr ⟨_, by rfl, by rfl, hr⟩
  | OpenAll =>
    rcases OpenAll_spec h with ⟨_, he⟩ | ⟨_, items1, _, hr⟩
    · exact Or.inl he
    · exact Or.inr ⟨_, by rfl, by rfl, hr⟩
  | Close index =>
    rcases Close_cases h with he | ⟨_, _, p, items1, _, _, hr⟩
    · exact Or.inl he
    · exact Or.inr ⟨_, by rfl, by rfl, hr⟩
  | CloseAll =>
    obtain ⟨items1, _, hr⟩ := CloseAll_spec h
    exact Or.inr ⟨_, by rfl, by rfl, hr⟩

/-! ### The single-open invariant -/

theorem openCount_eq (s : State) : openCount s = (s.a.Items.filter (isOpen s.items)).length := rfl

/-! ## The objects of the renderer -/

/-- The second loop of `Objects` returns the detail panes of the items, in
order, when every item is valid. -/
theorem detailRefs_spec (items : List AccordionItem) (n : Nat) :
    ∀ (ps : List Nat), (∀ p ∈ ps, validItem items n p = true) →
      ∃ ds, detailRefs items ps = some ds ∧ ds.length = ps.length ∧
        ∀ (j p : Nat) (ai : AccordionItem), ps[j]? = some p → items[p]? = some ai →
          ds[j]? = some (ObjRef.detail ai.Detail)
  | [], _ => ⟨[], rfl, rfl, fun j p ai hj => by simp at hj⟩
  | q :: ps, hv => by
    obtain ⟨ds, hd, hl, hs⟩ := detailRefs_spec items n ps
      (fun p hp => hv p (List.mem_cons_of_mem _ hp))
    have hq := hv q (List.mem_cons_self _ _)
    unfold validItem at hq
    cases ha : items[q]? with
    | none => simp [ha] at hq
    | some a =>
      refine ⟨ObjRef.detail a.Detail :: ds, by simp [detailRefs, ha, hd], by simp [hl], ?_⟩
      intro j p ai hj hp
      cases j with
      | zero =>
        simp only [List.getElem?_cons_zero, Option.some.injEq] at hj
        subst hj
        rw [ha] at hp
        obtain rfl := Option.some.inj hp
        simp
      | succ j =>
        simp only [List.getElem?_cons_succ] at hj ⊢
        exact hs j p ai hj hp

/-- In a well-formed state `Objects` returns every cached header, in slot
order, followed by the detail pane of every item, in index order. -/
theorem Objects_spec {s : State} (hwf : wellFormed s = true) :
    ∃ ds, Objects s = some ((List.range s.r.headers.length).map ObjRef.header ++ ds) ∧
      ds.length = s.a.Items.length ∧
      ∀ (j p : Nat) (ai : AccordionItem), s.a.Items[j]? = some p → s.items[p]? = some ai →
        ds[j]? = some (ObjRef.detail ai.Detail) := by
  obtain ⟨ds, hd, hl, hs⟩ := detailRefs_spec s.items s.objects.length s.a.Items
    ((wellFormed_iff s).1 hwf)
  exact ⟨ds, by simp [Objects, hd], hl, hs⟩

/-- After a public operation the cache is as long as before or as long as the
items need, whichever is more, and the state is well-formed. -/
theorem cache_after_step {host : Host} {s s1 : State} {op : Op}
    (hwf : wellFormed s = true) (hcache : s.a.Items.length ≤ s.r.headers.length)
    (h : step host s op = some s1) :
    wellFormed s1 = true ∧
    s1.r.headers.length = max s.r.headers.length s1.a.Items.length := by
  rcases step_cases h with he | ⟨s0, h1, _, hr⟩
  · subst he
    exact ⟨hwf, by omega⟩
  · obtain ⟨_, r2, _, r4, _, r6⟩ := Refresh_spec hr
    exact ⟨r6, by rw [r4, r2, h1]⟩

/-- C8, refuted as stated: from a rendered empty container, appending three
items and then removing two leaves one item, and `Objects()` has 4 entries
(three cached headers and one detail pane), not 2. -/
theorem Objects_keeps_surplus_headers :
    ((CreateRenderer exEmpty).bind (fun s =>
        run exHost s [Op.Append 0, Op.Append 1, Op.Append 2, Op.Remove 0, Op.Remove 1])).bind
      (fun s => (Objects s).map (fun os => (s.a.Items.length, os.length))) = some (1, 4) := by
  decide

/-- C8, amended: after any public mutation (and the refresh it triggers) on a
container whose items are valid and whose renderer has a header for each of
them, `Objects()` returns every cached header button in slot order (the `n`
headers of the items and then the surplus ones kept from earlier, larger item
counts) followed by the `n` detail panes in index order, where `n` is the
number of items after the mutation.  It has `len(headers) + n` entries with
`len(headers)` the larger of the cache length before and `n`; that is `2n`
exactly when the cache before held no more than `n` headers. -/
theorem Objects_after_step (host : Host) (s s1 : State) (op : Op)
    (hwf : wellFormed s = true) (hcache : s.a.Items.length ≤ s.r.headers.length)
    (h : step host s op = some s1) :
    s1.r.headers.length = max s.r.headers.length s1.a.Items.length ∧
    (Objects s1).map List.length =
      some (max s.r.headers.length s1.a.Items.length + s1.a.Items.length) ∧
    (s.r.headers.length ≤ s1.a.Items.length →
      (Objects s1).map List.length = some (2 * s1.a.Items.length)) ∧
    ∃ ds, Objects s1 = some ((List.range s1.r.headers.length).map ObjRef.header ++ ds) ∧
      ds.length = s1.a.Items.length ∧
      ∀ (j p : Nat) (ai : AccordionItem), s1.a.Items[j]? = some p → s1.items[p]? = some ai →
        ds[j]? = some (ObjRef.detail ai.Detail) := by
  obtain ⟨hwf1, hlen⟩ := cache_after_step hwf hcache h
  obtain ⟨ds, ho, hl, hs⟩ := Objects_spec hwf1
  refine ⟨hlen, ?_, fun hle => ?_, ds, ho, hl, hs⟩
  · simp [ho, hl, hlen]
  · simp only [ho, Option.map_some', Option.some.injEq, List.length_append, List.length_map,
      List.length_range, hl, hlen]
    omega

/-- Witness for `Objects_after_step`: appending a second item to a rendered
container of one item gives two headers followed by two detail panes. -/
theorem Objects_after_step_witness :
    (Objects exOneAppended).map List.length = some (2 * exOneAppended.a.Items.length) :=
  (Objects_after_step exHost exOne exOneAppended (Op.Append 1) (by decide) (by decide)
    (by decide)).2.2.1 (by decide)

/-! ## The minimum size -/

theorem Max_eq_max (x y : Int) : Max x y = max x y := by
  unfold Max
  split
  · next h => exact (max_eq_right (le_of_lt h)).symm
  · next h => exact (max_eq_left (not_lt.1 h)).symm

theorem maxOf_nonneg (l : List Int) : 0 ≤ maxOf l := by
  induction l with
  | nil => simp [maxOf]
  | cons x tl ih => simp only [maxOf, List.foldr_cons] at ih ⊢; exact le_max_of_le_right ih

theorem maxOf_cons (x : Int) (l : List Int) : maxOf (x :: l) = max x (maxOf l) := rfl

theorem maxOf_append (l1 l2 : List Int) : maxOf (l1 ++ l2) = max (maxOf l1) (maxOf l2) := by
  induction l1 with
  | nil =>
    show maxOf l2 = max 0 (maxOf l2)
    rw [max_eq_right (maxOf_nonneg l2)]
  | cons x tl ih => simp only [List.cons_append, maxOf_cons, ih, max_assoc]

/-- The padding the loops insert before every item but the first. -/
theorem padding_sum (pad : Int) :
    ∀ (rest : List Nat) (i : Nat), 0 < i →
      ((rest.enumFrom i).map (fun e => if e.1 ≠ 0 then pad else 0)).sum = rest.length * pad
  | [], i, _ => by simp
  | p :: rest, i, hi => by
    simp only [List.enumFrom_cons, List.map_cons, List.sum_cons, List.length_cons,
      padding_sum pad rest (i + 1) (by omega)]
    rw [if_pos (by omega)]
    push_cast
    ring

theorem padding_sum_enum (pad : Int) (l : List Nat) :
    ((l.enum).map (fun e => if e.1 ≠ 0 then pad else 0)).sum =
      max 0 ((l.length : Int) - 1) * pad := by
  cases l with
  | nil => simp
  | cons p rest =>
    simp only [List.enum_cons, List.map_cons, List.sum_cons, List.length_cons,
      padding_sum pad rest 1 (by omega)]
    have : max 0 (((rest.length + 1 : Nat) : Int) - 1) = (rest.length : Int) := by
      push_cast
      simp
    rw [this]
    simp

/-- A refresh leaves every item with a header in the cache. -/
theorem cache_of_Refresh {host : Host} {s0 s : State} (hr : Refresh host s0 = some s) :
    s.a.Items.length ≤ s.r.headers.length := by
  obtain ⟨_, r2, _, r4, _, _⟩ := Refresh_spec hr
  rw [r4, r2]
  exact le_max_right _ _

/-! ### Header sizes in synced states -/

theorem synced_headerMin {host : Host} {s : State} (hs : synced s) {k q : Nat}
    {ai : AccordionItem} (hk : s.a.Items[k]? = some q) (ha : s.items[q]? = some ai) :
    headerMin host s k = host.buttonMinSize ai.Title (some (iconFor ai.Open)) := by
  obtain ⟨b, a1, h1, h2, _, h4, _, h6⟩ := hs k q hk
  rw [ha] at h2
  obtain rfl := Option.some.inj h2
  simp [headerMin, h1, Button.MinSize, h4, h6]

theorem openFlag_some_lt {s : State} {i : Nat} {v : Bool} (h : openFlag s i = some v) :
    i < s.a.Items.length := by
  unfold openFlag at h
  cases hi : s.a.Items[i]? with
  | none => simp [hi] at h
  | some p => exact (List.getElem?_eq_some.1 hi).1

theorem isOpen_false_of_openCount {s : State} (h : openCount s = 0) :
    ∀ q ∈ s.a.Items, isOpen s.items q = false := by
  intro q hq
  have hnil : s.a.Items.filter (isOpen s.items) = [] := List.length_eq_zero.1 h
  have := List.filter_eq_nil_iff.1 hnil q hq
  simpa using this

theorem sameShape_symm {a b : List AccordionItem} (h : sameShape a b) : sameShape b a :=
  Eq.symm h

theorem sameMin_symm {a b : List CanvasObject} (h : sameMin a b) : sameMin b a :=
  Eq.symm h

/-- The detail pane of a listed item reports the same minimum size in two
states whose items differ in flags only and whose detail panes report the
same minimum sizes. -/
theorem detailMin_congr {s s1 : State} (hsh : sameShape s.items s1.items)
    (hmin : sameMin s.objects s1.objects) (hwf : wellFormed s = true) {q : Nat}
    (hq : q ∈ s.a.Items) : detailMin s1 q = detailMin s q := by
  have hv := (wellFormed_iff s).1 hwf q hq
  unfold validItem at hv
  cases hai : s.items[q]? with
  | none => simp [hai] at hv
  | some ai =>
    simp only [hai, decide_eq_true_eq] at hv
    have hshq := sameShape_getElem? hsh q
    rw [hai] at hshq
    cases hai1 : s1.items[q]? with
    | none => simp [hai1] at hshq
    | some ai1 =>
      simp only [hai1, Option.map_some', Option.some.injEq, eraseOpen,
        AccordionItem.mk.injEq, and_true] at hshq
      have hminq := sameMin_getElem? hmin ai.Detail
      simp only [detailMin, hai, hai1, hshq.2]
      cases ho : s.objects[ai.Detail]? with
      | none =>
        rw [List.getElem?_eq_getElem hv] at ho
        exact absurd ho (by simp)
      | some d =>
        rw [ho] at hminq
        cases ho1 : s1.objects[ai.Detail]? with
        | none => simp [ho1] at hminq
        | some d1 => simpa [ho1] using hminq

/-! ## Appending and removing -/

theorem removeLoop_absent (host : Host) (s : State) (item : Nat) :
    ∀ (rest : List Nat) (i : Nat), item ∉ rest → removeLoop host s item i rest = some s
  | [], _, _ => rfl
  | p :: rest, i, h => by
    have hp : p ≠ item := fun e => h (e ▸ List.mem_cons_self _ _)
    unfold removeLoop
    rw [if_neg hp]
    exact removeLoop_absent host s item rest (i + 1) (fun e => h (List.mem_cons_of_mem _ e))

theorem removeLoop_first (host : Host) (s : State) (item : Nat) :
    ∀ (rest : List Nat) (i k : Nat), rest[k]? = some item →
      (∀ j, j < k → rest[j]? ≠ some item) →
      removeLoop host s item i rest = RemoveIndex host s ((i + k : Nat) : Int)
  | [], _, k, hk, _ => by simp at hk
  | p :: rest, i, 0, hk, _ => by
    simp only [List.getElem?_cons_zero, Option.some.injEq] at hk
    unfold removeLoop
    rw [if_pos hk]
    rfl
  | p :: rest, i, k + 1, hk, hfirst => by
    have hp : p ≠ item := fun e => hfirst 0 (by omega) (by simp [e])
    unfold removeLoop
    rw [if_neg hp, removeLoop_first host s item rest (i + 1) k (by simpa using hk)
      (fun j hj => by simpa using hfirst (j + 1) (by omega))]
    congr 2
    omega

/-- Deleting the entry at the first position that holds `x` is `List.erase`. -/
theorem eraseIdx_first (x : Nat) :
    ∀ (l : List Nat) (k : Nat), l[k]? = some x → (∀ j, j < k → l[j]? ≠ some x) →
      l.eraseIdx k = l.erase x
  | [], k, hk, _ => by simp at hk
  | a :: tl, 0, hk, _ => by
    simp only [List.getElem?_cons_zero, Option.some.injEq] at hk
    subst hk
    simp
  | a :: tl, k + 1, hk, hfirst => by
    have ha : a ≠ x := fun e => hfirst 0 (by omega) (by simp [e])
    rw [List.eraseIdx_cons_succ, List.erase_cons_tail (by simpa using ha),
      eraseIdx_first x tl k (by simpa using hk)
        (fun j hj => by simpa using hfirst (j + 1) (by omega))]

theorem wellFormed_of_sublist {s : State} {l : List Nat} (hwf : wellFormed s = true)
    (hl : List.Sublist l s.a.Items) :
    wellFormed { s with a := { s.a with Items := l } } = true := by
  rw [wellFormed_iff] at hwf ⊢
  exact fun p hp => hwf p (hl.subset hp)

/-- What a `RemoveIndex` that returns leaves behind. -/
theorem RemoveIndex_result {host : Host} {s s1 : State} {index : Int}
    (h : RemoveIndex host s index = some s1) :
    0 ≤ index ∧ index < (s.a.Items.length : Int) ∧
    s1.a.Items = s.a.Items.eraseIdx index.toNat ∧ s1.items = s.items ∧
    s1.a.MultiOpen = s.a.MultiOpen := by
  obtain ⟨h0, h1, hr⟩ := RemoveIndex_spec h
  obtain ⟨r1, r2, _⟩ := Refresh_spec hr
  refine ⟨h0, h1, ?_, r1, ?_⟩
  · rw [r2, List.eraseIdx_eq_take_drop_succ]
  · rw [r2]

/-- A `RemoveIndex` at a valid index of a well-formed state returns. -/
theorem RemoveIndex_isSome (host : Host) {s : State} {index : Int} (h0 : 0 ≤ index)
    (h1 : index < (s.a.Items.length : Int)) (hwf : wellFormed s = true) :
    (RemoveIndex host s index).isSome = true := by
  unfold RemoveIndex
  rw [if_neg (by omega)]
  obtain ⟨s1, hr⟩ := Refresh_isSome host
    (wellFormed_of_sublist hwf (removeAt_sublist s.a.Items index.toNat))
  rw [hr]
  rfl

/-- What a `Remove` that returns leaves behind: `Items` without its first
entry equal to `item`, the items and the mode as they were. -/
theorem Remove_result {host : Host} {s s1 : State} {item : Nat}
    (h : Remove host s item = some s1) :
    s1.a.Items = s.a.Items.erase item ∧ s1.items = s.items ∧
    s1.a.MultiOpen = s.a.MultiOpen := by
  rcases Remove_spec h with ⟨hn, he⟩ | ⟨k, hk, hfirst, hr⟩
  · subst he
    exact ⟨(List.erase_of_not_mem hn).symm, rfl, rfl⟩
  · obtain ⟨_, _, r1, r2, r3⟩ := RemoveIndex_result hr
    refine ⟨?_, r2, r3⟩
    rw [r1, Int.toNat_ofNat, eraseIdx_first item _ k hk hfirst]

/-- A `Remove` on a well-formed state returns. -/
theorem Remove_isSome (host : Host) {s : State} (item : Nat) (hwf : wellFormed s = true) :
    (Remove host s item).isSome = true := by
  by_cases hmem : item ∈ s.a.Items
  · have hfind : ∃ k : Nat, s.a.Items[k]? = some item ∧
        ∀ j : Nat, j < k → s.a.Items[j]? ≠ some item := by
      have hex : ∃ k : Nat, s.a.Items[k]? = some item := List.mem_iff_getElem?.1 hmem
      exact ⟨Nat.find hex, Nat.find_spec hex, fun j hj => Nat.find_min hex hj⟩
    obtain ⟨k, hk, hfirst⟩ := hfind
    have hlt : k < s.a.Items.length := (List.getElem?_eq_some.1 hk).1
    unfold Remove
    rw [removeLoop_first host s item _ 0 k hk hfirst]
    exact RemoveIndex_isSome host (by omega) (by simp; omega) hwf
  · unfold Remove
    rw [removeLoop_absent host s item _ 0 hmem]
    rfl

/-- C12, refuted as stated: when `Items` lists the same item twice, one
`Remove` of that item leaves one entry and a second `Remove` deletes that
one too, so the two states differ. -/
theorem Remove_twice_removes_both_entries :
    (Remove exHost exTwice 0).map (fun s => s.a.Items) = some [0] ∧
    ((Remove exHost exTwice 0).bind (fun s => Remove exHost s 0)).map (fun s => s.a.Items) =
      some [] := by
  decide

/-- C12, amended: for every container state and every item that `Items` lists
at most once, `Remove(item)` returns whenever every listed item is valid, and
a second `Remove(item)` returns the state the first one left, unchanged
(`Items`, the open flags, `MultiOpen`, and the renderer as well). -/
theorem Remove_idempotent (host : Host) (s : State) (item : Nat)
    (hc : s.a.Items.count item ≤ 1) :
    (wellFormed s = true → (Remove host s item).isSome = true) ∧
    ∀ s1, Remove host s item = some s1 → Remove host s1 item = some s1 := by
  refine ⟨Remove_isSome host item, fun s1 h => ?_⟩
  have hitems := (Remove_result h).1
  have hn : item ∉ s1.a.Items := by
    rw [hitems]
    intro hmem
    have h1 : 0 < (s.a.Items.erase item).count item := List.count_pos_iff.2 hmem
    rw [List.count_erase_self] at h1
    omega
  exact removeLoop_absent host s1 item _ 0 hn

/-- Witness for `Remove_idempotent`: removing the first of two distinct items
twice leaves the second item, as removing it once does. -/
theorem Remove_idempotent_witness :
    ((Remove exHost exTwo 0).bind (fun s => Remove exHost s 0)) = Remove exHost exTwo 0 ∧
    (Remove exHost exTwo 0).map (fun s => s.a.Items) = some [1] := by
  obtain ⟨h1, h2⟩ := Remove_idempotent exHost exTwo 0 (by decide)
  obtain ⟨s1, hs⟩ := Option.isSome_iff_exists.1 (h1 (by decide))
  refine ⟨?_, by decide⟩
  rw [hs]
  exact h2 s1 hs

/-- C13: for every container and every valid index, `RemoveIndex(index)`
returns whenever every listed item is valid, and leaves `Items` equal to the
old sequence with exactly the entry at `index` deleted: the length drops by
one, the entries before `index` keep their positions, the entries after it
shift down by one in the same order, and no item's `Open` flag changes. -/
theorem RemoveIndex_deletes_entry (host : Host) (s : State) (index : Int)
    (h0 : 0 ≤ index) (h1 : index < (s.a.Items.length : Int)) :
    (wellFormed s = true → (RemoveIndex host s index).isSome = true) ∧
    ∀ s1, RemoveIndex host s index = some s1 →
      s1.a.Items = s.a.Items.eraseIdx index.toNat ∧
      s1.a.Items.length + 1 = s.a.Items.length ∧
      (∀ j, j < index.toNat →
        s1.a.Items[j]? = s.a.Items[j]? ∧ openFlag s1 j = openFlag s j) ∧
      (∀ j, index.toNat ≤ j →
        s1.a.Items[j]? = s.a.Items[j + 1]? ∧ openFlag s1 j = openFlag s (j + 1)) ∧
      s1.items = s.items ∧ s1.a.MultiOpen = s.a.MultiOpen := by
  refine ⟨RemoveIndex_isSome host h0 h1, fun s1 h => ?_⟩
  obtain ⟨_, _, r1, r2, r3⟩ := RemoveIndex_result h
  have hlt : index.toNat < s.a.Items.length := by omega
  have hb : ∀ j, j < index.toNat → s1.a.Items[j]? = s.a.Items[j]? := fun j hj => by
    rw [r1, List.getElem?_eraseIdx, if_pos hj]
  have ha : ∀ j, index.toNat ≤ j → s1.a.Items[j]? = s.a.Items[j + 1]? := fun j hj => by
    rw [r1, List.getElem?_eraseIdx, if_neg (by omega)]
  refine ⟨r1, ?_, fun j hj => ⟨hb j hj, ?_⟩, fun j hj => ⟨ha j hj, ?_⟩, r2, r3⟩
  · rw [r1]; exact List.length_eraseIdx_add_one hlt
  · simp only [openFlag, hb j hj, r2]
  · simp only [openFlag, ha j hj, r2]

/-- Witness for `RemoveIndex_deletes_entry`: removing index 0 of two items,
the second of them open, leaves that item at index 0, still open. -/
theorem RemoveIndex_deletes_entry_witness :
    (RemoveIndex exHost exTwoSecondOpen 0).map (fun s => (s.a.Items, openFlag s 0)) =
      some ([1], some true) := by
  obtain ⟨h1, h2⟩ := RemoveIndex_deletes_entry exHost exTwoSecondOpen 0 (by decide) (by decide)
  obtain ⟨s1, hs⟩ := Option.isSome_iff_exists.1 (h1 (by decide))
  obtain ⟨r1, _, _, r4, _⟩ := h2 s1 hs
  rw [hs, Option.map_some', r1, (r4 0 (by decide)).2]
  decide

/-- C14: for every container and item, if the item does not occur in `Items`
then `Remove(item)` returns the state unchanged; if it occurs, with first
occurrence at position `k`, then `Remove(item)` returns whenever every listed
item is valid, and deletes exactly the entry at `k` (the first one identical
to the item) and nothing else: the other entries keep their order, and no
`Open` flag and not `MultiOpen` changes. -/
theorem Remove_deletes_first (host : Host) (s : State) (item : Nat) :
    (item ∉ s.a.Items → Remove host s item = some s) ∧
    (wellFormed s = true → (Remove host s item).isSome = true) ∧
    (∀ s1, Remove host s item = some s1 →
      s1.a.Items = s.a.Items.erase item ∧ s1.items = s.items ∧
      s1.a.MultiOpen = s.a.MultiOpen) ∧
    (∀ k : Nat, s.a.Items[k]? = some item → (∀ j : Nat, j < k → s.a.Items[j]? ≠ some item) →
      ∀ s1, Remove host s item = some s1 → s1.a.Items = s.a.Items.eraseIdx k) := by
  refine ⟨fun hn => removeLoop_absent host s item _ 0 hn, Remove_isSome host item,
    fun s1 h => Remove_result h, fun k hk hfirst s1 h => ?_⟩
  rw [(Remove_result h).1, eraseIdx_first item _ k hk hfirst]

/-- Witness for `Remove_deletes_first`: with an item listed twice, `Remove`
deletes the entry at index 0 and keeps the one at index 1; removing an item
that is not listed changes nothing. -/
theorem Remove_deletes_first_witness :
    (Remove exHost exTwice 0).map (fun s => s.a.Items) = some [0] ∧
    Remove exHost exTwice 7 = some exTwice := by
  obtain ⟨h1, h2, _, h4⟩ := Remove_deletes_first exHost exTwice 0
  obtain ⟨s1, hs⟩ := Option.isSome_iff_exists.1 (h2 (by decide))
  refine ⟨?_, (Remove_deletes_first exHost exTwice 7).1 (by decide)⟩
  rw [hs, Option.map_some', h4 0 (by decide) (fun j hj => by omega) s1 hs]
  decide

/-- An `Append` of a valid item to a well-formed state returns. -/
theorem Append_isSome (host : Host) {s : State} {item : Nat} (hwf : wellFormed s = true)
    (hv : validItem s.items s.objects.length item = true) :
    (Append host s item).isSome = true := by
  have hwf1 : wellFormed { s with a := { s.a with Items := s.a.Items ++ [item] } } = true := by
    rw [wellFormed_iff] at hwf ⊢
    intro p hp
    rcases List.mem_append.1 hp with h | h
    · exact hwf p h
    · rw [List.mem_singleton.1 h]; exact hv
  obtain ⟨s1, hr⟩ := Refresh_isSome host hwf1
  unfold Append
  rw [hr]
  rfl

/-- C15: for every container and item, `Append(item)` returns whenever the
item and every listed item are valid, and it increases `len(Items)` by
exactly one, places the item at the final position, and leaves every earlier
entry, every `Open` flag and `MultiOpen` unchanged. -/
theorem Append_adds_last (host : Host) (s : State) (item : Nat) :
    (wellFormed s = true → validItem s.items s.objects.length item = true →
      (Append host s item).isSome = true) ∧
    ∀ s1, Append host s item = some s1 →
      s1.a.Items = s.a.Items ++ [item] ∧
      s1.a.Items.length = s.a.Items.length + 1 ∧
      s1.a.Items[s.a.Items.length]? = some item ∧
      (∀ j, j < s.a.Items.length →
        s1.a.Items[j]? = s.a.Items[j]? ∧ openFlag s1 j = openFlag s j) ∧
      s1.items = s.items ∧ s1.a.MultiOpen = s.a.MultiOpen := by
  refine ⟨fun hwf hv => Append_isSome host hwf hv, fun s1 h => ?_⟩
  have hr : Refresh host { s with a := { s.a with Items := s.a.Items ++ [item] } } = some s1 := h
  obtain ⟨r1, r2, _⟩ := Refresh_spec hr
  have hI : s1.a.Items = s.a.Items ++ [item] := by rw [r2]
  have hb : ∀ j, j < s.a.Items.length → s1.a.Items[j]? = s.a.Items[j]? := fun j hj => by
    rw [hI, List.getElem?_append_left hj]
  refine ⟨hI, by rw [hI]; simp, by rw [hI]; simp, fun j hj => ⟨hb j hj, ?_⟩, r1, by rw [r2]⟩
  simp only [openFlag, hb j hj, r1]

/-- Witness for `Append_adds_last`: appending the second item of the heap to
the container that lists the first. -/
theorem Append_adds_last_witness :
    (Append exHost exOne 1).map (fun s => s.a.Items) = some [0, 1] := by
  obtain ⟨h1, h2⟩ := Append_adds_last exHost exOne 1
  obtain ⟨s1, hs⟩ := Option.isSome_iff_exists.1 (h1 (by decide) (by decide))
  rw [hs, Option.map_some', (h2 s1 hs).1]
  decide

/-- C16: for every container in single-open mode, `OpenAll()` returns the
state exactly as it was: `Items`, every item's `Open` flag, `MultiOpen` and
the renderer's header cache. -/
theorem OpenAll_single_mode_noop (host : Host) (s : State) (hm : s.a.MultiOpen = false) :
    OpenAll host s = some s := by
  unfold OpenAll
  simp [hm]

/-- Witness for `OpenAll_single_mode_noop`: the container whose second item
is open stays as it is. -/
theorem OpenAll_single_mode_noop_witness :
    OpenAll exHost exTwoSecondOpen = some exTwoSecondOpen :=
  OpenAll_single_mode_noop exHost exTwoSecondOpen (by decide)

/-- C17: for every container in multi-open mode, `OpenAll()` returns whenever
every listed item is valid, and after it every entry of `Items` has `Open`
true while `Items` itself is unchanged. -/
theorem OpenAll_opens_all (host : Host) (s : State) (hm : s.a.MultiOpen = true) :
    (wellFormed s = true → (OpenAll host s).isSome = true) ∧
    ∀ s1, OpenAll host s = some s1 →
      s1.a.Items = s.a.Items ∧
      ∀ j, j < s.a.Items.length → openFlag s1 j = some true := by
  refine ⟨fun hwf => ?_, fun s1 h => ?_⟩
  · obtain ⟨items1, ho⟩ := setAllLoop_isSome true s.a.Items s.items (wellFormed_lt hwf)
    have hwf1 : wellFormed { s with items := items1 } = true := by
      rw [wellFormed_sameShape (setAllLoop_sameShape _ _ _ _ ho)]; exact hwf
    obtain ⟨s1, hr⟩ := Refresh_isSome host hwf1
    unfold OpenAll
    simp [hm, ho, hr]
  · rcases OpenAll_spec h with ⟨hf, _⟩ | ⟨_, items1, ho, hr⟩
    · rw [hm] at hf; exact absurd hf (by decide)
    · refine ⟨by rw [(Refresh_spec hr).2.1], fun j hj => ?_⟩
      have hjq : s.a.Items[j]? = some s.a.Items[j] := List.getElem?_eq_getElem hj
      rw [openFlag_after_Refresh hr hjq,
        setAllLoop_isOpen true _ _ _ _ (List.getElem_mem hj) ho]

/-- Witness for `OpenAll_opens_all`: two closed items in multi-open mode. -/
theorem OpenAll_opens_all_witness :
    (OpenAll exHost exTwoMulti).map (fun s => (openFlag s 0, openFlag s 1)) =
      some (some true, some true) := by
  obtain ⟨h1, h2⟩ := OpenAll_opens_all exHost exTwoMulti (by decide)
  obtain ⟨s1, hs⟩ := Option.isSome_iff_exists.1 (h1 (by decide))
  rw [hs, Option.map_some', (h2 s1 hs).2 0 (by decide), (h2 s1 hs).2 1 (by decide)]

/-! ## The header cache -/

/-- After `updateObjects` the header-cache invariant holds, whatever the
cache was before. -/
theorem cacheInv_updateObjects {s s1 : State} (h : updateObjects s = some s1) :
    cacheInv s1 := by
  obtain ⟨_, u2, _, u4, u5, _, u7⟩ := updateObjects_spec h
  refine ⟨by rw [u4, u2]; exact le_max_right _ _, fun k b hb => ?_⟩
  have hkl : k < s1.r.headers.length := (List.getElem?_eq_some.1 hb).1
  by_cases hk : k < s1.a.Items.length
  · obtain ⟨b1, _, h1, _, h3, _⟩ := u5 k _ (List.getElem?_eq_getElem hk)
    rw [hb] at h1
    obtain rfl := Option.some.inj h1
    rw [h3]
    exact (decide_eq_false (by omega)).symm
  · rw [u2] at hk
    obtain ⟨b0, _, h2⟩ := u7 k (by omega) (by rw [u4] at hkl; omega)
    rw [hb] at h2
    obtain rfl := Option.some.inj h2
    rw [u2]
    exact (decide_eq_true (by omega)).symm

/-- The method `Layout` keeps the header-cache invariant. -/
theorem cacheInv_Layout {host : Host} {s s1 : State} {size : Size}
    (h : Layout host s size = some s1) (hinv : cacheInv s) : cacheInv s1 := by
  obtain ⟨_, l2, _, l4⟩ := Layout_spec h
  obtain ⟨h1, h2⟩ := hinv
  refine ⟨by rw [l2, sameFace_length l4]; exact h1, fun k b hb => ?_⟩
  have hface := sameFace_getElem? l4 k
  rw [hb] at hface
  cases hb0 : s.r.headers[k]? with
  | none => simp [hb0] at hface
  | some b0 =>
    simp only [hb0, Option.map_some', Option.some.injEq, Button.face, Prod.mk.injEq] at hface
    rw [l2, hface.1]
    exact h2 k b0 hb0

/-- After a refresh the header-cache invariant holds. -/
theorem cacheInv_Refresh {host : Host} {s s1 : State} (h : Refresh host s = some s1) :
    cacheInv s1 := by
  unfold Refresh rendererRefresh at h
  cases hu : updateObjects s with
  | none => simp [hu] at h
  | some s2 =>
    simp only [hu] at h
    exact cacheInv_Layout h (cacheInv_updateObjects hu)

/-- Every sequence of public operations keeps the header-cache invariant. -/
theorem cacheInv_run (host : Host) :
    ∀ (ops : List Op) (s s1 : State), cacheInv s → run host s ops = some s1 → cacheInv s1
  | [], s, s1, hinv, h => by
    simp only [run, Option.some.injEq] at h
    exact h ▸ hinv
  | op :: ops, s, s1, hinv, h => by
    simp only [run] at h
    cases hs : step host s op with
    | none => simp [hs] at h
    | some s2 =>
      simp only [hs] at h
      refine cacheInv_run host ops s2 s1 ?_ h
      rcases step_cases hs with he | ⟨s0, _, _, hr⟩
      · rw [he]; exact hinv
      · exact cacheInv_Refresh hr

/-- C18: in every state reached from `CreateRenderer` by any sequence of
public mutations (each with its refresh), the cache has at least as many
headers as there are items, every header at an index below `len(Items)` is
visible, and every header at an index from `len(Items)` on is hidden. -/
theorem header_cache_invariant (host : Host) (s s0 s1 : State) (ops : List Op)
    (hc : CreateRenderer s = some s0) (hrun : run host s0 ops = some s1) :
    s1.a.Items.length ≤ s1.r.headers.length ∧
    ∀ (k : Nat) (b : Button), s1.r.headers[k]? = some b →
      (k < s1.a.Items.length → b.Hidden = false) ∧
      (s1.a.Items.length ≤ k → b.Hidden = true) := by
  obtain ⟨h1, h2⟩ := cacheInv_run host ops s0 s1 (cacheInv_updateObjects hc) hrun
  refine ⟨h1, fun k b hb => ⟨fun hk => ?_, fun hk => ?_⟩⟩
  · rw [h2 k b hb]; exact decide_eq_false (by omega)
  · rw [h2 k b hb]; exact decide_eq_true hk

/-- Witness for `header_cache_invariant`: after appending three items and
removing two, one item is left, the cache holds three headers, and the
headers beyond index 0 are hidden. -/
theorem header_cache_invariant_witness :
    exAfterRemovals.a.Items.length = 1 ∧
    exAfterRemovals.r.headers.map Button.Hidden = [false, true, true] ∧
    ∀ (k : Nat) (b : Button), exAfterRemovals.r.headers[k]? = some b →
      (k < exAfterRemovals.a.Items.length → b.Hidden = false) ∧
      (exAfterRemovals.a.Items.length ≤ k → b.Hidden = true) := by
  have hc : CreateRenderer exEmpty = some exEmptyRendered := by decide
  have hrun : run exHost exEmptyRendered
      [Op.Append 0, Op.Append 1, Op.Append 2, Op.Remove 0, Op.Remove 1] =
      some exAfterRemovals := by
    cases h : run exHost exEmptyRendered
        [Op.Append 0, Op.Append 1, Op.Append 2, Op.Remove 0, Op.Remove 1] with
    | none =>
      have hs : (run exHost exEmptyRendered
        [Op.Append 0, Op.Append 1, Op.Append 2, Op.Remove 0, Op.Remove 1]).isSome = true := by
        decide
      rw [h] at hs
      exact absurd hs (by decide)
    | some s1 => simp [exAfterRemovals, h]
  exact ⟨by decide, by decide,
    (header_cache_invariant exHost exEmpty exEmptyRendered exAfterRemovals _ hc hrun).2⟩

/-! ## The toggle of a header -/

/-- In a synced state the handler of the header of index `i` is the toggle of
index `i`. -/
theorem tap_eq_toggle {host : Host} {s : State} (hsy : synced s) {i p : Nat}
    (hi : s.a.Items[i]? = some p) : tap host s i = toggleForIndex host s i := by
  obtain ⟨b, ai, h1, _, _, _, h5, _⟩ := hsy i p hi
  simp [tap, h1, h5]

/-- The toggle of a valid index is `Close` of that index if its item is open
and `Open` of it otherwise. -/
theorem toggleForIndex_eq (host : Host) {s : State} (hwf : wellFormed s = true) {i p : Nat}
    (hi : s.a.Items[i]? = some p) :
    toggleForIndex host s i =
      if isOpen s.items p = true then Close host s (i : Int) else Open host s (i : Int) := by
  have hp := wellFormed_lt hwf p (List.mem_iff_getElem?.2 ⟨i, hi⟩)
  simp [toggleForIndex, hi, isOpen, List.getElem?_eq_getElem hp]

/-- C19, the code at the failing input: after appending the same closed item
twice (and the refreshes), the handler of header 0 is the toggle of index 0,
and invoking it leaves `Items[0].Open` false as before: `Open(0)` opens the
item and closes it again at index 1. -/
theorem tap_does_not_flip_repeated_item :
    exTwiceAppended.a.Items = [0, 0] ∧
    exTwiceAppended.r.headers.map Button.OnTapped = [some 0, some 1] ∧
    openFlag exTwiceAppended 0 = some false ∧
    (tap exHost exTwiceAppended 0).bind (fun s => openFlag s 0) = some false := by
  decide

/-- The tap handler of a header: in every state left by a refresh (so after
any public mutation, removals included), for every index `i` below
`len(Items)` the tap handler of `headers[i]` is the toggle of the current
index `i`: invoking it stays in bounds and runs `Close(i)` if `Items[i]` is
open and `Open(i)` if it is closed, and it returns with `Items[i].Open`
flipped provided that the item is open, or the container is in multi-open
mode, or the item does not occur again at a later index of `Items`. -/
theorem tap_toggles (host : Host) (s0 s : State) (i p : Nat)
    (hr : Refresh host s0 = some s) (hi : s.a.Items[i]? = some p) :
    (∃ b, s.r.headers[i]? = some b ∧ b.OnTapped = some i) ∧
    tap host s i =
      (if isOpen s.items p = true then Close host s (i : Int) else Open host s (i : Int)) ∧
    (tap host s i).isSome = true ∧
    ((isOpen s.items p = true ∨ s.a.MultiOpen = true ∨ p ∉ s.a.Items.drop (i + 1)) →
      ∀ s1, tap host s i = some s1 → openFlag s1 i = some (!isOpen s.items p)) := by
  obtain ⟨_, _, _, _, hsy, hwf⟩ := Refresh_spec hr
  have hlt : i < s.a.Items.length := (List.getElem?_eq_some.1 hi).1
  have htap := (tap_eq_toggle hsy hi).trans (toggleForIndex_eq host hwf hi)
  have hi' : s.a.Items[((i : Nat) : Int).toNat]? = some p := by simpa using hi
  refine ⟨?_, htap, ?_, fun hcond s1 h1 => ?_⟩
  · obtain ⟨b, _, h1, _, _, _, h5, _⟩ := hsy i p hi
    exact ⟨b, h1, h5⟩
  · rw [htap]
    split
    · exact Close_isSome host _ hwf
    · exact Open_isSome host _ hwf
  · rw [htap] at h1
    by_cases ho : isOpen s.items p = true
    · rw [if_pos ho] at h1
      obtain ⟨q, items1, hq, hset, hr1⟩ := Close_spec (by omega) (by omega) h1
      rw [openFlag_after_Refresh hr1 hi, ho]
      rw [hi'] at hq
      obtain rfl := Option.some.inj hq
      rw [setOpen_isOpen_self hset]
      rfl
    · rw [if_neg ho] at h1
      obtain ⟨items1, hloop, hr1⟩ := Open_spec (by omega) (by omega) h1
      have hof : isOpen s.items p = false := by simpa using ho
      rw [openFlag_after_Refresh hr1 hi, hof]
      congr 1
      rcases hcond with h | h | h
      · exact absurd h ho
      · rw [h] at hloop
        exact openLoop_true_multi _ p _ 0 i _ _ hi (by simp) hloop
      · exact openLoop_true _ _ p _ 0 i _ _ hi (by simp) h hloop

/-- Witness for `tap_toggles`: two closed items in multi-open mode, `Open(0)`,
then `RemoveIndex(0)`; the remaining item sits at index 0, closed, its header
carries the toggle of index 0, and a tap on that header opens it. -/
theorem tap_toggles_witness :
    exMultiRemoved.a.Items = [1] ∧ openFlag exMultiRemoved 0 = some false ∧
    exMultiRemoved.r.headers.map Button.OnTapped = [some 0, some 1] ∧
    (tap exHost exMultiRemoved 0).bind (fun s => openFlag s 0) = some true := by
  have hrm : RemoveIndex exHost exMultiFirstOpen 0 = some exMultiRemoved := by
    cases h : RemoveIndex exHost exMultiFirstOpen 0 with
    | none =>
      have hs : (RemoveIndex exHost exMultiFirstOpen 0).isSome = true := by decide
      rw [h] at hs
      exact absurd hs (by decide)
    | some s1 => simp [exMultiRemoved, h]
  obtain ⟨_, _, h3, h4⟩ :=
    tap_toggles exHost _ exMultiRemoved 0 1 (RemoveIndex_spec hrm).2.2 (by decide)
  obtain ⟨s1, hs⟩ := Option.isSome_iff_exists.1 h3
  refine ⟨by decide, by decide, by decide, ?_⟩
  rw [hs, Option.some_bind, h4 (Or.inr (Or.inl (by decide))) s1 hs]
  decide

/-! ### Heaps that differ in positions and sizes only -/

theorem headerMin_of_sameFace {host : Host} {s : State} {headers : List Button}
    (hf : sameFace s.r.headers headers) {i : Nat} {b : Button} (hb : headers[i]? = some b) :
    headerMin host s i = b.MinSize host := by
  have hface := sameFace_getElem? hf i
  rw [hb] at hface
  cases hb0 : s.r.headers[i]? with
  | none => simp [hb0] at hface
  | some b0 =>
    simp only [hb0, Option.map_some', Option.some.injEq, Button.face, Prod.mk.injEq] at hface
    simp [headerMin, hb0, Button.MinSize, hface.2.1, hface.2.2.1]

theorem detailMin_of_sameMin {s : State} {objects : List CanvasObject}
    (hm : sameMin s.objects objects) {p : Nat} {ai : AccordionItem} {d : CanvasObject}
    (ha : s.items[p]? = some ai) (hd : objects[ai.Detail]? = some d) :
    detailMin s p = d.minSize := by
  have hmin := sameMin_getElem? hm ai.Detail
  rw [hd] at hmin
  cases hd0 : s.objects[ai.Detail]? with
  | none => simp [hd0] at hmin
  | some d0 =>
    simp only [hd0, Option.map_some', Option.some.injEq] at hmin
    simp [detailMin, ha, hd0, hmin]

/-! ### Wrapping addition -/

theorem wrapInt_add_left (a b : Int) : wrapInt (wrapInt a + b) = wrapInt (a + b) := by
  unfold wrapInt
  omega

theorem wrapInt_add_right (a b : Int) : wrapInt (a + wrapInt b) = wrapInt (a + b) := by
  unfold wrapInt
  omega

theorem wrapInt_wrapInt (a : Int) : wrapInt (wrapInt a) = wrapInt a := by
  unfold wrapInt
  omega

theorem wrapInt_of_inIntRange {a : Int} (h : inIntRange a) : wrapInt a = a := by
  unfold inIntRange at h
  unfold wrapInt
  omega

theorem inIntRange_wrapInt (a : Int) : inIntRange (wrapInt a) := by
  unfold inIntRange wrapInt
  omega

theorem wrapInt_zero : wrapInt 0 = 0 := by decide

/-- The loop of `MinSize` in closed form: from index `i`, with running width
`w` and height `h`, the height is the exact sum wrapped around. -/
theorem minSizeLoop_eq (host : Host) (s : State) :
    ∀ (rest : List Nat) (i : Nat) (w h : Int), 0 ≤ w → wrapInt h = h →
      i + rest.length ≤ s.r.headers.length →
      (∀ p ∈ rest, validItem s.items s.objects.length p = true) →
      minSizeLoop host s.items s.objects s.r.headers i rest w h =
        some
          { Width := max w (max (maxOf ((rest.enumFrom i).map (fun e => (headerMin host s e.1).Width)))
              (maxOf ((rest.filter (isOpen s.items)).map (fun p => (detailMin s p).Width))))
            Height := wrapInt (h + ((rest.enumFrom i).map
              (fun e => (if e.1 ≠ 0 then host.Padding else 0) + entryHeight host s e)).sum) }
  | [], i, w, h, hw, hh, _, _ => by
    simp [minSizeLoop, maxOf, hw, hh]
  | p :: rest, i, w, h, hw, hh, hlen, hv => by
    simp only [List.length_cons] at hlen
    have hil : i < s.r.headers.length := by omega
    have hp := hv p (List.mem_cons_self _ _)
    unfold validItem at hp
    cases ha : s.items[p]? with
    | none => simp [ha] at hp
    | some ai =>
      simp only [ha, decide_eq_true_eq] at hp
      have hhm : headerMin host s i = (s.r.headers[i]).MinSize host := by
        simp [headerMin, List.getElem?_eq_getElem hil]
      have hdm : detailMin s p = (s.objects[ai.Detail]).minSize := by
        simp [detailMin, ha, List.getElem?_eq_getElem hp]
      have hio : isOpen s.items p = ai.Open := by simp [isOpen, ha]
      have ih := fun w1 h1 hw1 hh1 => minSizeLoop_eq host s rest (i + 1) w1 h1 hw1 hh1 (by omega)
        (fun q hq => hv q (List.mem_cons_of_mem _ hq))
      have hw1 : 0 ≤ max w (s.r.headers[i].MinSize host).Width := le_max_of_le_left hw
      have hw2 : 0 ≤ max (max w (s.r.headers[i].MinSize host).Width)
          (s.objects[ai.Detail]).minSize.Width := le_max_of_le_left hw1
      unfold minSizeLoop
      simp only [List.getElem?_eq_getElem hil, ha, List.getElem?_eq_getElem hp]
      cases hopen : ai.Open with
      | true =>
        simp only [if_true, Max_eq_max, addInt]
        rw [ih _ _ hw2 (wrapInt_wrapInt _)]
        simp only [List.enumFrom_cons, List.map_cons, List.sum_cons, maxOf_cons,
          List.filter_cons_of_pos (hio.trans hopen), entryHeight, hhm, hdm, hio, hopen,
          if_true, Option.some.injEq, Size.mk.injEq]
        refine ⟨?_, ?_⟩
        · simp only [max_assoc, max_left_comm, max_comm]
        · split <;> simp only [wrapInt_add_left, add_assoc, zero_add, add_zero]
      | false =>
        simp only [Bool.false_eq_true, if_false, Max_eq_max, addInt]
        rw [ih _ _ hw1 (wrapInt_wrapInt _)]
        simp only [List.enumFrom_cons, List.map_cons, List.sum_cons, maxOf_cons,
          List.filter_cons_of_neg (show ¬ isOpen s.items p = true by rw [hio, hopen]; decide),
          entryHeight, hhm, hio, hopen, Bool.false_eq_true, if_false,
          Option.some.injEq, Size.mk.injEq]
        refine ⟨?_, ?_⟩
        · simp only [max_assoc, max_left_comm, max_comm]
        · split <;> simp only [wrapInt_add_left, add_assoc, zero_add, add_zero]

/-- The method `MinSize` in closed form on a state whose items are valid and
all have a header in the cache: the width of the spec, and the height of the
spec wrapped around as `int` additions do. -/
theorem MinSize_eq (host : Host) {s : State} (hwf : wellFormed s = true)
    (hcache : s.a.Items.length ≤ s.r.headers.length) :
    MinSize host s =
      some { Width := specWidth host s, Height := wrapInt (specHeight host s) } := by
  unfold MinSize
  rw [minSizeLoop_eq host s s.a.Items 0 0 0 (le_refl _) wrapInt_zero (by omega)
    ((wellFormed_iff s).1 hwf)]
  simp only [Option.some.injEq, Size.mk.injEq, specWidth, specHeight, maxOf_append, zero_add]
  refine ⟨?_, ?_⟩
  · rw [max_eq_right]
    · rfl
    · exact le_max_of_le_left (maxOf_nonneg _)
  · have hpad := padding_sum_enum host.Padding s.a.Items
    simp only [List.enum] at hpad ⊢
    rw [List.sum_map_add, hpad]
    congr 1
    ring

/-- C9, refuted as stated: with padding 4, a header 20 high and one open item
whose detail pane has the minimum height `2^63 - 1`, the sum of the spec is
`2^63 + 23`, but the `int` additions of `MinSize()` wrap around and it
returns the height `-2^63 + 23`. -/
theorem MinSize_height_wraps_around :
    specHeight exHost exHuge = 9223372036854775831 ∧
    (MinSize exHost exHuge).map Size.Height = some (-9223372036854775785) := by
  decide

/-- C9, amended: for every refreshed renderer state, `MinSize()` returns the
size whose width is the maximum of 0, every item's header minimum width and
every open item's detail minimum width, and whose height is the sum over the
items of the header's minimum height, plus padding and the detail's minimum
height for each open item, plus `max(0, n - 1)` times the padding, wrapped
around into the range of `int`; the height is that sum itself whenever the
sum lies in the range of `int`. -/
theorem MinSize_formula (host : Host) (s0 s : State) (hr : Refresh host s0 = some s) :
    MinSize host s =
      some { Width := specWidth host s, Height := wrapInt (specHeight host s) } ∧
    (inIntRange (specHeight host s) →
      MinSize host s = some { Width := specWidth host s, Height := specHeight host s }) := by
  have h := MinSize_eq host (Refresh_spec hr).2.2.2.2.2 (cache_of_Refresh hr)
  refine ⟨h, fun hrange => ?_⟩
  rw [h, wrapInt_of_inIntRange hrange]

/-- Witness for `MinSize_formula`, with padding 4, headers 100 by 20 and
details 200 by 60: the empty container gives (0, 0), one open item gives
(200, 84), and three open items give height 260. -/
theorem MinSize_formula_witness :
    MinSize exHost exEmptyRendered = some { Width := 0, Height := 0 } ∧
    MinSize exHost exOneOpen = some { Width := 200, Height := 84 } ∧
    (MinSize exHost exThreeOpen).map Size.Height = some 260 := by
  refine ⟨?_, ?_, ?_⟩
  · rw [(MinSize_formula exHost exEmptyRendered exEmptyRendered (by decide)).2 (by decide)]
    decide
  · rw [(MinSize_formula exHost exOneOpen exOneOpen (by decide)).2 (by decide)]
    decide
  · decide

/-! ### Flags after `Open`, and sums over `Items` -/

/-- In single-open mode an item that is listed after position `index` ends
closed. -/
theorem openLoop_false_later (index : Int) (q : Nat) :
    ∀ (rest : List Nat) (i : Nat) (items items1 : List AccordionItem),
      (∃ k : Nat, rest[k]? = some q ∧ index < ((i + k : Nat) : Int)) →
      openLoop false index i rest items = some items1 → isOpen items1 q = false
  | [], i, items, items1, ⟨k, hk, _⟩, _ => by simp at hk
  | p :: rest, i, items, items1, ⟨k, hk, hlt⟩, h => by
    cases k with
    | zero =>
      simp only [List.getElem?_cons_zero, Option.some.injEq] at hk
      subst hk
      have hi : ¬ ((i : Nat) : Int) = index := by simp at hlt; omega
      unfold openLoop at h
      rw [if_neg hi] at h
      simp only [Bool.not_false, if_true] at h
      cases hs : setOpen items p false with
      | none => simp [hs] at h
      | some it1 =>
        simp only [hs] at h
        by_cases hmem : p ∈ rest
        · obtain ⟨k1, hk1⟩ := List.mem_iff_getElem?.1 hmem
          exact openLoop_false_later index p rest (i + 1) _ _
            ⟨k1, hk1, by simp at hlt; push_cast; omega⟩ h
        · have hfr := openLoop_frame false index p rest (i + 1) it1 items1
            (fun k hk => absurd (List.mem_iff_getElem?.2 ⟨k, hk⟩) hmem) h
          rw [isOpen_eq_of_getElem? hfr]
          exact setOpen_isOpen_self hs
    | succ k =>
      have hex : ∃ k1 : Nat, rest[k1]? = some q ∧ index < ((i + 1 + k1 : Nat) : Int) :=
        ⟨k, by simpa using hk, by push_cast at hlt ⊢; omega⟩
      unfold openLoop at h
      split at h
      · cases hs : setOpen items p true with
        | none => simp [hs] at h
        | some it1 =>
          simp only [hs] at h
          exact openLoop_false_later index q rest (i + 1) _ _ hex h
      · simp only [Bool.not_false, if_true] at h
        cases hs : setOpen items p false with
        | none => simp [hs] at h
        | some it1 =>
          simp only [hs] at h
          exact openLoop_false_later index q rest (i + 1) _ _ hex h

theorem sum_ite_eq_count (p : Nat) (c : Int) :
    ∀ (l : List Nat), (l.map (fun q => if q = p then c else 0)).sum = (l.count p : Int) * c
  | [] => by simp
  | a :: l => by
    rw [List.map_cons, List.sum_cons, sum_ite_eq_count p c l, List.count_cons]
    by_cases h : a = p
    · simp [h]; ring
    · simp [h]

theorem count_mul_nonneg_iff {l : List Nat} {p : Nat} (hp : p ∈ l) (c : Int) :
    0 ≤ (l.count p : Int) * c ↔ 0 ≤ c := by
  have hpos : (0 : Int) < (l.count p : Int) := by
    exact_mod_cast List.count_pos_iff.2 hp
  constructor
  · intro h
    by_contra hc
    have : (l.count p : Int) * c < 0 := mul_neg_of_pos_of_neg hpos (not_le.1 hc)
    omega
  · intro h
    exact mul_nonneg (le_of_lt hpos) h

/-! ### The single-open invariant under the guard -/

theorem filter_length_le_count {f : Nat → Bool} {p : Nat} :
    ∀ (l : List Nat), (∀ q ∈ l, q ≠ p → f q = false) → (l.filter f).length ≤ l.count p
  | [], _ => by simp
  | x :: tl, hf => by
    have ih := filter_length_le_count tl (fun q hq => hf q (List.mem_cons_of_mem _ hq))
    rw [List.filter_cons, List.count_cons]
    by_cases hxp : x = p
    · subst hxp
      split <;> simp <;> omega
    · have hfx := hf x (List.mem_cons_self _ _) hxp
      simp [hfx, hxp]
      exact ih

theorem filter_length_eq_count {f : Nat → Bool} {p : Nat} :
    ∀ (l : List Nat), (∀ q ∈ l, f q = decide (q = p)) → (l.filter f).length = l.count p
  | [], _ => by simp
  | x :: tl, hf => by
    have ih := filter_length_eq_count tl (fun q hq => hf q (List.mem_cons_of_mem _ hq))
    have hfx := hf x (List.mem_cons_self _ _)
    rw [List.filter_cons, List.count_cons, hfx]
    by_cases hxp : x = p
    · simp [hxp, ih]
    · simp [hxp, ih]

/-- A refresh keeps the single-open invariant. -/
theorem singleOpenInv_Refresh {host : Host} {s0 s1 : State} (hr : Refresh host s0 = some s1)
    (h : singleOpenInv s0) : singleOpenInv s1 := by
  obtain ⟨r1, r2, _⟩ := Refresh_spec hr
  unfold singleOpenInv openCount at *
  rw [r1, r2]
  exact h

/-- The guard of an `Open` at a valid index, in terms of the entry there. -/
theorem guarded_Open {s : State} {index : Int} {p : Nat} (h0 : 0 ≤ index)
    (hp : s.a.Items[index.toNat]? = some p) :
    guarded s (Op.Open index) =
      (decide (p ∈ s.a.Items.drop (index.toNat + 1)) || decide (s.a.Items.count p ≤ 1)) := by
  simp only [guarded, h0, if_true, hp]

/-- What single-open `Open` at a valid index leaves open: if the item there
is listed again later, nothing; otherwise exactly the entries that list it. -/
theorem Open_single_flags {host : Host} {s s1 : State} {index : Int} {p : Nat}
    (hm : s.a.MultiOpen = false) (h0 : 0 ≤ index)
    (hp : s.a.Items[index.toNat]? = some p) (h : Open host s index = some s1) :
    s1.a = s.a ∧
    (p ∈ s.a.Items.drop (index.toNat + 1) → ∀ q ∈ s.a.Items, isOpen s1.items q = false) ∧
    (p ∉ s.a.Items.drop (index.toNat + 1) →
      ∀ q ∈ s.a.Items, isOpen s1.items q = decide (q = p)) := by
  have hlt : index.toNat < s.a.Items.length := (List.getElem?_eq_some.1 hp).1
  obtain ⟨items1, ho, hr⟩ := Open_spec h0 (by omega) h
  obtain ⟨r1', r2', _⟩ := Refresh_spec hr
  have r1 : s1.items = items1 := r1'
  have r2 : s1.a = s.a := r2'
  rw [hm] at ho
  have hne : ∀ q ∈ s.a.Items, q ≠ p → isOpen s1.items q = false := by
    intro q hq e
    rw [r1]
    refine openLoop_false index q _ 0 _ _ hq (fun k hk e1 => ?_) ho
    have hk1 : k = index.toNat := by omega
    rw [hk1, hp] at hk
    exact e (Option.some.inj hk).symm
  refine ⟨r2, fun hl q hq => ?_, fun hl q hq => ?_⟩
  · by_cases e : q = p
    · subst e
      obtain ⟨k, hk⟩ := List.mem_iff_getElem?.1 hl
      rw [List.getElem?_drop] at hk
      rw [r1]
      exact openLoop_false_later index q _ 0 _ _
        ⟨index.toNat + 1 + k, hk, by push_cast; omega⟩ ho
    · exact hne q hq e
  · by_cases e : q = p
    · subst e
      rw [r1, openLoop_true false index q _ 0 index.toNat _ _ hp (toNat_cast h0) hl ho]
      simp
    · rw [hne q hq e]
      simp [e]

/-- Every guarded operation that returns keeps the single-open invariant. -/
theorem singleOpenInv_step {host : Host} {s s1 : State} {op : Op} (hinv : singleOpenInv s)
    (hg : guarded s op = true) (h : step host s op = some s1) : singleOpenInv s1 := by
  obtain ⟨hm, hc⟩ := hinv
  cases op with
  | Append item =>
    have h1 : Refresh host { s with a := { s.a with Items := s.a.Items ++ [item] } } = some s1 := h
    simp only [guarded, Bool.or_eq_true, Bool.not_eq_true', decide_eq_true_eq] at hg
    refine singleOpenInv_Refresh h1 ⟨hm, ?_⟩
    simp only [openCount, List.filter_append, List.length_append]
    rcases hg with hg | hg
    · rw [List.filter_cons_of_neg (by simp [hg])]
      simpa using hc
    · have hle : ([item].filter (isOpen s.items)).length ≤ 1 := by
        exact le_trans (List.length_filter_le _ _) (by simp)
      unfold openCount at hg
      omega
  | Remove item =>
    rcases Remove_spec h with ⟨_, he⟩ | ⟨k, _, _, hr⟩
    · rw [he]; exact ⟨hm, hc⟩
    · refine singleOpenInv_Refresh (RemoveIndex_spec hr).2.2 ⟨hm, ?_⟩
      exact le_trans (List.Sublist.length_le
        (List.Sublist.filter _ (removeAt_sublist _ _))) hc
  | RemoveIndex index =>
    refine singleOpenInv_Refresh (RemoveIndex_spec h).2.2 ⟨hm, ?_⟩
    exact le_trans (List.Sublist.length_le
      (List.Sublist.filter _ (removeAt_sublist _ _))) hc
  | Open index =>
    rcases Open_cases h with he | ⟨h0, h1, _⟩
    · rw [he]; exact ⟨hm, hc⟩
    · have hlt : index.toNat < s.a.Items.length := by omega
      obtain ⟨p, hp⟩ : ∃ p, s.a.Items[index.toNat]? = some p :=
        ⟨_, List.getElem?_eq_getElem hlt⟩
      obtain ⟨ha, hlater, hlast⟩ := Open_single_flags hm h0 hp h
      rw [guarded_Open h0 hp] at hg
      simp only [Bool.or_eq_true, decide_eq_true_eq] at hg
      refine ⟨by rw [ha]; exact hm, ?_⟩
      unfold openCount
      rw [ha]
      by_cases hl : p ∈ s.a.Items.drop (index.toNat + 1)
      · have hnil : s.a.Items.filter (isOpen s1.items) = [] := by
          rw [List.filter_eq_nil_iff]
          intro q hq
          simp [hlater hl q hq]
        simp [hnil]
      · have hcnt := hg.resolve_left hl
        exact le_trans (filter_length_le_count _ (fun q hq e => by
          rw [hlast hl q hq]; simp [e])) hcnt
  | OpenAll =>
    rcases OpenAll_spec h with ⟨_, he⟩ | ⟨hm1, _⟩
    · rw [he]; exact ⟨hm, hc⟩
    · rw [hm] at hm1; exact absurd hm1 (by decide)
  | Close index =>
    rcases Close_cases h with he | ⟨_, _, p, items1, _, ho, hr⟩
    · rw [he]; exact ⟨hm, hc⟩
    · refine singleOpenInv_Refresh hr ⟨hm, le_trans ?_ hc⟩
      refine List.Sublist.length_le (List.monotone_filter_right _ (fun q hq => ?_))
      by_cases e : q = p
      · subst e
        rw [setOpen_isOpen_self ho] at hq
        exact absurd hq (by decide)
      · rwa [setOpen_isOpen_ne ho e] at hq
  | CloseAll =>
    obtain ⟨items1, ho, hr⟩ := CloseAll_spec h
    refine singleOpenInv_Refresh hr ⟨hm, ?_⟩
    have hnil : s.a.Items.filter (isOpen items1) = [] := by
      rw [List.filter_eq_nil_iff]
      intro q hq
      simp [setAllLoop_isOpen false q _ _ _ hq ho]
    simp [openCount, hnil]

/-- In single-open mode an operation that is not guarded, if it returns,
leaves two or more entries open. -/
theorem unguarded_step {host : Host} {s s1 : State} {op : Op} (hm : s.a.MultiOpen = false)
    (hg : guarded s op = false) (h : step host s op = some s1) : 2 ≤ openCount s1 := by
  cases op with
  | Append item =>
    have h1 : Refresh host { s with a := { s.a with Items := s.a.Items ++ [item] } } = some s1 := h
    obtain ⟨r1, r2, _⟩ := Refresh_spec h1
    simp only [guarded, Bool.or_eq_false_iff, Bool.not_eq_false', decide_eq_false_iff_not] at hg
    unfold openCount at hg ⊢
    rw [r1, r2]
    simp only [List.filter_append, List.length_append]
    rw [List.filter_cons_of_pos hg.1]
    simp only [List.filter_nil, List.length_singleton]
    omega
  | Open index =>
    by_cases h0 : 0 ≤ index
    · cases hp : s.a.Items[index.toNat]? with
      | none => simp [guarded, h0, hp] at hg
      | some p =>
        rw [guarded_Open h0 hp] at hg
        simp only [Bool.or_eq_false_iff, decide_eq_false_iff_not] at hg
        obtain ⟨ha, _, hlast⟩ := Open_single_flags hm h0 hp h
        unfold openCount
        rw [ha, filter_length_eq_count _ (hlast hg.1)]
        omega
    · simp [guarded, h0] at hg
  | Remove item => simp [guarded] at hg
  | RemoveIndex index => simp [guarded] at hg
  | OpenAll => simp [guarded] at hg
  | Close index => simp [guarded] at hg
  | CloseAll => simp [guarded] at hg

/-- Along a guarded sequence of operations the single-open invariant holds
after every operation that returns. -/
theorem singleOpenInv_run (host : Host) :
    ∀ (ops : List Op) (k : Nat) (s s1 : State), singleOpenInv s →
      runGuarded host s ops = true → run host s (ops.take k) = some s1 → singleOpenInv s1
  | [], k, s, s1, hinv, _, h => by
    simp only [List.take_nil, run, Option.some.injEq] at h
    exact h ▸ hinv
  | op :: ops, 0, s, s1, hinv, _, h => by
    simp only [List.take_zero, run, Option.some.injEq] at h
    exact h ▸ hinv
  | op :: ops, k + 1, s, s1, hinv, hg, h => by
    simp only [List.take_succ_cons, run] at h
    simp only [runGuarded, Bool.and_eq_true] at hg
    cases hs : step host s op with
    | none => simp [hs] at h
    | some s2 =>
      simp only [hs] at h hg
      exact singleOpenInv_run host ops k s2 s1 (singleOpenInv_step hinv hg.1 hs) hg.2 h

/-- C1, refuted as stated: a fresh single-open container of two distinct
closed items, then `Open(0)`, `Remove` of the first item, `Open(0)` and
`Append` of the removed item (which is still open): two entries are open.
Also, on a fresh container that lists one closed item twice, `Open(1)` leaves
two entries open; and a fresh container built from two open items has two
entries open after `OpenAll()`, which does nothing in single-open mode. -/
theorem single_open_broken :
    exTwo.a.MultiOpen = false ∧ openCount exTwo = 0 ∧
    (run exHost exTwo [Op.Open 0, Op.Remove 0, Op.Open 0, Op.Append 0]).map openCount =
      some 2 ∧
    exTwice.a.MultiOpen = false ∧ openCount exTwice = 0 ∧
    (run exHost exTwice [Op.Open 1]).map openCount = some 2 ∧
    exBothOpen.a.MultiOpen = false ∧
    (run exHost exBothOpen [Op.OpenAll]).map openCount = some 2 := by
  decide

/-- C1, amended: for every container freshly built by `NewAccordionContainer`
(so `MultiOpen` is false) with at most one entry open, and every finite
sequence of public operations that contains no `Append` of an open item while
some entry is open and no `Open` at the last of several entries that list the
same item, after each operation that returns at most one entry of `Items` has
`Open` true.  Each of the two excluded operations, when it returns, leaves
two or more entries open. -/
theorem single_open_invariant (host : Host) (items : List AccordionItem)
    (objects : List CanvasObject) (ptrs : List Nat) (ops : List Op)
    (hc : openCount (NewAccordionContainer items objects ptrs) ≤ 1)
    (hg : runGuarded host (NewAccordionContainer items objects ptrs) ops = true) :
    (∀ k s1, run host (NewAccordionContainer items objects ptrs) (ops.take k) = some s1 →
      openCount s1 ≤ 1) ∧
    (∀ (s s1 : State) (op : Op), s.a.MultiOpen = false → guarded s op = false →
      step host s op = some s1 → 2 ≤ openCount s1) :=
  ⟨fun k s1 h => (singleOpenInv_run host ops k _ s1 ⟨rfl, hc⟩ hg h).2,
    fun _ _ _ hm hg h => unguarded_step hm hg h⟩

/-- Witness for `single_open_invariant`: two distinct closed items; `Open(0)`,
`Remove` of the first item, then `Append` of it again while it is still open
and nothing else is: one entry is open at the end. -/
theorem single_open_invariant_witness :
    ∃ s1, run exHost exTwo [Op.Open 0, Op.Remove 0, Op.Append 0] = some s1 ∧
      openCount s1 ≤ 1 := by
  obtain ⟨s1, hs⟩ := Option.isSome_iff_exists.1
    (show (run exHost exTwo [Op.Open 0, Op.Remove 0, Op.Append 0]).isSome = true by decide)
  exact ⟨s1, hs, (single_open_invariant exHost _ _ _
    [Op.Open 0, Op.Remove 0, Op.Append 0] (by decide) (by decide)).1 3 s1 hs⟩

/-! ## The layout -/

theorem headerTop_eq (host : Host) (s : State) (i : Nat) :
    (if i ≠ 0 then addInt (cursorAt host s i) host.Padding else cursorAt host s i) =
      headerTop host s i := by
  unfold headerTop addInt
  split
  · rfl
  · rw [add_zero]
    unfold cursorAt
    rw [wrapInt_wrapInt]

theorem cursorAt_succ (host : Host) (s : State) {i p : Nat} (hi : s.a.Items[i]? = some p) :
    cursorAt host s (i + 1) =
      wrapInt (cursorAt host s i +
        ((if i ≠ 0 then host.Padding else 0) + entryHeight host s (i, p))) := by
  have hlt : i < s.a.Items.length := (List.getElem?_eq_some.1 hi).1
  unfold cursorAt
  rw [List.take_succ, hi, wrapInt_add_left]
  simp only [Option.toList, List.enum, List.enumFrom_append, List.map_append, List.sum_append,
    List.length_take, List.enumFrom_singleton, List.map_cons, List.map_nil, List.sum_cons,
    List.sum_nil, zero_add, add_zero, Nat.min_eq_left (le_of_lt hlt)]

theorem cursorAt_length (host : Host) (s : State) :
    cursorAt host s s.a.Items.length = wrapInt (specHeight host s) := by
  unfold cursorAt specHeight
  have hpad := padding_sum_enum host.Padding s.a.Items
  rw [List.take_length, List.sum_map_add, hpad]
  congr 1
  ring

theorem detailTop_eq (host : Host) (s : State) (i : Nat) :
    addInt (addInt (headerTop host s i) (headerMin host s i).Height) host.Padding =
      detailTop host s i := by
  unfold detailTop addInt
  rw [wrapInt_add_left]

theorem cursorAt_succ_closed (host : Host) (s : State) {i p : Nat}
    (hi : s.a.Items[i]? = some p) (hc : isOpen s.items p = false) :
    addInt (headerTop host s i) (headerMin host s i).Height = cursorAt host s (i + 1) := by
  rw [cursorAt_succ host s hi]
  unfold headerTop addInt entryHeight
  simp only [hc, Bool.false_eq_true, if_false, wrapInt_add_left, add_assoc, add_zero]

theorem cursorAt_succ_open (host : Host) (s : State) {i p : Nat}
    (hi : s.a.Items[i]? = some p) (ho : isOpen s.items p = true) :
    addInt (detailTop host s i) (detailMin s p).Height = cursorAt host s (i + 1) := by
  rw [cursorAt_succ host s hi]
  unfold detailTop headerTop addInt entryHeight
  simp only [ho, if_true, wrapInt_add_left, add_assoc]

theorem cursorAt_of_le (host : Host) (s : State) {i : Nat} (h : s.a.Items.length ≤ i) :
    cursorAt host s i = cursorAt host s s.a.Items.length := by
  unfold cursorAt
  rw [List.take_of_length_le h, List.take_length]

/-- One iteration of the loop of `Layout`, on heaps that differ from those of
`s` in positions and sizes only: the header of index `i` is replaced by a
header `bp` that shows the same, moved to the cursor (advanced by the padding
unless `i` is 0) and resized; the detail pane of an open item is replaced by a
pane `dp` of the same minimum size, moved below the header and one padding;
the cursor moves to the bottom edge of what was placed last. -/
theorem layoutLoop_cons (host : Host) (s : State) (width : Int) {i p : Nat} (rest : List Nat)
    (y : Int) {objects : List CanvasObject} {headers : List Button}
    (hm : sameMin s.objects objects) (hf : sameFace s.r.headers headers)
    (hil : i < s.r.headers.length)
    (hv : validItem s.items s.objects.length p = true) :
    ∃ b ai bp, headers[i]? = some b ∧ s.items[p]? = some ai ∧
      bp.face = b.face ∧ bp.MinSize host = headerMin host s i ∧
      bp.Pos = { X := 0, Y := if i ≠ 0 then addInt y host.Padding else y } ∧
      bp.Sz = { Width := width, Height := (bp.MinSize host).Height } ∧
      ((ai.Open = true ∧ ∃ d dp, objects[ai.Detail]? = some d ∧ dp.minSize = d.minSize ∧
          dp.minSize = detailMin s p ∧
          dp.Pos = { X := 0, Y := addInt (addInt (if i ≠ 0 then addInt y host.Padding else y)
            (headerMin host s i).Height) host.Padding } ∧
          dp.Sz = { Width := width, Height := dp.minSize.Height } ∧
          layoutLoop host s.items width i (p :: rest) y objects headers =
            layoutLoop host s.items width (i + 1) rest
              (addInt (addInt (addInt (if i ≠ 0 then addInt y host.Padding else y)
                (headerMin host s i).Height) host.Padding) (detailMin s p).Height)
              (objects.set ai.Detail dp) (headers.set i bp)) ∨
       (ai.Open = false ∧
          layoutLoop host s.items width i (p :: rest) y objects headers =
            layoutLoop host s.items width (i + 1) rest
              (addInt (if i ≠ 0 then addInt y host.Padding else y) (headerMin host s i).Height)
              objects (headers.set i bp))) := by
  have hil1 : i < headers.length := by rw [sameFace_length hf]; exact hil
  unfold validItem at hv
  cases ha : s.items[p]? with
  | none => simp [ha] at hv
  | some ai =>
    simp only [ha, decide_eq_true_eq] at hv
    have hdl : ai.Detail < objects.length := by rw [sameMin_length hm]; exact hv
    have hb : headers[i]? = some headers[i] := List.getElem?_eq_getElem hil1
    have hd : objects[ai.Detail]? = some objects[ai.Detail] := List.getElem?_eq_getElem hdl
    have hhm : headerMin host s i = (headers[i]).MinSize host := headerMin_of_sameFace hf hb
    have hdm : detailMin s p = (objects[ai.Detail]).minSize := detailMin_of_sameMin hm ha hd
    refine ⟨headers[i], ai,
      ((headers[i]).Move { X := 0, Y := if i ≠ 0 then addInt y host.Padding else y }).Resize
        { Width := width, Height := ((headers[i]).MinSize host).Height },
      hb, rfl, rfl, hhm.symm, rfl, rfl, ?_⟩
    cases hopen : ai.Open with
    | true =>
      refine Or.inl ⟨rfl, objects[ai.Detail],
        ((objects[ai.Detail]).Move
          { X := 0, Y := addInt (addInt (if i ≠ 0 then addInt y host.Padding else y)
              ((headers[i]).MinSize host).Height) host.Padding }).Resize
          { Width := width, Height := (objects[ai.Detail]).minSize.Height },
        hd, rfl, hdm.symm, by rw [hhm]; rfl, rfl, ?_⟩
      rw [layoutLoop]
      simp only [hb, ha, hd, hopen, if_true, hhm, hdm, Button.MinSize,
        Button.Move, CanvasObject.Move]
    | false =>
      refine Or.inr ⟨rfl, ?_⟩
      rw [layoutLoop]
      simp only [hb, ha, hopen, Bool.false_eq_true, if_false, hhm,
        Button.MinSize, Button.Move]

theorem drop_cons_getElem? {l : List Nat} {i p : Nat} {rest : List Nat}
    (h : l.drop i = p :: rest) : l[i]? = some p ∧ l.drop (i + 1) = rest := by
  refine ⟨?_, ?_⟩
  · have h0 : (l.drop i)[0]? = some p := by rw [h]; simp
    rw [List.getElem?_drop] at h0
    simpa using h0
  · have h1 : (l.drop i).tail = rest := by rw [h]; rfl
    rw [List.tail_drop] at h1
    exact h1

/-- The loop of `Layout` in closed form, from index `i` on with the cursor at
`cursorAt i`, on heaps that differ from those of `s` in positions and sizes
only: it returns with the cursor at `cursorAt n`; the headers before `i` are
untouched; the header of every index from `i` on is at `(0, headerTop k)` with
the layout's width and its own minimum height; every detail pane that was
placed or belongs to an open item met is placed; a pane that belongs to no
open item met is untouched; and the pane of an open item met that no later
open item shares is at `(0, detailTop k)`. -/
theorem layoutLoop_run (host : Host) (s : State) (width : Int)
    (hcache : s.a.Items.length ≤ s.r.headers.length) (hwf : wellFormed s = true) :
    ∀ (rest : List Nat) (i : Nat) (objects : List CanvasObject) (headers : List Button),
      s.a.Items.drop i = rest →
      sameMin s.objects objects → sameFace s.r.headers headers →
      ∃ o1 h1,
        layoutLoop host s.items width i rest (cursorAt host s i) objects headers =
          some (cursorAt host s s.a.Items.length, o1, h1) ∧
        (∀ k, k < i → h1[k]? = headers[k]?) ∧
        (∀ k, i ≤ k → k < s.a.Items.length → ∃ b1, h1[k]? = some b1 ∧
          b1.Pos = { X := 0, Y := headerTop host s k } ∧
          b1.Sz = { Width := width, Height := (b1.MinSize host).Height } ∧
          b1.MinSize host = headerMin host s k) ∧
        (∀ a, ((∃ d, objects[a]? = some d ∧ placedDetail width d) ∨
            (∃ k p ai, i ≤ k ∧ s.a.Items[k]? = some p ∧ s.items[p]? = some ai ∧
              ai.Open = true ∧ ai.Detail = a)) →
          ∃ d1, o1[a]? = some d1 ∧ placedDetail width d1) ∧
        (∀ a, (∀ k p ai, i ≤ k → s.a.Items[k]? = some p → s.items[p]? = some ai →
            ai.Open = true → ai.Detail ≠ a) → o1[a]? = objects[a]?) ∧
        (∀ k p ai, i ≤ k → s.a.Items[k]? = some p → s.items[p]? = some ai →
          ai.Open = true →
          (∀ j q aq, k < j → s.a.Items[j]? = some q → s.items[q]? = some aq →
            aq.Open = true → aq.Detail ≠ ai.Detail) →
          ∃ d1, o1[ai.Detail]? = some d1 ∧
            d1.Pos = { X := 0, Y := detailTop host s k } ∧ d1.minSize = detailMin s p)
  | [], i, objects, headers, hdrop, _, _ => by
    have hle : s.a.Items.length ≤ i := List.drop_eq_nil_iff.1 hdrop
    have hnone : ∀ k, i ≤ k → s.a.Items[k]? = none :=
      fun k hk => List.getElem?_eq_none (by omega)
    refine ⟨objects, headers, by simp [layoutLoop, cursorAt_of_le host s hle], fun _ _ => rfl,
      fun k h1 h2 => by omega, fun a ha => ?_, fun _ _ => rfl, ?_⟩
    · rcases ha with h | ⟨k, p, ai, hk, hp, _⟩
      · exact h
      · rw [hnone k hk] at hp
        exact absurd hp (by simp)
    · intro k p ai hk hp
      rw [hnone k hk] at hp
      exact absurd hp (by simp)
  | p :: rest, i, objects, headers, hdrop, hm, hf => by
    obtain ⟨hi, hdrop1⟩ := drop_cons_getElem? hdrop
    have hin : i < s.a.Items.length := (List.getElem?_eq_some.1 hi).1
    have hil : i < s.r.headers.length := by omega
    have hil1 : i < headers.length := by rw [sameFace_length hf]; exact hil
    have hv : validItem s.items s.objects.length p = true :=
      (wellFormed_iff s).1 hwf p (List.getElem?_mem hi)
    obtain ⟨b, ai, bp, hb, ha, hbf, hbm, hbpos, hbsz, hcase⟩ :=
      layoutLoop_cons host s width rest (cursorAt host s i) hm hf hil hv
    rw [headerTop_eq] at hbpos
    simp only [headerTop_eq] at hcase
    have hio : isOpen s.items p = ai.Open := by simp [isOpen, ha]
    have hset : ∀ (h1 : List Button),
        (∀ k, k < i + 1 → h1[k]? = (headers.set i bp)[k]?) →
        (∀ k, k < i → h1[k]? = headers[k]?) ∧ h1[i]? = some bp := by
      intro h1 hk
      refine ⟨fun k hki => ?_, ?_⟩
      · rw [hk k (by omega), List.getElem?_set_ne (by omega)]
      · rw [hk i (by omega), List.getElem?_set_self hil1]
    have hhdr : ∀ (h1 : List Button),
        (∀ k, k < i + 1 → h1[k]? = (headers.set i bp)[k]?) →
        (∀ k, i + 1 ≤ k → k < s.a.Items.length → ∃ b1, h1[k]? = some b1 ∧
          b1.Pos = { X := 0, Y := headerTop host s k } ∧
          b1.Sz = { Width := width, Height := (b1.MinSize host).Height } ∧
          b1.MinSize host = headerMin host s k) →
        ∀ k, i ≤ k → k < s.a.Items.length → ∃ b1, h1[k]? = some b1 ∧
          b1.Pos = { X := 0, Y := headerTop host s k } ∧
          b1.Sz = { Width := width, Height := (b1.MinSize host).Height } ∧
          b1.MinSize host = headerMin host s k := by
      intro h1 hbefore hplaced k hk1 hk2
      by_cases hki : k = i
      · subst hki
        exact ⟨bp, (hset h1 hbefore).2, hbpos, hbsz, hbm⟩
      · exact hplaced k (by omega) hk2
    have hsame : ∀ {k q : Nat} {aq : AccordionItem}, k = i → s.a.Items[k]? = some q →
        s.items[q]? = some aq → q = p ∧ aq = ai := by
      intro k q aq hk hq haq
      subst hk
      rw [hi] at hq
      obtain rfl := Option.some.inj hq
      rw [ha] at haq
      exact ⟨rfl, (Option.some.inj haq).symm⟩
    rcases hcase with ⟨hopen, d, dp, hd, hdm, hdmin, hdpos, hdsz, heq⟩ | ⟨hopen, heq⟩
    · have hdl : ai.Detail < objects.length := (List.getElem?_eq_some.1 hd).1
      rw [detailTop_eq] at hdpos
      rw [detailTop_eq, cursorAt_succ_open host s hi (by rw [hio]; exact hopen)] at heq
      obtain ⟨o1, h1, hrun, hbefore, hplaced, hobj, hframe, hpos⟩ :=
        layoutLoop_run host s width hcache hwf rest (i + 1)
          (objects.set ai.Detail dp) (headers.set i bp) hdrop1
          (sameMin_trans hm (sameMin_set hd hdm)) (sameFace_trans hf (sameFace_set hb hbf))
      have hself : (objects.set ai.Detail dp)[ai.Detail]? = some dp :=
        List.getElem?_set_self hdl
      refine ⟨o1, h1, ?_, (hset h1 hbefore).1, hhdr h1 hbefore hplaced, fun a ha1 => ?_,
        fun a ha1 => ?_, fun k q aq hk hq haq hoq hlater => ?_⟩
      · rw [heq, hrun]
      · refine hobj a ?_
        rcases ha1 with ⟨d0, hd0, hp0⟩ | ⟨k, q, aq, hk, hq, haq, hoq, hdq⟩
        · by_cases hae : a = ai.Detail
          · subst hae
            exact Or.inl ⟨dp, hself, ⟨by rw [hdpos], hdsz⟩⟩
          · exact Or.inl ⟨d0, by rw [List.getElem?_set_ne (Ne.symm hae)]; exact hd0, hp0⟩
        · by_cases hki : k = i
          · obtain ⟨rfl, rfl⟩ := hsame hki hq haq
            subst hdq
            exact Or.inl ⟨dp, hself, ⟨by rw [hdpos], hdsz⟩⟩
          · exact Or.inr ⟨k, q, aq, by omega, hq, haq, hoq, hdq⟩
      · rw [hframe a (fun k q aq hk hq haq hoq => ha1 k q aq (by omega) hq haq hoq),
          List.getElem?_set_ne (ha1 i p ai (le_refl _) hi ha hopen)]
      · by_cases hki : k = i
        · obtain ⟨rfl, rfl⟩ := hsame hki hq haq
          subst hki
          refine ⟨dp, ?_, hdpos, hdmin⟩
          rw [hframe aq.Detail (fun j r ar hj hr har hor => hlater j r ar (by omega) hr har hor),
            hself]
        · exact hpos k q aq (by omega) hq haq hoq hlater
    · rw [cursorAt_succ_closed host s hi (by rw [hio]; exact hopen)] at heq
      obtain ⟨o1, h1, hrun, hbefore, hplaced, hobj, hframe, hpos⟩ :=
        layoutLoop_run host s width hcache hwf rest (i + 1)
          objects (headers.set i bp) hdrop1 hm (sameFace_trans hf (sameFace_set hb hbf))
      have hne : ∀ {k q : Nat} {aq : AccordionItem}, i ≤ k → s.a.Items[k]? = some q →
          s.items[q]? = some aq → aq.Open = true → i + 1 ≤ k := by
        intro k q aq hk hq haq hoq
        by_contra hcon
        obtain ⟨rfl, rfl⟩ := hsame (by omega : k = i) hq haq
        rw [hopen] at hoq
        exact absurd hoq (by decide)
      refine ⟨o1, h1, ?_, (hset h1 hbefore).1, hhdr h1 hbefore hplaced, fun a ha1 => ?_,
        fun a ha1 => ?_, fun k q aq hk hq haq hoq hlater => ?_⟩
      · rw [heq, hrun]
      · refine hobj a ?_
        rcases ha1 with h | ⟨k, q, aq, hk, hq, haq, hoq, hdq⟩
        · exact Or.inl h
        · exact Or.inr ⟨k, q, aq, hne hk hq haq hoq, hq, haq, hoq, hdq⟩
      · exact hframe a (fun k q aq hk hq haq hoq => ha1 k q aq (by omega) hq haq hoq)
      · exact hpos k q aq (hne hk hq haq hoq) hq haq hoq hlater

theorem cursorAt_zero (host : Host) (s : State) : cursorAt host s 0 = 0 := by
  simp [cursorAt, wrapInt_zero]

/-- C20: for every refreshed renderer state and every size, `Layout(size)`
returns and the vertical cursor `y` at its end equals the height that
`MinSize()` returns on the same state.  The cursor is where the layout put the
items: the header of index `k` is left at `(0, headerTop k)`, as wide as the
layout and as high as its own minimum height; the detail pane of every open
item is left at `x = 0` with that width and its own minimum height, and at
`y = detailTop k` unless a later open item shares the pane; and `y` is the
bottom edge (its `y` plus its height, as `int`) of the last item's detail pane
if that item is open, of the last item's header if it is closed, and 0 if
there is no item. -/
theorem Layout_agrees_with_MinSize (host : Host) (s0 s : State) (size : Size)
    (hr : Refresh host s0 = some s) :
    ∃ s1 y sz, Layout host s size = some s1 ∧ layoutCursor host s size = some y ∧
      MinSize host s = some sz ∧ y = sz.Height ∧
      (∀ (k : Nat), k < s.a.Items.length → ∃ b1, s1.r.headers[k]? = some b1 ∧
        placedHeader host size.Width b1 ∧ b1.Pos.Y = headerTop host s k) ∧
      (∀ (k p : Nat) (ai : AccordionItem), s.a.Items[k]? = some p → s.items[p]? = some ai →
        ai.Open = true →
        ∃ d1, s1.objects[ai.Detail]? = some d1 ∧ placedDetail size.Width d1 ∧
          ((∀ (j q : Nat) (aq : AccordionItem), k < j → s.a.Items[j]? = some q →
              s.items[q]? = some aq → aq.Open = true → aq.Detail ≠ ai.Detail) →
            d1.Pos.Y = detailTop host s k)) ∧
      (∀ (k p : Nat) (ai : AccordionItem), k + 1 = s.a.Items.length →
        s.a.Items[k]? = some p → s.items[p]? = some ai →
        (ai.Open = false →
          ∃ b1, s1.r.headers[k]? = some b1 ∧ y = addInt b1.Pos.Y b1.Sz.Height) ∧
        (ai.Open = true →
          ∃ d1, s1.objects[ai.Detail]? = some d1 ∧ y = addInt d1.Pos.Y d1.Sz.Height)) ∧
      (s.a.Items = [] → y = 0) := by
  have hwf := (Refresh_spec hr).2.2.2.2.2
  have hcache := cache_of_Refresh hr
  obtain ⟨o1, h1, hrun, _, hplaced, hobj, _, hpos⟩ :=
    layoutLoop_run host s size.Width hcache hwf s.a.Items 0 s.objects s.r.headers rfl
      (sameMin_refl _) (sameFace_refl _)
  rw [cursorAt_zero] at hrun
  refine ⟨{ s with objects := o1, r := { headers := h1 } }, cursorAt host s s.a.Items.length,
    { Width := specWidth host s, Height := wrapInt (specHeight host s) }, ?_, ?_,
    MinSize_eq host hwf hcache, cursorAt_length host s, ?_, ?_, ?_, ?_⟩
  · simp only [Layout, hrun]
  · simp only [layoutCursor, hrun, Option.map_some']
  · intro k hk
    obtain ⟨b1, hb1, hp1, hs1, _⟩ := hplaced k (by omega) hk
    exact ⟨b1, hb1, ⟨by rw [hp1], hs1⟩, by rw [hp1]⟩
  · intro k p ai hp ha hopen
    obtain ⟨d1, hd1, hpl⟩ := hobj ai.Detail (Or.inr ⟨k, p, ai, by omega, hp, ha, hopen, rfl⟩)
    refine ⟨d1, hd1, hpl, fun hlater => ?_⟩
    obtain ⟨d2, hd2, hp2, _⟩ := hpos k p ai (by omega) hp ha hopen hlater
    have e : d1 = d2 := Option.some.inj (hd1.symm.trans hd2)
    rw [e, hp2]
  · intro k p ai hk hp ha
    have hio : isOpen s.items p = ai.Open := by simp [isOpen, ha]
    refine ⟨fun hopen => ?_, fun hopen => ?_⟩
    · obtain ⟨b1, hb1, hp1, hs1, hm1⟩ := hplaced k (by omega) (by omega)
      refine ⟨b1, hb1, ?_⟩
      rw [← hk, ← cursorAt_succ_closed host s hp (by rw [hio]; exact hopen), hp1, hs1, hm1]
    · obtain ⟨d1, hd1, hpl⟩ := hobj ai.Detail (Or.inr ⟨k, p, ai, by omega, hp, ha, hopen, rfl⟩)
      obtain ⟨d2, hd2, hp2, hm2⟩ := hpos k p ai (by omega) hp ha hopen
        (fun j q aq hj hq _ _ => by
          rw [List.getElem?_eq_none (by omega)] at hq
          exact absurd hq (by simp))
      have e : d1 = d2 := Option.some.inj (hd1.symm.trans hd2)
      subst e
      refine ⟨d1, hd1, ?_⟩
      rw [← hk, ← cursorAt_succ_open host s hp (by rw [hio]; exact hopen), hp2, hpl.2, hm2]
  · intro hnil
    rw [hnil]
    exact cursorAt_zero host s

/-- Witness for `Layout_agrees_with_MinSize`: two items, the second open,
laid out in 300 by 500; the headers are put at `y = 0` and `y = 24`, the open
detail pane, 60 high, at `y = 48`, and the cursor ends at its bottom edge,
108, the `MinSize` height. -/
theorem Layout_agrees_with_MinSize_witness :
    layoutCursor exHost exTwoSecondOpen { Width := 300, Height := 500 } =
      (MinSize exHost exTwoSecondOpen).map Size.Height ∧
    layoutCursor exHost exTwoSecondOpen { Width := 300, Height := 500 } = some 108 ∧
    (Layout exHost exTwoSecondOpen { Width := 300, Height := 500 }).map
      (fun t => t.r.headers.map (fun b => b.Pos.Y)) = some [0, 24] ∧
    (Layout exHost exTwoSecondOpen { Width := 300, Height := 500 }).map
      (fun t => t.objects.map (fun d => (d.Pos.Y, d.Sz.Height))) = some [(0, 0), (48, 60)] := by
  obtain ⟨s1, y, sz, _, h2, h3, h4, _⟩ :=
    Layout_agrees_with_MinSize exHost exTwoSecondOpen exTwoSecondOpen
      { Width := 300, Height := 500 } (by decide)
  refine ⟨?_, by decide, by decide, by decide⟩
  rw [h2, h3, h4]
  rfl

/-! ### The height added by the open items -/

/-- In a synced state the height of the spec is the height with every item
closed plus what the open entries add. -/
theorem specHeight_split (host : Host) {s : State} (hsy : synced s) :
    specHeight host s = closedHeight host s + openHeight host s := by
  unfold specHeight closedHeight openHeight
  have h1 : s.a.Items.enum.map (entryHeight host s) =
      s.a.Items.enum.map (fun e => (headerOf host s.items e.2 false).Height +
        (if isOpen s.items e.2 then openGain host s e.2 else 0)) := by
    refine List.map_congr_left (fun e he => ?_)
    obtain ⟨k, q⟩ := e
    have hk : s.a.Items[k]? = some q := List.mk_mem_enum_iff_getElem?.1 he
    obtain ⟨b, ai, _, hai, _⟩ := hsy k q hk
    simp only [entryHeight, synced_headerMin hsy hk hai, openGain, headerOf, hai, isOpen]
    cases ai.Open
    · simp
    · simp only [if_true]
      ring
  have h2 : ∀ f : Nat → Int, (s.a.Items.enum.map (fun e : Nat × Nat => f e.2)) =
      s.a.Items.map f := by
    intro f
    conv_rhs => rw [← List.enum_map_snd s.a.Items]
    rw [List.map_map]
    rfl
  rw [h1, List.sum_map_add, h2 (fun q => (headerOf host s.items q false).Height),
    h2 (fun q => if isOpen s.items q then openGain host s q else 0)]
  ring

theorem headerOf_congr (host : Host) {items items1 : List AccordionItem}
    (hsh : sameShape items items1) (q : Nat) (o : Bool) :
    headerOf host items1 q o = headerOf host items q o := by
  have hshq := sameShape_getElem? hsh q
  unfold headerOf
  cases hai : items[q]? with
  | none =>
    cases hai1 : items1[q]? with
    | none => rfl
    | some ai1 => simp [hai, hai1] at hshq
  | some ai =>
    cases hai1 : items1[q]? with
    | none => simp [hai, hai1] at hshq
    | some ai1 =>
      simp only [hai, hai1, Option.map_some', Option.some.injEq, eraseOpen,
        AccordionItem.mk.injEq, and_true] at hshq
      simp only [hshq.1]

/-- Between two states with the same container and the same items up to
their flags, the height with every item closed is the same. -/
theorem closedHeight_congr (host : Host) {s s1 : State} (ha : s1.a = s.a)
    (hsh : sameShape s.items s1.items) :
    closedHeight host s1 = closedHeight host s := by
  unfold closedHeight
  rw [ha]
  congr 2
  refine List.map_congr_left (fun q _ => ?_)
  rw [headerOf_congr host hsh]

theorem openGain_congr (host : Host) {s s1 : State} (hsh : sameShape s.items s1.items)
    (hmin : sameMin s.objects s1.objects) (hwf : wellFormed s = true) {q : Nat}
    (hq : q ∈ s.a.Items) : openGain host s1 q = openGain host s q := by
  unfold openGain
  rw [detailMin_congr hsh hmin hwf hq, headerOf_congr host hsh, headerOf_congr host hsh]

/-- The height added by the open entries of a state `s1` that differs from
`s` in flags (and positions) only, from the flags of `s1`. -/
theorem openHeight_of_flags (host : Host) {s s1 : State} (ha : s1.a = s.a)
    (hsh : sameShape s.items s1.items) (hmin : sameMin s.objects s1.objects)
    (hwf : wellFormed s = true) (c : Nat → Int)
    (hc : ∀ q ∈ s.a.Items, (if isOpen s1.items q then openGain host s q else 0) = c q) :
    openHeight host s1 = (s.a.Items.map c).sum := by
  unfold openHeight
  rw [ha]
  congr 1
  refine List.map_congr_left (fun q hq => ?_)
  rw [openGain_congr host hsh hmin hwf hq]
  exact hc q hq

/-- The heights that `MinSize` returns in two synced states whose exact
heights lie in the range of `int` and that differ in flags (and positions)
only differ by what the open entries add. -/
theorem MinSize_height_diff (host : Host) {s s1 : State} {sz sz1 : Size}
    (hwf : wellFormed s = true) (hcache : s.a.Items.length ≤ s.r.headers.length)
    (hwf1 : wellFormed s1 = true) (hcache1 : s1.a.Items.length ≤ s1.r.headers.length)
    (hsy : synced s) (hsy1 : synced s1) (ha : s1.a = s.a)
    (hsh : sameShape s.items s1.items)
    (hsz : MinSize host s = some sz) (hsz1 : MinSize host s1 = some sz1)
    (hr : inIntRange (specHeight host s)) (hr1 : inIntRange (specHeight host s1)) :
    sz1.Height - sz.Height = openHeight host s1 - openHeight host s := by
  rw [MinSize_eq host hwf hcache, wrapInt_of_inIntRange hr] at hsz
  rw [MinSize_eq host hwf1 hcache1, wrapInt_of_inIntRange hr1] at hsz1
  obtain rfl := Option.some.inj hsz
  obtain rfl := Option.some.inj hsz1
  simp only [specHeight_split host hsy, specHeight_split host hsy1,
    closedHeight_congr host ha hsh]
  ring

/-! ## Opening, closing and the minimum height -/

/-- C10, refuted as stated: in single-open mode, with the first item open
over a detail pane 60 high and the second closed over a detail pane 10 high,
`Open(1)` closes the first item and takes the `MinSize` height from 108 down
to 58; with one closed item over a detail pane of minimum height -10,
`Open(0)` takes the height from 20 down to 14; and with one closed item over
a detail pane of minimum height `2^63 - 1`, `Open(0)` takes the height from
20 to `-2^63 + 23`, as the `int` additions wrap around. -/
theorem Open_lowers_height :
    exMixed.a.MultiOpen = false ∧ openFlag exMixed 1 = some false ∧
    (MinSize exHost exMixed).map Size.Height = some 108 ∧
    ((Open exHost exMixed 1).bind (MinSize exHost)).map Size.Height = some 58 ∧
    openFlag exNegClosed 0 = some false ∧
    (MinSize exHost exNegClosed).map Size.Height = some 20 ∧
    ((Open exHost exNegClosed 0).bind (MinSize exHost)).map Size.Height = some 14 ∧
    openFlag exHugeClosed 0 = some false ∧
    (MinSize exHost exHugeClosed).map Size.Height = some 20 ∧
    ((Open exHost exHugeClosed 0).bind (MinSize exHost)).map Size.Height =
      some (-9223372036854775785) := by
  decide

/-- C10, amended: for every refreshed container state and every valid index
whose item is closed, `Open(index)` returns, and if the exact heights before
and after lie in the range of `int` then the `MinSize` height after is greater
than or equal to the height before in exactly these cases, where the gain of
an entry is the padding plus the detail's minimum height plus the change of
the header's minimum height from the closed icon to the open one: in
multi-open mode when the gain of the item is not negative; in single-open mode
when the gains of the entries open before the call add up to no more than the
gains of the entries that list the item, which are open after the call, or to
no more than 0 if the item is listed again after `index`, when no entry is
open after the call. -/
theorem MinSize_height_Open (host : Host) (s0 s : State) (index : Int) (p : Nat)
    (hr : Refresh host s0 = some s)
    (h0 : 0 ≤ index) (hp : s.a.Items[index.toNat]? = some p)
    (hclosed : isOpen s.items p = false) :
    ∃ s1 sz sz1, Open host s index = some s1 ∧ MinSize host s = some sz ∧
      MinSize host s1 = some sz1 ∧
      (inIntRange (specHeight host s) → inIntRange (specHeight host s1) →
        (s.a.MultiOpen = true → (sz.Height ≤ sz1.Height ↔ 0 ≤ openGain host s p)) ∧
        (s.a.MultiOpen = false → p ∉ s.a.Items.drop (index.toNat + 1) →
          (sz.Height ≤ sz1.Height ↔
            openHeight host s ≤ (s.a.Items.count p : Int) * openGain host s p)) ∧
        (s.a.MultiOpen = false → p ∈ s.a.Items.drop (index.toNat + 1) →
          (sz.Height ≤ sz1.Height ↔ openHeight host s ≤ 0))) := by
  obtain ⟨_, _, _, _, hsy, hwf⟩ := Refresh_spec hr
  have hcache := cache_of_Refresh hr
  have hlt : index.toNat < s.a.Items.length := (List.getElem?_eq_some.1 hp).1
  have hpmem : p ∈ s.a.Items := List.mem_iff_getElem?.2 ⟨_, hp⟩
  obtain ⟨s1, hs1⟩ := Option.isSome_iff_exists.1 (Open_isSome host index hwf)
  obtain ⟨items1, ho, hr1⟩ := Open_spec h0 (by omega) hs1
  obtain ⟨r1', r2', r3', _, hsy1, hwf1⟩ := Refresh_spec hr1
  have r1 : s1.items = items1 := r1'
  have r2 : s1.a = s.a := r2'
  have r3 : sameMin s.objects s1.objects := r3'
  clear r1' r2' r3'
  have hcache1 := cache_of_Refresh hr1
  have hsh : sameShape s.items s1.items := by
    rw [r1]; exact openLoop_sameShape _ _ _ _ _ _ ho
  have hsz := MinSize_eq host hwf hcache
  have hsz1 := MinSize_eq host hwf1 hcache1
  refine ⟨s1, _, _, hs1, hsz, hsz1, fun hrange hrange1 => ?_⟩
  have hdiff := MinSize_height_diff host hwf hcache hwf1 hcache1 hsy hsy1 r2 hsh
    hsz hsz1 hrange hrange1
  refine ⟨fun hm => ?_, fun hm hl => ?_, fun hm hl => ?_⟩
  · rw [hm] at ho
    have hflag : openHeight host s1 = (s.a.Items.map (fun q =>
        (if q = p then openGain host s p else 0) +
        (if isOpen s.items q then openGain host s q else 0))).sum := by
      refine openHeight_of_flags host r2 hsh r3 hwf _ (fun q hq => ?_)
      rw [r1]
      by_cases e : q = p
      · subst e
        rw [openLoop_true_multi index q _ 0 index.toNat _ _ hp (toNat_cast h0) ho, hclosed]
        simp
      · have hfr := openLoop_frame true index q _ 0 _ _ (fun k hk => ⟨fun e1 => ?_, rfl⟩) ho
        · rw [isOpen_eq_of_getElem? hfr]
          simp [e]
        · have hk1 : k = index.toNat := by omega
          rw [hk1, hp] at hk
          exact e (Option.some.inj hk).symm
    rw [List.sum_map_add, sum_ite_eq_count] at hflag
    have hopen0 : (s.a.Items.map (fun q =>
        if isOpen s.items q then openGain host s q else 0)).sum =
        openHeight host s := rfl
    rw [hopen0] at hflag
    rw [← count_mul_nonneg_iff hpmem]
    constructor <;> intro h <;> omega
  · rw [hm] at ho
    have hflag : openHeight host s1 = (s.a.Items.map (fun q =>
        if q = p then openGain host s p else 0)).sum := by
      refine openHeight_of_flags host r2 hsh r3 hwf _ (fun q hq => ?_)
      rw [r1]
      by_cases e : q = p
      · subst e
        rw [openLoop_true false index q _ 0 index.toNat _ _ hp (toNat_cast h0) hl ho]
        simp
      · rw [openLoop_false index q _ 0 _ _ hq (fun k hk e1 => ?_) ho]
        · simp [e]
        · have hk1 : k = index.toNat := by omega
          rw [hk1, hp] at hk
          exact e (Option.some.inj hk).symm
    rw [sum_ite_eq_count] at hflag
    constructor <;> intro h <;> omega
  · rw [hm] at ho
    have hflag : openHeight host s1 = (s.a.Items.map (fun _ => (0 : Int))).sum := by
      refine openHeight_of_flags host r2 hsh r3 hwf _ (fun q hq => ?_)
      rw [r1]
      by_cases e : q = p
      · subst e
        obtain ⟨k, hk⟩ := List.mem_iff_getElem?.1 hl
        rw [List.getElem?_drop] at hk
        rw [openLoop_false_later index q _ 0 _ _
          ⟨index.toNat + 1 + k, hk, by push_cast; omega⟩ ho]
        simp
      · rw [openLoop_false index q _ 0 _ _ hq (fun k hk e1 => ?_) ho]
        · simp
        · have hk1 : k = index.toNat := by omega
          rw [hk1, hp] at hk
          exact e (Option.some.inj hk).symm
    have hz : (s.a.Items.map (fun _ => (0 : Int))).sum = 0 := by simp
    rw [hz] at hflag
    constructor <;> intro h <;> omega

/-- Witness for `MinSize_height_Open`: single-open mode, the second item open
over a detail pane 10 high; `Open(0)` of the item with the detail pane 60
high closes it and takes the height from 58 up to 108. -/
theorem MinSize_height_Open_witness :
    (MinSize exHost exMixedShort).map Size.Height = some 58 ∧
    (MinSize exHost exMixedShortFirst).map Size.Height = some 108 ∧
    ∃ s1 sz sz1, Open exHost exMixedShort 0 = some s1 ∧
      MinSize exHost exMixedShort = some sz ∧ MinSize exHost s1 = some sz1 ∧
      sz.Height ≤ sz1.Height := by
  obtain ⟨s1, sz, sz1, h1, h2, h3, h4⟩ :=
    MinSize_height_Open exHost exMixedShort exMixedShort 0 0 (by decide)
      (by decide) (by decide) (by decide)
  have e : exMixedShortFirst = s1 := by simp [exMixedShortFirst, h1]
  subst e
  exact ⟨by decide, by decide, _, sz, sz1, h1, h2, h3,
    ((h4 (by decide) (by decide)).2.1 (by decide) (by decide)).2 (by decide)⟩

/-- C11, refuted as stated: with padding 4, a header 20 high and one open item
whose detail pane has the minimum height -10, `Close(0)` takes the `MinSize`
height from 14 up to 20; and with one open item whose detail pane has the
minimum height `2^63 - 1`, where the `int` additions of `MinSize()` have
wrapped around to `-2^63 + 23`, `Close(0)` takes the height up to 20. -/
theorem Close_raises_height :
    openFlag exNeg 0 = some true ∧
    (MinSize exHost exNeg).map Size.Height = some 14 ∧
    ((Close exHost exNeg 0).bind (MinSize exHost)).map Size.Height = some 20 ∧
    openFlag exHuge 0 = some true ∧
    (MinSize exHost exHuge).map Size.Height = some (-9223372036854775785) ∧
    ((Close exHost exHuge 0).bind (MinSize exHost)).map Size.Height = some 20 := by
  decide

/-- C11, amended: for every refreshed container state, in either mode, and
every valid index whose item is open, `Close(index)` returns, and if the
exact heights before and after lie in the range of `int` then the `MinSize`
height after is less than or equal to the height before exactly when the gain
of the item is not negative: the padding plus the detail's minimum height
plus the change of the header's minimum height from the closed icon to the
open one. -/
theorem MinSize_height_Close (host : Host) (s0 s : State) (index : Int) (p : Nat)
    (hr : Refresh host s0 = some s)
    (h0 : 0 ≤ index) (hp : s.a.Items[index.toNat]? = some p)
    (hopen : isOpen s.items p = true) :
    ∃ s1 sz sz1, Close host s index = some s1 ∧ MinSize host s = some sz ∧
      MinSize host s1 = some sz1 ∧
      (inIntRange (specHeight host s) → inIntRange (specHeight host s1) →
        (sz1.Height ≤ sz.Height ↔ 0 ≤ openGain host s p)) := by
  obtain ⟨_, _, _, _, hsy, hwf⟩ := Refresh_spec hr
  have hcache := cache_of_Refresh hr
  have hlt : index.toNat < s.a.Items.length := (List.getElem?_eq_some.1 hp).1
  have hpmem : p ∈ s.a.Items := List.mem_iff_getElem?.2 ⟨_, hp⟩
  obtain ⟨s1, hs1⟩ := Option.isSome_iff_exists.1 (Close_isSome host index hwf)
  obtain ⟨p1, items1, hp1, ho, hr1⟩ := Close_spec h0 (by omega) hs1
  rw [hp] at hp1
  obtain rfl := Option.some.inj hp1
  obtain ⟨r1', r2', r3', _, hsy1, hwf1⟩ := Refresh_spec hr1
  have r1 : s1.items = items1 := r1'
  have r2 : s1.a = s.a := r2'
  have r3 : sameMin s.objects s1.objects := r3'
  clear r1' r2' r3'
  have hcache1 := cache_of_Refresh hr1
  have hsh : sameShape s.items s1.items := by
    rw [r1]; exact setOpen_sameShape ho
  have hsz := MinSize_eq host hwf hcache
  have hsz1 := MinSize_eq host hwf1 hcache1
  refine ⟨s1, _, _, hs1, hsz, hsz1, fun hrange hrange1 => ?_⟩
  have hdiff := MinSize_height_diff host hwf hcache hwf1 hcache1 hsy hsy1 r2 hsh
    hsz hsz1 hrange hrange1
  have hflag : openHeight host s1 = (s.a.Items.map (fun q =>
      (if q = p then -(openGain host s p) else 0) +
      (if isOpen s.items q then openGain host s q else 0))).sum := by
    refine openHeight_of_flags host r2 hsh r3 hwf _ (fun q hq => ?_)
    rw [r1]
    by_cases e : q = p
    · subst e
      rw [setOpen_isOpen_self ho, hopen]
      simp only [Bool.false_eq_true, if_false, if_true]
      ring
    · rw [setOpen_isOpen_ne ho e]
      simp [e]
  rw [List.sum_map_add, sum_ite_eq_count] at hflag
  have hopen0 : (s.a.Items.map (fun q =>
      if isOpen s.items q then openGain host s q else 0)).sum =
      openHeight host s := rfl
  rw [hopen0, mul_neg] at hflag
  rw [← count_mul_nonneg_iff hpmem]
  constructor <;> intro h <;> omega

/-- Witness for `MinSize_height_Close`: with the second of two items open,
`Close(1)` takes the height from 108 down to 44. -/
theorem MinSize_height_Close_witness :
    (MinSize exHost exTwoSecondOpen).map Size.Height = some 108 ∧
    (MinSize exHost exTwoSecondClosed).map Size.Height = some 44 ∧
    ∃ s1 sz sz1, Close exHost exTwoSecondOpen 1 = some s1 ∧
      MinSize exHost exTwoSecondOpen = some sz ∧ MinSize exHost s1 = some sz1 ∧
      sz1.Height ≤ sz.Height := by
  obtain ⟨s1, sz, sz1, h1, h2, h3, h4⟩ :=
    MinSize_height_Close exHost exTwoSecondOpen exTwoSecondOpen 1 1 (by decide)
      (by decide) (by decide) (by decide)
  have e : exTwoSecondClosed = s1 := by simp [exTwoSecondClosed, h1]
  subst e
  exact ⟨by decide, by decide, _, sz, sz1, h1, h2, h3,
    (h4 (by decide) (by decide)).2 (by decide)⟩

end widget
